import Mathlib

/-!
CryptoVault: the funding ledger and the confidential order book.

The first part is a shallow embedding of the Solidity contract `SimpleCryptoVault` that is
carried as source text in `src/simple-deploy.js` (lines 28-110), together with the
properties of its funding life cycle.  The second part models, from the specification, the
operations whose contract sources are absent.

Modelling conventions.

* `uint256` values are natural numbers.  Solidity `^0.8` arithmetic is checked: an
  operation whose exact result leaves the range `[0, 2^256)` reverts with an arithmetic
  panic.  `checkedAdd`, `checkedMul`, `checkedSub` model this.
* A `mapping` is a total function whose absent keys read as the zero value.
* A function body is a function `State → Except Revert α × State`: on a revert the second
  component is the storage as it was when the revert was raised.  `transact` is the
  message-call boundary of the EVM: it keeps the new state on success and restores the
  state from before the call on a revert.
* `msg.sender`, `block.timestamp` are explicit (`Msg`).  `msg.value` is an argument of the
  only payable function, `contribute`; `createProject` and `withdrawFunds` are not payable
  and take no value.
* `payable(a).transfer(v)` reverts when the contract balance is below `v` or when the
  recipient does not accept the payment; acceptance is the parameter `accepts`.  The
  2300 gas stipend of `transfer` does not allow the recipient to write storage, so a
  transfer is one step.
* Events are not part of the state and are not modelled; gas is not modelled.
-/

namespace SimpleCryptoVault

/-- Exclusive upper bound of the `uint256` range. -/
def UINT256_BOUND : Nat := 2 ^ 256

/-- An account address. -/
abbrev Address := Nat

/-- The `struct Project` of the contract. -/
structure Project where
  id : Nat
  creator : Address
  title : String
  description : String
  fundingGoal : Nat
  deadline : Nat
  isActive : Bool
  totalRaised : Nat
  contributorCount : Nat
deriving DecidableEq

/-- The value every storage slot of type `Project` reads before it is written. -/
def Project.zero : Project :=
  { id := 0, creator := 0, title := "", description := "", fundingGoal := 0, deadline := 0,
    isActive := false, totalRaised := 0, contributorCount := 0 }

/-- The storage of the contract together with its ether balance. -/
structure State where
  projects : Nat → Project
  contributions : Nat → Address → Nat
  projectCounter : Nat
  platformFee : Nat
  owner : Address
  balance : Nat

/-- The ways a call can revert: the `require` messages, the checked-arithmetic panic and a
failed `transfer`. -/
inductive Revert where
  | titleRequired
  | goalMustBePositive
  | invalidDuration
  | projectNotActive
  | projectExpired
  | mustContribute
  | onlyCreator
  | cannotWithdraw
  | notActive
  | arithmeticPanic
  | transferFailed
deriving DecidableEq

/-- The message and block context of a call: `msg.sender` and `block.timestamp`. -/
structure Msg where
  sender : Address
  timestamp : Nat

/-- Checked `uint256` addition. -/
def checkedAdd (a b : Nat) : Except Revert Nat :=
  if a + b < UINT256_BOUND then .ok (a + b) else .error .arithmeticPanic

/-- Checked `uint256` multiplication. -/
def checkedMul (a b : Nat) : Except Revert Nat :=
  if a * b < UINT256_BOUND then .ok (a * b) else .error .arithmeticPanic

/-- Checked `uint256` subtraction. -/
def checkedSub (a b : Nat) : Except Revert Nat :=
  if b ≤ a then .ok (a - b) else .error .arithmeticPanic

/-- Write of one key of a `mapping`. -/
def setAt {α : Type} (m : Nat → α) (k : Nat) (v : α) : Nat → α :=
  fun i => if i = k then v else m i

/-- The message-call boundary: a revert restores the state from before the call. -/
def transact {α : Type} (body : State → Except Revert α × State) (s : State) :
    Except Revert α × State :=
  match body s with
  | (.ok a, s') => (.ok a, s')
  | (.error e, _) => (.error e, s)

/-- The state the constructor leaves: `owner = msg.sender`, `platformFee = 250`. -/
def deploy (deployer : Address) : State :=
  { projects := fun _ => Project.zero
    contributions := fun _ _ => 0
    projectCounter := 0
    platformFee := 250
    owner := deployer
    balance := 0 }

/-- Body of `createProject` (source lines 54-68). -/
def createProjectBody (msg : Msg) (title description : String) (goal durationDays : Nat)
    (s : State) : Except Revert Nat × State :=
  if ¬ (title.utf8ByteSize > 0) then (.error .titleRequired, s) else
  if ¬ (goal > 0) then (.error .goalMustBePositive, s) else
  if ¬ (durationDays > 0 ∧ durationDays ≤ 365) then (.error .invalidDuration, s) else
  match checkedAdd s.projectCounter 1 with
  | .error e => (.error e, s)
  | .ok counter =>
    let s1 : State := { s with projectCounter := counter }
    match checkedMul durationDays 86400 with
    | .error e => (.error e, s1)
    | .ok seconds =>
      match checkedAdd msg.timestamp seconds with
      | .error e => (.error e, s1)
      | .ok deadline =>
        let s2 : State :=
          { s1 with
            projects := setAt s1.projects s1.projectCounter
              { id := s1.projectCounter, creator := msg.sender, title := title,
                description := description, fundingGoal := goal, deadline := deadline,
                isActive := true, totalRaised := 0, contributorCount := 0 } }
        (.ok s2.projectCounter, s2)

/-- External function `createProject`. -/
def createProject (msg : Msg) (title description : String) (goal durationDays : Nat)
    (s : State) : Except Revert Nat × State :=
  transact (createProjectBody msg title description goal durationDays) s

/-- Body of `contribute` (source lines 70-84), run on the state that already holds the
attached value. -/
def contributeBody (msg : Msg) (value : Nat) (projectId : Nat) (s : State) :
    Except Revert Unit × State :=
  let project := s.projects projectId
  if ¬ (project.isActive = true) then (.error .projectNotActive, s) else
  if ¬ (msg.timestamp < project.deadline) then (.error .projectExpired, s) else
  if ¬ (value > 0) then (.error .mustContribute, s) else
  match (if s.contributions projectId msg.sender = 0
          then checkedAdd project.contributorCount 1
          else .ok project.contributorCount) with
  | .error e => (.error e, s)
  | .ok count =>
    let s1 : State :=
      { s with projects := setAt s.projects projectId { project with contributorCount := count } }
    match checkedAdd (s1.contributions projectId msg.sender) value with
    | .error e => (.error e, s1)
    | .ok contributed =>
      let s2 : State :=
        { s1 with
          contributions := setAt s1.contributions projectId
            (setAt (s1.contributions projectId) msg.sender contributed) }
      match checkedAdd (s2.projects projectId).totalRaised value with
      | .error e => (.error e, s2)
      | .ok raised =>
        (.ok (),
          { s2 with
            projects := setAt s2.projects projectId
              { s2.projects projectId with totalRaised := raised } })

/-- External payable function `contribute`: the attached value joins the balance before
the body runs and leaves it again on a revert. -/
def contribute (msg : Msg) (value : Nat) (projectId : Nat) (s : State) :
    Except Revert Unit × State :=
  match contributeBody msg value projectId { s with balance := s.balance + value } with
  | (.ok a, s') => (.ok a, s')
  | (.error e, _) => (.error e, s)

/-- The statement `payable(recipient).transfer(amount)`. -/
def transfer (accepts : Address → Nat → Bool) (recipient : Address) (amount : Nat)
    (s : State) : Except Revert Unit × State :=
  if s.balance < amount then (.error .transferFailed, s) else
  if ¬ (accepts recipient amount = true) then (.error .transferFailed, s) else
  (.ok (), { s with balance := s.balance - amount })

/-- Body of `withdrawFunds` (source lines 86-99).  The result lists the payments made, in
order, as pairs of recipient and amount. -/
def withdrawFundsBody (accepts : Address → Nat → Bool) (msg : Msg) (projectId : Nat)
    (s : State) : Except Revert (List (Address × Nat)) × State :=
  let project := s.projects projectId
  if ¬ (project.creator = msg.sender) then (.error .onlyCreator, s) else
  if ¬ (project.totalRaised ≥ project.fundingGoal ∨ msg.timestamp ≥ project.deadline)
    then (.error .cannotWithdraw, s) else
  if ¬ (project.isActive = true) then (.error .notActive, s) else
  let s1 : State :=
    { s with projects := setAt s.projects projectId { project with isActive := false } }
  let amount := (s1.projects projectId).totalRaised
  match checkedMul amount s1.platformFee with
  | .error e => (.error e, s1)
  | .ok product =>
    let fee := product / 10000
    match checkedSub amount fee with
    | .error e => (.error e, s1)
    | .ok netAmount =>
      match transfer accepts msg.sender netAmount s1 with
      | (.error e, s2) => (.error e, s2)
      | (.ok _, s2) =>
        match transfer accepts s2.owner fee s2 with
        | (.error e, s3) => (.error e, s3)
        | (.ok _, s3) => (.ok [(msg.sender, netAmount), (s2.owner, fee)], s3)

/-- External function `withdrawFunds`. -/
def withdrawFunds (accepts : Address → Nat → Bool) (msg : Msg) (projectId : Nat)
    (s : State) : Except Revert (List (Address × Nat)) × State :=
  transact (withdrawFundsBody accepts msg projectId) s

/-- View function `getProject`. -/
def getProject (s : State) (projectId : Nat) : Project :=
  s.projects projectId

/-- View function `getUserContribution`. -/
def getUserContribution (s : State) (projectId : Nat) (user : Address) : Nat :=
  s.contributions projectId user

/-- The empty payable `receive()` function: the attached value joins the balance. -/
def receive (value : Nat) (s : State) : Except Revert Unit × State :=
  (.ok (), { s with balance := s.balance + value })

/-- The external entry points of the contract. -/
inductive Call where
  | createProject (title description : String) (goal durationDays : Nat)
  | contribute (projectId : Nat) (value : Nat)
  | withdrawFunds (projectId : Nat)
  | receive (value : Nat)

/-- One transaction: the caller, the block time, which payments the recipients of this
transaction accept, and the entry point called. -/
structure Tx where
  sender : Address
  timestamp : Nat
  accepts : Address → Nat → Bool
  call : Call

/-- What a transaction returned. -/
inductive Outcome where
  | reverted (e : Revert)
  | created (id : Nat)
  | contributed
  | withdrew (payments : List (Address × Nat))
  | received
deriving DecidableEq

/-- Run one transaction. -/
def exec (tx : Tx) (s : State) : Outcome × State :=
  let msg : Msg := { sender := tx.sender, timestamp := tx.timestamp }
  match tx.call with
  | .createProject title description goal durationDays =>
    match createProject msg title description goal durationDays s with
    | (.ok id, s') => (.created id, s')
    | (.error e, s') => (.reverted e, s')
  | .contribute projectId value =>
    match contribute msg value projectId s with
    | (.ok _, s') => (.contributed, s')
    | (.error e, s') => (.reverted e, s')
  | .withdrawFunds projectId =>
    match withdrawFunds tx.accepts msg projectId s with
    | (.ok payments, s') => (.withdrew payments, s')
    | (.error e, s') => (.reverted e, s')
  | .receive value =>
    match receive value s with
    | (.ok _, s') => (.received, s')
    | (.error e, s') => (.reverted e, s')

/-- The state after a sequence of transactions. -/
def run (s : State) : List Tx → State
  | [] => s
  | tx :: txs => run (exec tx s).2 txs

/-- The outcomes of a sequence of transactions, in order. -/
def outcomes (s : State) : List Tx → List Outcome
  | [] => []
  | tx :: txs => (exec tx s).1 :: outcomes (exec tx s).2 txs

/-- The block times of a sequence of transactions never go back, starting from time `t`. -/
def chronological (t : Nat) : List Tx → Prop
  | [] => True
  | tx :: txs => t ≤ tx.timestamp ∧ chronological tx.timestamp txs

/-- The entry a transaction adds to the record of accepted contributions: project,
contributor and attached value when it is a `contribute` call that did not revert. -/
def contributionOf (tx : Tx) (s : State) : List (Nat × Address × Nat) :=
  match tx.call with
  | .contribute projectId value =>
    match (exec tx s).1 with
    | .contributed => [(projectId, tx.sender, value)]
    | _ => []
  | _ => []

/-- The accepted contributions of a sequence of transactions, in order. -/
def contributionLog (s : State) : List Tx → List (Nat × Address × Nat)
  | [] => []
  | tx :: txs => contributionOf tx s ++ contributionLog (exec tx s).2 txs

/-- The attached values of the accepted contributions to project `p`. -/
def valuesFor (p : Nat) (log : List (Nat × Address × Nat)) : List Nat :=
  (log.filter (fun e => e.1 = p)).map (fun e => e.2.2)

/-- The contributors of the accepted contributions to project `p`, with repetitions. -/
def contributorsFor (p : Nat) (log : List (Nat × Address × Nat)) : List Address :=
  (log.filter (fun e => e.1 = p)).map (fun e => e.2.1)

/-- The ids returned by the successful `createProject` calls of a sequence, in order. -/
def createdIds (s : State) : List Tx → List Nat
  | [] => []
  | tx :: txs =>
    (match tx.call, (exec tx s).1 with
      | .createProject _ _ _ _, .created id => [id]
      | _, _ => []) ++ createdIds (exec tx s).2 txs

/-- The payments of the successful `withdrawFunds(p)` calls of a sequence, in order. -/
def withdrawalsOf (p : Nat) (s : State) : List Tx → List (List (Address × Nat))
  | [] => []
  | tx :: txs =>
    (match tx.call, (exec tx s).1 with
      | .withdrawFunds q, .withdrew payments => if q = p then [payments] else []
      | _, _ => []) ++ withdrawalsOf p (exec tx s).2 txs

/-- Equality of call results is decidable, so that concrete runs can be evaluated. -/
instance instDecidableEqExcept {ε α : Type} [DecidableEq ε] [DecidableEq α] :
    DecidableEq (Except ε α) := fun a b =>
  match a, b with
  | .ok x, .ok y => if h : x = y then isTrue (by rw [h]) else isFalse (by intro c; cases c; exact h rfl)
  | .error x, .error y =>
    if h : x = y then isTrue (by rw [h]) else isFalse (by intro c; cases c; exact h rfl)
  | .ok _, .error _ => isFalse (by intro c; cases c)
  | .error _, .ok _ => isFalse (by intro c; cases c)

/-- Invariant of the reachable states: every project slot above `projectCounter` has never
been written, and the fee rate is the constant of the declaration. -/
def WellFormed (s : State) : Prop :=
  (∀ q, s.projectCounter < q → s.projects q = Project.zero) ∧ s.platformFee = 250

/-- Invariant that ties the storage to the record `log` of accepted contributions. -/
def Ledger (s : State) (log : List (Nat × Address × Nat)) : Prop :=
  (∀ q, s.projectCounter < q → (s.projects q).isActive = false) ∧
  (∀ e ∈ log, e.1 ≤ s.projectCounter) ∧
  (∀ p, (s.projects p).totalRaised = (valuesFor p log).sum) ∧
  (∀ p, (s.projects p).contributorCount = (contributorsFor p log).toFinset.card) ∧
  (∀ p a, s.contributions p a = 0 ↔ a ∉ contributorsFor p log)

/-- Invariant of the runs whose block times never go back: at time `t` every inactive
project passes the goal-or-deadline test of `withdrawFunds`. -/
def Settled (s : State) (t : Nat) : Prop :=
  ∀ p, (s.projects p).isActive = false →
    (s.projects p).totalRaised ≥ (s.projects p).fundingGoal ∨ t ≥ (s.projects p).deadline

/-- A recipient policy under which every payment is accepted. -/
def acceptAll : Address → Nat → Bool := fun _ _ => true

/-- A concrete run: account 1 creates a project with goal 2000 and 30 days at time 100,
accounts 2 and 3 contribute 1000 each. -/
def fundedRun : List Tx :=
  [ { sender := 1, timestamp := 100, accepts := acceptAll,
      call := .createProject "Test Project" "Description" 2000 30 },
    { sender := 2, timestamp := 200, accepts := acceptAll, call := .contribute 1 1000 },
    { sender := 3, timestamp := 300, accepts := acceptAll, call := .contribute 1 1000 } ]

/-- The state after `fundedRun` on a contract deployed by account 0. -/
def fundedState : State := run (deploy 0) fundedRun

/-- The funding scenario of the tests, in wei: account 1 creates a project with a goal of
2 ether and 30 days at time 1000; accounts 2 and 3 contribute 1 ether each. -/
def endToEndRun : List Tx :=
  [ { sender := 1, timestamp := 1000, accepts := acceptAll,
      call := .createProject "Test Project" "Description" 2000000000000000000 30 },
    { sender := 2, timestamp := 2000, accepts := acceptAll,
      call := .contribute 1 1000000000000000000 },
    { sender := 3, timestamp := 3000, accepts := acceptAll,
      call := .contribute 1 1000000000000000000 } ]

end SimpleCryptoVault

/-!
The administrative operations of the full `CryptoVault` contract and the whole
`ConfidentialDEX` contract are exercised by `src/test/CryptoVault.test.js` and
`src/test/ConfidentialDEX.test.js`, but their Solidity sources are not among the source
files.  The definitions below model them from the specification (sections 3, 4 and 7) and
are marked as such.
-/

namespace CryptoVault

open SimpleCryptoVault

/-- The named failures of the administrative operations (specification, section 7). -/
inductive AdminFailure where
  | unauthorized
  | feeTooHigh
deriving DecidableEq

/-- Modelled from the spec: `updatePlatformFee` of the full `CryptoVault` contract, whose
source is missing (section 4.1: "administrator-only; fails `FeeTooHigh` if
`newFeeBps > 1000` (10%)").  The administrator is the `owner` the constructor sets; the
operation writes the `platformFee` that `withdrawFunds` reads. -/
def updatePlatformFee (sender : Address) (newFeeBps : Nat) (s : State) :
    Except AdminFailure Unit × State :=
  if ¬ (sender = s.owner) then (.error .unauthorized, s) else
  if newFeeBps > 1000 then (.error .feeTooHigh, s) else
  (.ok (), { s with platformFee := newFeeBps })

/-- Modelled from the spec: `emergencyPause` of the full `CryptoVault` contract, whose
source is missing (section 4.1: "administrator-only; forcibly sets `isActive=false`
regardless of goal/deadline state"). -/
def emergencyPause (sender : Address) (projectId : Nat) (s : State) :
    Except AdminFailure Unit × State :=
  if ¬ (sender = s.owner) then (.error .unauthorized, s) else
  (.ok (),
    { s with
      projects := setAt s.projects projectId { s.projects projectId with isActive := false } })

/-- A transaction of the funding ledger with its administrative operations: a transaction
of the contract in the sources, or one of the two modelled administrative calls. -/
inductive VaultTx where
  | ledger (tx : Tx)
  | updatePlatformFee (sender : Address) (newFeeBps : Nat)
  | emergencyPause (sender : Address) (projectId : Nat)

/-- Run one transaction of the funding ledger. -/
def execVault (vtx : VaultTx) (s : State) : State :=
  match vtx with
  | .ledger tx => (exec tx s).2
  | .updatePlatformFee sender newFeeBps => (updatePlatformFee sender newFeeBps s).2
  | .emergencyPause sender projectId => (emergencyPause sender projectId s).2

/-- The state after a sequence of transactions of the funding ledger. -/
def runVault (s : State) : List VaultTx → State
  | [] => s
  | vtx :: rest => runVault (execVault vtx s) rest

end CryptoVault

namespace ConfidentialDEX

open SimpleCryptoVault (Address setAt UINT256_BOUND)

/-- The named failures of the order book (specification, sections 4.2 and 7);
`transferFailed` is the failure of the asset transfer layer (section 5). -/
inductive Failure where
  | sameToken
  | feeTooHigh
  | alreadyExists
  | pairInactive
  | notFound
  | alreadyExecuted
  | slippageExceeded
  | insufficientLiquidity
  | insufficientShares
  | unauthorized
  | transferFailed
deriving DecidableEq

/-- The side of an order (specification, section 3). -/
inductive OrderType where
  | buy
  | sell
deriving DecidableEq

/-- Modelled from the spec: the `TradingPair` record (section 3). -/
structure TradingPair where
  id : Nat
  tokenA : Address
  tokenB : Address
  feeRate : Nat
  isActive : Bool
  price : Nat
  totalVolumeA : Nat
deriving DecidableEq

/-- Modelled from the spec: the `Order` record (section 3); the ciphertexts are opaque byte
sequences. -/
structure Order where
  id : Nat
  trader : Address
  tokenIn : Address
  tokenOut : Address
  encryptedAmountIn : List Nat
  encryptedAmountOut : List Nat
  orderType : OrderType
  isActive : Bool
deriving DecidableEq

/-- Modelled from the spec: the state of the order book (sections 2 and 3): the
administrator, the default fee rate, the pair and order tables, the order counter, the
per-trader index, the liquidity-share balances keyed by provider and pair id, and the
amount of each asset in the custody of the ledger. -/
structure State where
  owner : Address
  defaultFeeRate : Nat
  pairs : Nat → Option TradingPair
  orders : Nat → Option Order
  orderCounter : Nat
  userOrders : Address → List Nat
  shares : Address → Nat → Nat
  custody : Address → Nat

/-- What the specification leaves to the implementer, taken as parameters: the hash under
the pair id, the price a new pair starts with, the output amount of a swap as a function of
the pair (its `price` and `feeRate`), the input asset and the input amount, the number of
shares minted for a deposit, and the amounts of the two assets returned for burnt shares. -/
structure Formulas where
  pairHash : Address → Address → Nat
  defaultPrice : Nat
  amountOut : TradingPair → Address → Nat → Nat
  mintedShares : TradingPair → Nat → Nat → Nat
  redeemed : State → Nat → Nat → Nat × Nat

/-- Modelled from the spec: `getPairId`, "a symmetric function of the two identifiers (e.g.,
sort then hash)" (section 4.2), a 32-byte value. -/
def getPairId (f : Formulas) (tokenA tokenB : Address) : Nat :=
  f.pairHash (min tokenA tokenB) (max tokenA tokenB) % UINT256_BOUND

/-- Modelled from the spec: the state after deployment; the default fee rate of 30 basis
points is the one the deployment test reads. -/
def deploy (deployer : Address) : State :=
  { owner := deployer
    defaultFeeRate := 30
    pairs := fun _ => none
    orders := fun _ => none
    orderCounter := 0
    userOrders := fun _ => []
    shares := fun _ _ => 0
    custody := fun _ => 0 }

/-- Modelled from the spec: `createTradingPair` (section 4.2) with its three failures: the
same token twice, an existing record for the unordered pair, a fee rate of 1000 basis points
or more.  The specification does not say which failure is reported when several conditions
hold at once, and no test tells.  The record is looked up before the fee is tested, so that
the second creation of a pair is reported as already existing whatever its fee, which is how
the sentence on duplicate creation is read; a fee of 1000 or more fails in either order. -/
def createTradingPair (f : Formulas) (tokenA tokenB : Address) (feeRateBps : Nat) (s : State) :
    Except Failure Nat × State :=
  if tokenA = tokenB then (.error .sameToken, s) else
  match s.pairs (getPairId f tokenA tokenB) with
  | some _ => (.error .alreadyExists, s)
  | none =>
    if feeRateBps ≥ 1000 then (.error .feeTooHigh, s) else
    (.ok (getPairId f tokenA tokenB),
      { s with
        pairs := setAt s.pairs (getPairId f tokenA tokenB)
          (some
            { id := getPairId f tokenA tokenB, tokenA := tokenA, tokenB := tokenB,
              feeRate := feeRateBps, isActive := true, price := f.defaultPrice,
              totalVolumeA := 0 }) })

/-- Modelled from the spec: `createPrivateOrder` (section 4.2).  The proofs are accepted
without verification and are not part of the stored record. -/
def createPrivateOrder (f : Formulas) (caller tokenIn tokenOut : Address)
    (encIn encOut _proofIn _proofOut : List Nat) (orderType : OrderType) (s : State) :
    Except Failure Nat × State :=
  match s.pairs (getPairId f tokenIn tokenOut) with
  | none => (.error .pairInactive, s)
  | some pair =>
    if ¬ (pair.isActive = true) then (.error .pairInactive, s) else
    (.ok (s.orderCounter + 1),
      { s with
        orderCounter := s.orderCounter + 1
        orders := setAt s.orders (s.orderCounter + 1)
          (some
            { id := s.orderCounter + 1, trader := caller, tokenIn := tokenIn,
              tokenOut := tokenOut, encryptedAmountIn := encIn, encryptedAmountOut := encOut,
              orderType := orderType, isActive := true })
        userOrders := setAt s.userOrders caller (s.userOrders caller ++ [s.orderCounter + 1]) })

/-- Modelled from the spec: `executeOrder` (section 4.2): the order must exist (`NotFound`)
and be active (`AlreadyExecuted`); it is marked inactive. -/
def executeOrder (orderId : Nat) (s : State) : Except Failure Unit × State :=
  match s.orders orderId with
  | none => (.error .notFound, s)
  | some order =>
    if ¬ (order.isActive = true) then (.error .alreadyExecuted, s) else
    (.ok (), { s with orders := setAt s.orders orderId (some { order with isActive := false }) })

/-- Modelled from the spec: `swapTokens` (section 4.2).  `pays` tells whether the asset
transfer layer can move an amount of an asset from an account into custody. -/
def swapTokens (f : Formulas) (pays : Address → Address → Nat → Bool)
    (caller tokenIn tokenOut : Address) (amountIn minAmountOut : Nat) (s : State) :
    Except Failure Nat × State :=
  match s.pairs (getPairId f tokenIn tokenOut) with
  | none => (.error .pairInactive, s)
  | some pair =>
    if ¬ (pair.isActive = true) then (.error .pairInactive, s) else
    if f.amountOut pair tokenIn amountIn < minAmountOut then (.error .slippageExceeded, s) else
    if ¬ (pays caller tokenIn amountIn = true) then (.error .transferFailed, s) else
    if setAt s.custody tokenIn (s.custody tokenIn + amountIn) tokenOut <
        f.amountOut pair tokenIn amountIn then (.error .insufficientLiquidity, s) else
    (.ok (f.amountOut pair tokenIn amountIn),
      { s with
        custody :=
          setAt (setAt s.custody tokenIn (s.custody tokenIn + amountIn)) tokenOut
            (setAt s.custody tokenIn (s.custody tokenIn + amountIn) tokenOut -
              f.amountOut pair tokenIn amountIn)
        pairs := setAt s.pairs (getPairId f tokenIn tokenOut)
          (some
            { pair with
              totalVolumeA := pair.totalVolumeA +
                (if tokenIn = pair.tokenA then amountIn
                  else f.amountOut pair tokenIn amountIn) }) })

/-- Modelled from the spec: `addLiquidity` (section 4.2): both amounts move into custody
and the caller's share balance for the pair grows by the minted shares. -/
def addLiquidity (f : Formulas) (pays : Address → Address → Nat → Bool)
    (caller tokenA tokenB : Address) (amountA amountB : Nat) (s : State) :
    Except Failure Nat × State :=
  match s.pairs (getPairId f tokenA tokenB) with
  | none => (.error .notFound, s)
  | some pair =>
    if ¬ (pays caller tokenA amountA = true) then (.error .transferFailed, s) else
    if ¬ (pays caller tokenB amountB = true) then (.error .transferFailed, s) else
    (.ok (f.mintedShares pair amountA amountB),
      { s with
        custody :=
          setAt (setAt s.custody tokenA (s.custody tokenA + amountA)) tokenB
            (setAt s.custody tokenA (s.custody tokenA + amountA) tokenB + amountB)
        shares := setAt s.shares caller
          (setAt (s.shares caller) (getPairId f tokenA tokenB)
            (s.shares caller (getPairId f tokenA tokenB) + f.mintedShares pair amountA amountB)) })

/-- Modelled from the spec: `removeLiquidity` (section 4.2): the caller's share balance must
cover `shares` (`InsufficientShares`); the shares are burnt and the redeemed amounts of the
two assets leave custody, which must hold them. -/
def removeLiquidity (f : Formulas) (caller tokenA tokenB : Address) (shares : Nat) (s : State) :
    Except Failure (Nat × Nat) × State :=
  if s.shares caller (getPairId f tokenA tokenB) < shares then (.error .insufficientShares, s) else
  if s.custody tokenA < (f.redeemed s (getPairId f tokenA tokenB) shares).1
    then (.error .insufficientLiquidity, s) else
  if setAt s.custody tokenA
        (s.custody tokenA - (f.redeemed s (getPairId f tokenA tokenB) shares).1) tokenB <
      (f.redeemed s (getPairId f tokenA tokenB) shares).2
    then (.error .insufficientLiquidity, s) else
  (.ok (f.redeemed s (getPairId f tokenA tokenB) shares),
    { s with
      custody :=
        setAt
          (setAt s.custody tokenA
            (s.custody tokenA - (f.redeemed s (getPairId f tokenA tokenB) shares).1))
          tokenB
          (setAt s.custody tokenA
              (s.custody tokenA - (f.redeemed s (getPairId f tokenA tokenB) shares).1) tokenB -
            (f.redeemed s (getPairId f tokenA tokenB) shares).2)
      shares := setAt s.shares caller
        (setAt (s.shares caller) (getPairId f tokenA tokenB)
          (s.shares caller (getPairId f tokenA tokenB) - shares)) })

/-- Modelled from the spec: `updateDefaultFeeRate` (section 4.2): administrator-only, with
the fee ceiling of `createTradingPair`. -/
def updateDefaultFeeRate (caller : Address) (feeRateBps : Nat) (s : State) :
    Except Failure Unit × State :=
  if ¬ (caller = s.owner) then (.error .unauthorized, s) else
  if feeRateBps ≥ 1000 then (.error .feeTooHigh, s) else
  (.ok (), { s with defaultFeeRate := feeRateBps })

/-- Modelled from the spec: `updatePairPrice` (section 4.2): administrator-only; the pair
must exist. -/
def updatePairPrice (caller : Address) (pairId price : Nat) (s : State) :
    Except Failure Unit × State :=
  if ¬ (caller = s.owner) then (.error .unauthorized, s) else
  match s.pairs pairId with
  | none => (.error .notFound, s)
  | some pair => (.ok (), { s with pairs := setAt s.pairs pairId (some { pair with price := price }) })

/-- Modelled from the spec: `togglePairStatus` (section 4.2): administrator-only; the pair
must exist; `isActive` is flipped. -/
def togglePairStatus (caller : Address) (pairId : Nat) (s : State) :
    Except Failure Unit × State :=
  if ¬ (caller = s.owner) then (.error .unauthorized, s) else
  match s.pairs pairId with
  | none => (.error .notFound, s)
  | some pair =>
    (.ok (), { s with pairs := setAt s.pairs pairId (some { pair with isActive := !pair.isActive }) })

/-- View `getUserOrders`: the per-trader index. -/
def getUserOrders (s : State) (trader : Address) : List Nat :=
  s.userOrders trader

/-- View `getUserLiquidityShares`. -/
def getUserLiquidityShares (s : State) (provider : Address) (pairId : Nat) : Nat :=
  s.shares provider pairId

/-- The operations of the order book; `fund` is a transfer of an asset straight to the
address of the ledger, which raises the custody of that asset and nothing else. -/
inductive Call where
  | createTradingPair (tokenA tokenB : Address) (feeRateBps : Nat)
  | createPrivateOrder (tokenIn tokenOut : Address) (encIn encOut proofIn proofOut : List Nat)
      (orderType : OrderType)
  | executeOrder (orderId : Nat)
  | swapTokens (tokenIn tokenOut : Address) (amountIn minAmountOut : Nat)
  | addLiquidity (tokenA tokenB : Address) (amountA amountB : Nat)
  | removeLiquidity (tokenA tokenB : Address) (shares : Nat)
  | updateDefaultFeeRate (feeRateBps : Nat)
  | updatePairPrice (pairId price : Nat)
  | togglePairStatus (pairId : Nat)
  | fund (token : Address) (amount : Nat)

/-- One transaction of the order book: the caller, what the asset transfer layer can move
into custody during it, and the operation. -/
structure Tx where
  caller : Address
  pays : Address → Address → Nat → Bool
  call : Call

/-- Run one transaction; a failed operation leaves the state as it was. -/
def exec (f : Formulas) (tx : Tx) (s : State) : State :=
  match tx.call with
  | .createTradingPair tokenA tokenB feeRateBps =>
    (createTradingPair f tokenA tokenB feeRateBps s).2
  | .createPrivateOrder tokenIn tokenOut encIn encOut proofIn proofOut orderType =>
    (createPrivateOrder f tx.caller tokenIn tokenOut encIn encOut proofIn proofOut orderType s).2
  | .executeOrder orderId => (executeOrder orderId s).2
  | .swapTokens tokenIn tokenOut amountIn minAmountOut =>
    (swapTokens f tx.pays tx.caller tokenIn tokenOut amountIn minAmountOut s).2
  | .addLiquidity tokenA tokenB amountA amountB =>
    (addLiquidity f tx.pays tx.caller tokenA tokenB amountA amountB s).2
  | .removeLiquidity tokenA tokenB shares => (removeLiquidity f tx.caller tokenA tokenB shares s).2
  | .updateDefaultFeeRate feeRateBps => (updateDefaultFeeRate tx.caller feeRateBps s).2
  | .updatePairPrice pairId price => (updatePairPrice tx.caller pairId price s).2
  | .togglePairStatus pairId => (togglePairStatus tx.caller pairId s).2
  | .fund token amount => { s with custody := setAt s.custody token (s.custody token + amount) }

/-- The state after a sequence of transactions. -/
def run (f : Formulas) (s : State) : List Tx → State
  | [] => s
  | tx :: txs => run f (exec f tx s) txs

/-- The order a transaction creates: id, trader, input asset and output asset when it is a
`createPrivateOrder` that succeeds. -/
def createdOrderOf (f : Formulas) (tx : Tx) (s : State) : List (Nat × Address × Address × Address) :=
  match tx.call with
  | .createPrivateOrder tokenIn tokenOut encIn encOut proofIn proofOut orderType =>
    match (createPrivateOrder f tx.caller tokenIn tokenOut encIn encOut proofIn proofOut
        orderType s).1 with
    | .ok id => [(id, tx.caller, tokenIn, tokenOut)]
    | .error _ => []
  | _ => []

/-- The orders created along a sequence of transactions, in order. -/
def createdOrders (f : Formulas) (s : State) : List Tx → List (Nat × Address × Address × Address)
  | [] => []
  | tx :: txs => createdOrderOf f tx s ++ createdOrders f (exec f tx s) txs

/-- Invariant of the reachable states of the order book: an order is stored only under an
allocated id. -/
def Allocated (s : State) : Prop :=
  ∀ id, s.orderCounter < id → s.orders id = none

/-- Invariant that ties the order table and the per-trader index to the record `log` of
created orders. -/
def Indexed (s : State) (log : List (Nat × Address × Address × Address)) : Prop :=
  (∀ id, s.orderCounter < id → s.orders id = none) ∧
  log.map (fun e => e.1) = List.range' 1 s.orderCounter ∧
  (∀ trader, s.userOrders trader =
    (log.filter (fun e => e.2.1 = trader)).map (fun e => e.1)) ∧
  (∀ e ∈ log, ∃ order, s.orders e.1 = some order ∧ order.id = e.1 ∧ order.trader = e.2.1 ∧
    order.tokenIn = e.2.2.1 ∧ order.tokenOut = e.2.2.2)

/-- Modelled from the spec: an output formula in integer arithmetic (section 4.2, numeric
policy), which the specification does not fix.  The price is an 18-decimal fixed-point
number of units of `tokenB` per unit of `tokenA` (the swap test sets 2e18 for "1 TKA = 2
TKB"), and the fee rate in basis points is taken off the output. -/
def fixedPointAmountOut (pair : TradingPair) (tokenIn : Address) (amountIn : Nat) : Nat :=
  if tokenIn = pair.tokenA
    then amountIn * pair.price / 10 ^ 18 * (10000 - pair.feeRate) / 10000
    else amountIn * 10 ^ 18 / pair.price * (10000 - pair.feeRate) / 10000

/-- A concrete choice of the open formulas for evaluating scenarios: an injective pair hash,
a start price of 1e18, the fixed-point output formula, shares equal to the sum of the two
deposited amounts, and nothing returned for burnt shares (the scenarios below do not remove
liquidity). -/
def scenarioFormulas : Formulas :=
  { pairHash := fun a b => a * 2 ^ 160 + b
    defaultPrice := 10 ^ 18
    amountOut := fixedPointAmountOut
    mintedShares := fun _ amountA amountB => amountA + amountB
    redeemed := fun _ _ _ => (0, 0) }

/-- An asset transfer layer that can always move the requested amount into custody. -/
def paysAll : Address → Address → Nat → Bool := fun _ _ _ => true

/-- The swap scenario of the tests: the owner (account 0) creates the pair of assets 101 and
102 with a fee of 50 basis points and sets the price to 2e18; 1000e18 of asset 102 is sent to
the ledger. -/
def swapSetup : List Tx :=
  [ { caller := 0, pays := paysAll, call := .createTradingPair 101 102 50 },
    { caller := 0, pays := paysAll,
      call := .updatePairPrice (getPairId scenarioFormulas 101 102) 2000000000000000000 },
    { caller := 0, pays := paysAll, call := .fund 102 1000000000000000000000 } ]

/-- The order scenario of the tests: the owner creates the pair, trader 1 creates an order
from asset 101 to 102 and one from 102 to 101. -/
def orderSetup : List Tx :=
  [ { caller := 0, pays := paysAll, call := .createTradingPair 101 102 50 },
    { caller := 1, pays := paysAll,
      call := .createPrivateOrder 101 102 [18, 52] [171, 205] [17] [34] .buy },
    { caller := 1, pays := paysAll,
      call := .createPrivateOrder 102 101 [18, 52] [171, 205] [17] [34] .sell } ]

end ConfidentialDEX

namespace SimpleCryptoVault

/-- The sum of `totalRaised` over the active projects with ids `1, ..., n`. -/
def activeRaised (s : State) : Nat → Nat
  | 0 => 0
  | n + 1 =>
    activeRaised s n +
      (if (s.projects (n + 1)).isActive = true then (s.projects (n + 1)).totalRaised else 0)

/-- Invariant of the reachable states: the balance of the contract covers the funds raised
by the active projects (all of which have an allocated id). -/
def Solvent (s : State) : Prop :=
  WellFormed s ∧ (s.projects 0).isActive = false ∧ activeRaised s s.projectCounter ≤ s.balance

end SimpleCryptoVault

namespace CryptoVault

open SimpleCryptoVault

/-- Modelled from the spec: the view `getActiveProjects` of the full `CryptoVault` contract,
whose source is missing (section 4.1: "returns project ids in creation order filtered by
`isActive`").  Ids are allocated in creation order from 1 to `projectCounter`. -/
def getActiveProjects (s : State) : List Nat :=
  (List.range' 1 s.projectCounter).filter (fun id => (s.projects id).isActive)

/-- Invariant of the reachable states of the funding ledger with its administrative
operations: only projects with an allocated id are active. -/
def Allotted (s : State) : Prop :=
  ∀ q, q = 0 ∨ s.projectCounter < q → (s.projects q).isActive = false

/-- The scenario of the view test: account 1 creates two projects on a fresh ledger. -/
def twoProjects : List VaultTx :=
  [ .ledger { sender := 1, timestamp := 100, accepts := acceptAll,
              call := .createProject "Project 1" "Description 1" 100 30 },
    .ledger { sender := 1, timestamp := 200, accepts := acceptAll,
              call := .createProject "Project 2" "Description 2" 200 60 } ]

end CryptoVault

/-!
## The frontend helpers

The remaining definitions embed JavaScript of the frontend: the parameter validation and the
amount encryption of `src/frontend/src/utils/fheUtils.js` and the fallback mock of
`src/frontend/src/contexts/FHEContext.js`.  A function that may throw returns
`Except Thrown α`; `try { ... } catch { ... }` is `tryCatchJs`.  A JavaScript string is the list
of its code units.
-/

namespace Js

/-- A JavaScript string, as the list of its UTF-16 code units. -/
abbrev JsString := List Nat

/-- What a `throw` carries.  The code under study only distinguishes a throw from a return. -/
inductive Thrown
  | typeError
  | syntaxError
  | rangeError
  | invalidCharacterError
  | error
  deriving DecidableEq

/-- The statement `try { body } catch { handler }`. -/
def tryCatchJs {α : Type} (body : Except Thrown α) (handler : Thrown → Except Thrown α) :
    Except Thrown α :=
  match body with
  | .ok v => .ok v
  | .error e => handler e

end Js

namespace FHEUtils

open Js

/-- A JavaScript number: NaN, an infinity, or a finite value (the two zeros are `finite 0`,
which is all the comparisons and the truth test below can see of them). -/
inductive JsNumber
  | nan
  | posInf
  | negInf
  | finite (q : Rat)

/-- A primitive JavaScript value. -/
inductive Primitive
  | undefined
  | null
  | bool (b : Bool)
  | number (n : JsNumber)
  | bigint (i : Int)
  | string (s : JsString)
  | symbol

/-- A JavaScript value: a primitive, or an object.  All that the code below asks of an object
is its conversion to a primitive (`valueOf` / `toString` with hint number), which may throw;
the conversion is taken to give the same answer each time it is asked. -/
inductive JsValue
  | prim (p : Primitive)
  | object (toPrimitive : Except Thrown Primitive)

/-- The library functions that `canEncrypt` and `validateFHEParams` call: the global
`parseFloat`, the conversion of a string to a number, and `ethers.isAddress`, which returns a
boolean for every argument (it catches the failure of `getAddress`).  Their results are left
open: the statements below hold for every such platform. -/
structure Platform where
  parseFloat : JsString → JsNumber
  stringToNumber : JsString → JsNumber
  isAddress : JsValue → Bool

/-- The truth test of `!value` and of `if (value)`: `undefined`, `null`, `false`, the zeros,
NaN, `0n` and the empty string are falsy, every other value is truthy. -/
def toBoolean : JsValue → Bool
  | .prim .undefined => false
  | .prim .null => false
  | .prim (.bool b) => b
  | .prim (.number .nan) => false
  | .prim (.number (.finite q)) => decide (q ≠ 0)
  | .prim (.number .posInf) => true
  | .prim (.number .negInf) => true
  | .prim (.bigint i) => decide (i ≠ 0)
  | .prim (.string s) => decide (s ≠ [])
  | .prim .symbol => true
  | .object _ => true

/-- The conversion of a value to a primitive. -/
def toPrimitive : JsValue → Except Thrown Primitive
  | .prim p => .ok p
  | .object r => r

/-- The conversion of a primitive to a number: it throws a TypeError on a BigInt and on a
Symbol. -/
def primToNumber (pf : Platform) : Primitive → Except Thrown JsNumber
  | .undefined => .ok .nan
  | .null => .ok (.finite 0)
  | .bool b => .ok (.finite (if b then 1 else 0))
  | .number n => .ok n
  | .bigint _ => .error .typeError
  | .string s => .ok (pf.stringToNumber s)
  | .symbol => .error .typeError

/-- The conversion of a value to a number. -/
def toNumber (pf : Platform) (v : JsValue) : Except Thrown JsNumber :=
  match toPrimitive v with
  | .ok p => primToNumber pf p
  | .error e => .error e

/-- The global `isNaN`: it converts its argument to a number first. -/
def isNaN (pf : Platform) (v : JsValue) : Except Thrown Bool :=
  match toNumber pf v with
  | .ok .nan => .ok true
  | .ok _ => .ok false
  | .error e => .error e

/-- The operand of a relational comparison after conversion: a number, or a BigInt taken as
the finite value it denotes.  A Symbol throws a TypeError. -/
def primToNumeric (pf : Platform) : Primitive → Except Thrown JsNumber
  | .bigint i => .ok (.finite i)
  | p => primToNumber pf p

/-- The comparison `x < y` of two numeric operands: `none` when it is undefined, which is the
case exactly when an operand is NaN. -/
def numericLt : JsNumber → JsNumber → Option Bool
  | .nan, _ => none
  | _, .nan => none
  | .finite a, .finite b => some (decide (a < b))
  | .negInf, .negInf => some false
  | .negInf, _ => some true
  | _, .negInf => some false
  | .posInf, _ => some false
  | _, .posInf => some true

/-- The expression `v >= c` for a number `c`: false when `v < c` is true or undefined. -/
def geNumber (pf : Platform) (v : JsValue) (c : JsNumber) : Except Thrown Bool :=
  match toPrimitive v with
  | .error e => .error e
  | .ok p =>
    match primToNumeric pf p with
    | .error e => .error e
    | .ok x =>
      match numericLt x c with
      | some false => .ok true
      | _ => .ok false

/-- The expression `v <= c` for a number `c`: false when `c < v` is true or undefined. -/
def leNumber (pf : Platform) (v : JsValue) (c : JsNumber) : Except Thrown Bool :=
  match toPrimitive v with
  | .error e => .error e
  | .ok p =>
    match primToNumeric pf p with
    | .error e => .error e
    | .ok x =>
      match numericLt c x with
      | some false => .ok true
      | _ => .ok false

/-- The constant `Number.MAX_SAFE_INTEGER`. -/
def MAX_SAFE_INTEGER : Rat := 9007199254740991

/-- The method `canEncrypt(value)`: inside `try`, `numericValue` is `parseFloat(value)` when
`typeof value` is `string` and `value` otherwise, and the result is
`!isNaN(numericValue) && numericValue >= 0 && numericValue <= Number.MAX_SAFE_INTEGER`
(each `&&` gives its left operand when that is false); `catch` returns `false`. -/
def canEncrypt (pf : Platform) (value : JsValue) : Except Thrown JsValue :=
  tryCatchJs
    (let numericValue : JsValue :=
      match value with
      | .prim (.string s) => .prim (.number (pf.parseFloat s))
      | v => v
    match isNaN pf numericValue with
    | .error e => .error e
    | .ok true => .ok (.prim (.bool false))
    | .ok false =>
      match geNumber pf numericValue (.finite 0) with
      | .error e => .error e
      | .ok false => .ok (.prim (.bool false))
      | .ok true =>
        match leNumber pf numericValue (.finite MAX_SAFE_INTEGER) with
        | .error e => .error e
        | .ok b => .ok (.prim (.bool b)))
    (fun _ => .ok (.prim (.bool false)))

/-- The argument of `validateFHEParams`: `undefined`, `null`, or a value whose three
properties are read by the destructuring; each read gives a value (`undefined` for a missing
property, as on a primitive argument) or throws (a getter). -/
inductive Params
  | undefined
  | null
  | object (value contractAddress userAddress : Except Thrown JsValue)

/-- The destructuring `const { value, contractAddress, userAddress } = params`: a TypeError
on `undefined` and `null`, otherwise the three reads in this order. -/
def destructure : Params → Except Thrown (JsValue × JsValue × JsValue)
  | .undefined => .error .typeError
  | .null => .error .typeError
  | .object value contractAddress userAddress =>
    match value with
    | .error e => .error e
    | .ok v =>
      match contractAddress with
      | .error e => .error e
      | .ok c =>
        match userAddress with
        | .error e => .error e
        | .ok u => .ok (v, c, u)

/-- The method `validateFHEParams(params)`: inside `try`, destructure; return `false` when one
of the three values is falsy; return `false` when one of the two addresses fails
`ethers.isAddress`; otherwise return `this.canEncrypt(value)`; `catch` returns `false`. -/
def validateFHEParams (pf : Platform) (params : Params) : Except Thrown JsValue :=
  tryCatchJs
    (match destructure params with
    | .error e => .error e
    | .ok (value, contractAddress, userAddress) =>
      if (!toBoolean value || !toBoolean contractAddress || !toBoolean userAddress) = true then
        .ok (.prim (.bool false))
      else if (!pf.isAddress contractAddress || !pf.isAddress userAddress) = true then
        .ok (.prim (.bool false))
      else canEncrypt pf value)
    (fun _ => .ok (.prim (.bool false)))

/-- A sample platform, to exhibit an accepted argument: every string of 42 code units counts
as an address and the two conversions give 1. -/
def samplePlatform : Platform where
  parseFloat := fun _ => .finite 1
  stringToNumber := fun _ => .finite 1
  isAddress := fun v =>
    match v with
    | .prim (.string s) => decide (s.length = 42)
    | _ => false

/-- A sample argument: the number 1 with two strings of 42 code units. -/
def sampleParams : Params :=
  .object (.ok (.prim (.number (.finite 1)))) (.ok (.prim (.string (List.replicate 42 48))))
    (.ok (.prim (.string (List.replicate 42 49))))

end FHEUtils

namespace Js

/-! ### Numbers and their decimal strings

A number is taken here on the non-negative integers it represents exactly; NaN is `none`. -/

/-- Whether a code unit is one of the decimal digits `0` to `9` (48 to 57). -/
def isDigit (c : Nat) : Bool := decide (48 ≤ c ∧ c ≤ 57)

/-- The decimal digits of `n`, most significant first; `fuel` bounds the number of digits. -/
def toDecimalAux : Nat → Nat → JsString
  | 0, _ => []
  | fuel + 1, n => if n < 10 then [48 + n] else toDecimalAux fuel (n / 10) ++ [48 + n % 10]

/-- The decimal string of a natural number: `toString()` of a non-negative BigInt. -/
def toDecimal (n : Nat) : JsString := toDecimalAux (n + 1) n

/-- The method `toString()` of a BigInt. -/
def bigintToString (i : Int) : JsString :=
  if i < 0 then 45 :: toDecimal i.natAbs else toDecimal i.natAbs

/-- The value of a run of decimal digits. -/
def decimalValue (ds : JsString) : Nat := ds.foldl (fun a c => a * 10 + (c - 48)) 0

/-- The number of binary digits of `n`; `fuel` bounds it. -/
def bitLengthAux : Nat → Nat → Nat
  | 0, _ => 0
  | fuel + 1, n => if n = 0 then 0 else bitLengthAux fuel (n / 2) + 1

/-- The number of binary digits of `n`. -/
def bitLength (n : Nat) : Nat := bitLengthAux n n

/-- The number (IEEE 754 double) nearest to the integer `n`, ties to the even significand:
`n` itself below 2^53, otherwise `n` rounded to 53 significant bits.  The overflow to
Infinity (from about 1.8e308) is outside the model. -/
def roundDouble (n : Nat) : Nat :=
  if n < 2 ^ 53 then n
  else
    let e := bitLength n - 53
    let q := n / 2 ^ e
    let r := n % 2 ^ e
    if 2 * r < 2 ^ e then q * 2 ^ e
    else if 2 ^ e < 2 * r then (q + 1) * 2 ^ e
    else if q % 2 = 0 then q * 2 ^ e
    else (q + 1) * 2 ^ e

/-- The list without its trailing zero digits. -/
def stripTrailingZeros (ds : JsString) : JsString :=
  (ds.reverse.dropWhile (fun c => decide (c = 48))).reverse

/-- The method `toString()` of a number with the non-negative integer value `n`: the decimal
digits below 10^21, and from 10^21 on the exponent form `d.ddde+x` (`de+x` for one
significant digit).  The digits are those of `n`, which are the digits JavaScript prints
whenever no shorter digit string denotes the same number: this is so for every integer below
2^53 and for the numbers 10^18 and 10^21 met below. -/
def numberToString (n : Nat) : JsString :=
  if n < 10 ^ 21 then toDecimal n
  else
    match stripTrailingZeros (toDecimal n) with
    | [] => []
    | [d] => d :: 101 :: 43 :: toDecimal ((toDecimal n).length - 1)
    | d :: ds => d :: 46 :: ds ++ 101 :: 43 :: toDecimal ((toDecimal n).length - 1)

/-- The white space that `parseInt` and `parseFloat` skip at the start of their argument. -/
def isWhiteSpace (c : Nat) : Bool :=
  decide (c = 9 ∨ c = 10 ∨ c = 11 ∨ c = 12 ∨ c = 13 ∨ c = 32 ∨ c = 160 ∨ c = 5760 ∨
    (8192 ≤ c ∧ c ≤ 8202) ∨ c = 8232 ∨ c = 8233 ∨ c = 8239 ∨ c = 8287 ∨ c = 12288 ∨
    c = 65279)

/-- The value of a digit in a radix up to 36: `0`-`9`, `a`-`z`, `A`-`Z`. -/
def digitVal (c : Nat) : Option Nat :=
  if 48 ≤ c ∧ c ≤ 57 then some (c - 48)
  else if 97 ≤ c ∧ c ≤ 122 then some (c - 87)
  else if 65 ≤ c ∧ c ≤ 90 then some (c - 55)
  else none

/-- The value of the longest prefix of digits of the radix, `none` when there is no digit. -/
def readDigits (radix : Nat) : JsString → Option Nat → Option Nat
  | [], acc => acc
  | c :: cs, acc =>
    match digitVal c with
    | none => acc
    | some d => if d < radix then readDigits radix cs (some (acc.getD 0 * radix + d)) else acc

/-- The result of `parseInt`: NaN or an integer-valued number. -/
inductive Parsed
  | nan
  | value (i : Int)
  deriving DecidableEq

/-- The global `parseInt(string)` without a radix: skip leading white space, take a sign,
take the prefix `0x` or `0X` as radix 16 and radix 10 otherwise, read the longest run of
digits; NaN when there is none, else the number nearest to the signed value. -/
def parseInt (s : JsString) : Parsed :=
  let s1 := s.dropWhile isWhiteSpace
  let negative : Bool := decide (s1.head? = some 45)
  let s2 := if s1.head? = some 45 ∨ s1.head? = some 43 then s1.tail else s1
  let hex : Bool :=
    match s2 with
    | a :: b :: _ => decide (a = 48 ∧ (b = 120 ∨ b = 88))
    | _ => false
  let s3 := if hex = true then s2.drop 2 else s2
  match readDigits (if hex = true then 16 else 10) s3 none with
  | none => .nan
  | some m => .value (if negative = true then - (roundDouble m : Int) else (roundDouble m : Int))

/-- The global `parseFloat(string)` on a string whose numeric prefix, after leading white
space, is a run of decimal digits: the number nearest to its value, NaN (`none`) when there
is no digit.  A sign, a fraction and an exponent are outside the model; the strings it is
applied to below are the decimal strings of non-negative BigInts. -/
def parseFloat (s : JsString) : Option Nat :=
  match readDigits 10 (s.dropWhile isWhiteSpace) none with
  | none => none
  | some m => some (roundDouble m)

/-- The bound 2^511 of the 512-bit signed values of `parseUnits`. -/
def FIXED_LIMIT : Nat :=
  6703903964971298549787012499102923063739682910296196688861780721860882015036773488400937149083451713845015929093243025426876941405973284973216824503042048

/-- The function `ethers.parseEther(string)`, that is `parseUnits(string, 18)` of ethers v6:
the string has to match `-?[0-9]*.?[0-9]*` with at least one digit (a TypeError otherwise);
the fraction is padded with zeros to 18 digits and digits beyond the 18th have to be zeros
(a RangeError otherwise); the result is the BigInt of sign, whole part and 18 fraction digits,
which has to fit 512 bits with sign (a RangeError otherwise). -/
def parseEther (s : JsString) : Except Thrown Int :=
  let negative : Bool := decide (s.head? = some 45)
  let s1 := if negative = true then s.tail else s
  let whole := s1.takeWhile isDigit
  let r1 := s1.dropWhile isDigit
  let r2 := if r1.head? = some 46 then r1.tail else r1
  let frac := r2.takeWhile isDigit
  let r3 := r2.dropWhile isDigit
  if r3 ≠ [] ∨ whole.length + frac.length = 0 then .error .typeError
  else
    let decimal := frac ++ List.replicate (18 - frac.length) 48
    if (decimal.drop 18).any (fun c => decide (c ≠ 48)) = true then .error .rangeError
    else
      let magnitude := decimalValue (whole ++ decimal.take 18)
      if negative = true then
        (if FIXED_LIMIT < magnitude then .error .rangeError else .ok (- (magnitude : Int)))
      else
        (if FIXED_LIMIT ≤ magnitude then .error .rangeError else .ok (magnitude : Int))

/-! ### JSON texts of flat objects -/

/-- A property value of the objects considered: a string, or a number with a non-negative
integer value. -/
inductive JsonValue
  | str (s : JsString)
  | num (n : Nat)
  deriving DecidableEq

/-- The lower-case hexadecimal digit of `d`. -/
def hexDigit (d : Nat) : Nat := if d < 10 then 48 + d else 87 + d

/-- How `JSON.stringify` writes a code unit inside a string: the quote and the backslash get
a backslash, the control characters their short or `u00xx` escape, any other code unit is
written as it is (a lone surrogate, which is escaped too, does not occur below). -/
def escapeChar (c : Nat) : JsString :=
  if c = 34 then [92, 34]
  else if c = 92 then [92, 92]
  else if c = 8 then [92, 98]
  else if c = 12 then [92, 102]
  else if c = 10 then [92, 110]
  else if c = 13 then [92, 114]
  else if c = 9 then [92, 116]
  else if c < 32 then [92, 117, 48, 48, hexDigit (c / 16), hexDigit (c % 16)]
  else [c]

/-- The escaped content of a string. -/
def escape : JsString → JsString
  | [] => []
  | c :: cs => escapeChar c ++ escape cs

/-- A string as `JSON.stringify` writes it, between quotes. -/
def quote (s : JsString) : JsString := 34 :: escape s ++ [34]

/-- A property value as `JSON.stringify` writes it. -/
def stringifyValue : JsonValue → JsString
  | .str s => quote s
  | .num n => numberToString n

/-- The members of an object as `JSON.stringify` writes them: `key:value` separated by
commas, in the order of the properties. -/
def stringifyMembers : List (JsString × JsonValue) → JsString
  | [] => []
  | [m] => quote m.1 ++ 58 :: stringifyValue m.2
  | m :: m2 :: ms => quote m.1 ++ 58 :: stringifyValue m.2 ++ 44 :: stringifyMembers (m2 :: ms)

/-- The global `JSON.stringify` on an object given by its properties in order. -/
def jsonStringify (members : List (JsString × JsonValue)) : JsString :=
  123 :: stringifyMembers members ++ [125]

/-- The code unit of a simple escape `\x` inside a JSON string. -/
def unescape (e : Nat) : Option Nat :=
  if e = 34 then some 34
  else if e = 92 then some 92
  else if e = 47 then some 47
  else if e = 98 then some 8
  else if e = 102 then some 12
  else if e = 110 then some 10
  else if e = 114 then some 13
  else if e = 116 then some 9
  else none

/-- The code unit of the four hexadecimal digits of an escape `\uxxxx`. -/
def hex4 (a b c d : Nat) : Option Nat :=
  match digitVal a, digitVal b, digitVal c, digitVal d with
  | some w, some x, some y, some z =>
    if w < 16 ∧ x < 16 ∧ y < 16 ∧ z < 16 then some (((w * 16 + x) * 16 + y) * 16 + z) else none
  | _, _, _, _ => none

/-- The rest of a JSON string after its opening quote: the content up to the closing quote,
with the escapes resolved, and what follows the closing quote.  `none` is a syntax error. -/
def readString : JsString → Option (JsString × JsString)
  | [] => none
  | c :: cs =>
    if c = 34 then some ([], cs)
    else if c = 92 then
      match cs with
      | [] => none
      | e :: cs1 =>
        if e = 117 then
          match cs1 with
          | h1 :: h2 :: h3 :: h4 :: cs2 =>
            match hex4 h1 h2 h3 h4, readString cs2 with
            | some u, some r => some (u :: r.1, r.2)
            | _, _ => none
          | _ => none
        else
          match unescape e, readString cs1 with
          | some u, some r => some (u :: r.1, r.2)
          | _, _ => none
    else if c < 32 then none
    else
      match readString cs with
      | some r => some (c :: r.1, r.2)
      | none => none

/-- A JSON number that is a non-negative integer without fraction and exponent: its digits,
without a leading zero before another digit, give the nearest number. -/
def readNumber (s : JsString) : Option (Nat × JsString) :=
  if s.takeWhile isDigit = [] then none
  else if (s.takeWhile isDigit).head? = some 48 ∧ 1 < (s.takeWhile isDigit).length then none
  else some (roundDouble (decimalValue (s.takeWhile isDigit)), s.dropWhile isDigit)

/-- A property value in a JSON text: a string or a number. -/
def parseValue : JsString → Option (JsonValue × JsString)
  | [] => none
  | c :: cs =>
    if c = 34 then
      match readString cs with
      | some r => some (.str r.1, r.2)
      | none => none
    else
      match readNumber (c :: cs) with
      | some r => some (.num r.1, r.2)
      | none => none

/-- The members of a JSON object up to and including the closing brace, which has to end the
text; `fuel` bounds the number of members. -/
def parseMembers : Nat → JsString → Option (List (JsString × JsonValue))
  | 0, _ => none
  | fuel + 1, s =>
    match s with
    | [] => none
    | c :: s1 =>
      if c = 34 then
        match readString s1 with
        | none => none
        | some k =>
          match k.2 with
          | [] => none
          | d :: s3 =>
            if d = 58 then
              match parseValue s3 with
              | none => none
              | some v =>
                match v.2 with
                | [] => none
                | e :: s5 =>
                  if e = 125 then (if s5 = [] then some [(k.1, v.1)] else none)
                  else if e = 44 then
                    match parseMembers fuel s5 with
                    | some ms => some ((k.1, v.1) :: ms)
                    | none => none
                  else none
            else none
      else none

/-- The global `JSON.parse` on the texts of flat objects: an object without white space whose
property values are strings or non-negative integers.  It gives the properties in order; a
text outside this fragment is reported as a SyntaxError. -/
def jsonParse (s : JsString) : Except Thrown (List (JsString × JsonValue)) :=
  match s with
  | [] => .error .syntaxError
  | c :: s1 =>
    if c = 123 then
      if s1 = [125] then .ok []
      else
        match parseMembers s1.length s1 with
        | some ms => .ok ms
        | none => .error .syntaxError
    else .error .syntaxError

/-- The property read `object.key`: the last property of that name, `none` for `undefined`. -/
def getProperty (members : List (JsString × JsonValue)) (key : JsString) : Option JsonValue :=
  (members.reverse.find? (fun m => decide (m.1 = key))).map (fun m => m.2)

/-- A string that `JSON.stringify` writes without an escape: no quote, no backslash, no
control character. -/
def Plain (s : JsString) : Prop := ∀ c ∈ s, c ≠ 34 ∧ c ≠ 92 ∧ 32 ≤ c

/-- A property value whose text is read back exactly: a plain string, or a number below
2^53. -/
def PlainValue : JsonValue → Prop
  | .str s => Plain s
  | .num n => n < 2 ^ 53

/-! ### Base64 -/

/-- The code unit of a base64 digit: `A`-`Z`, `a`-`z`, `0`-`9`, `+`, `/`. -/
def b64Char (i : Nat) : Nat :=
  if i < 26 then 65 + i
  else if i < 52 then 71 + i
  else if i < 62 then i - 4
  else if i = 62 then 43
  else 47

/-- The base64 digit of a code unit, `none` outside the alphabet. -/
def b64Val (c : Nat) : Option Nat :=
  if 65 ≤ c ∧ c ≤ 90 then some (c - 65)
  else if 97 ≤ c ∧ c ≤ 122 then some (c - 71)
  else if 48 ≤ c ∧ c ≤ 57 then some (c + 4)
  else if c = 43 then some 62
  else if c = 47 then some 63
  else none

/-- The base64 digits of a list of bytes: four digits for three bytes, three digits for two
final bytes, two digits for one final byte. -/
def sextets : List Nat → List Nat
  | a :: b :: c :: rest =>
    a / 4 :: (a % 4 * 16 + b / 16) :: (b % 16 * 4 + c / 64) :: c % 64 :: sextets rest
  | [a, b] => [a / 4, a % 4 * 16 + b / 16, b % 16 * 4]
  | [a] => [a / 4, a % 4 * 16]
  | [] => []

/-- The bytes of a list of base64 digits; the bits left over in a final group are dropped. -/
def decodeSextets : List Nat → List Nat
  | w :: x :: y :: z :: rest =>
    (w * 4 + x / 16) :: (x % 16 * 16 + y / 4) :: (y % 4 * 64 + z) :: decodeSextets rest
  | [w, x, y] => [w * 4 + x / 16, x % 16 * 16 + y / 4]
  | [w, x] => [w * 4 + x / 16]
  | [_] => []
  | [] => []

/-- The global `btoa`: an InvalidCharacterError when a code unit exceeds 255, otherwise the
base64 digits of the code units, padded with `=` to a multiple of four. -/
def btoa (s : JsString) : Except Thrown JsString :=
  if s.all (fun c => decide (c < 256)) = true then
    .ok ((sextets s).map b64Char ++ List.replicate ((3 - s.length % 3) % 3) 61)
  else .error .invalidCharacterError

/-- The digits of a string of base64 characters, `none` when one is outside the alphabet. -/
def sextetsOf : JsString → Option (List Nat)
  | [] => some []
  | c :: cs =>
    match b64Val c, sextetsOf cs with
    | some v, some vs => some (v :: vs)
    | _, _ => none

/-- The string without one or two final `=`. -/
def stripPadding (s : JsString) : JsString :=
  if s.getLast? = some 61 then
    (if s.dropLast.getLast? = some 61 then s.dropLast.dropLast else s.dropLast)
  else s

/-- The global `atob` (forgiving base64 decode): drop the ASCII white space; when the length
is a multiple of four drop one or two final `=`; fail when the length is then 1 modulo 4 or a
character is outside the alphabet; otherwise the bytes of the digits. -/
def atob (s : JsString) : Except Thrown JsString :=
  let s1 := s.filter (fun c => !decide (c = 9 ∨ c = 10 ∨ c = 12 ∨ c = 13 ∨ c = 32))
  let s2 := if s1.length % 4 = 0 then stripPadding s1 else s1
  if s2.length % 4 = 1 then .error .invalidCharacterError
  else
    match sextetsOf s2 with
    | some digits => .ok (decodeSextets digits)
    | none => .error .invalidCharacterError

/-- The bytes of `Buffer.from(string, 'base64')` on a string of base64 characters and
padding: characters outside the alphabet are passed over. -/
def bufferFromBase64 (s : JsString) : List Nat :=
  decodeSextets (s.filterMap b64Val)

end Js

namespace FHEContext

open Js

/-- The property name `value`. -/
def keyValue : JsString := [118, 97, 108, 117, 101]

/-- The property name `timestamp`. -/
def keyTimestamp : JsString := [116, 105, 109, 101, 115, 116, 97, 109, 112]

/-- The property name `random`. -/
def keyRandom : JsString := [114, 97, 110, 100, 111, 109]

/-- The string `undefined`, which is what `parseInt` reads of a missing property. -/
def undefinedText : JsString := [117, 110, 100, 101, 102, 105, 110, 101, 100]

/-- The characters of `Math.random().toString(36)`: the digits `0`-`9` and `a`-`z` of radix
36 and the point. -/
def radix36Alphabet : JsString :=
  [48, 49, 50, 51, 52, 53, 54, 55, 56, 57, 97, 98, 99, 100, 101, 102, 103, 104, 105, 106, 107,
    108, 109, 110, 111, 112, 113, 114, 115, 116, 117, 118, 119, 120, 121, 122, 46]

/-- The largest time value of a date, which bounds `Date.now()`. -/
def MAX_TIME_VALUE : Nat := 8640000000000000

/-- The object that the mock encryption serialises:
`{ value: value.toString(), timestamp: Date.now(), random: Math.random().toString(36) }`,
for the drawn time `timestamp` and the drawn string `random`. -/
def mockObject (value timestamp : Nat) (random : JsString) : List (JsString × JsonValue) :=
  [(keyValue, .str (numberToString value)), (keyTimestamp, .num timestamp),
    (keyRandom, .str random)]

/-- The result of `encrypt64`. -/
structure Ciphertext where
  data : List Nat
  handles : List JsString
  deriving DecidableEq

/-- The mock `encrypt64(value)` for a number `value` with a non-negative integer value:
`mockCiphertext = btoa(JSON.stringify(...))`, returned as the only handle, with the bytes of
`Buffer.from(mockCiphertext, 'base64')` as data.  The globals `btoa` and `Buffer` are taken
to be present. -/
def encrypt64 (value timestamp : Nat) (random : JsString) : Except Thrown Ciphertext :=
  match btoa (jsonStringify (mockObject value timestamp random)) with
  | .error e => .error e
  | .ok mockCiphertext =>
    .ok { data := bufferFromBase64 mockCiphertext, handles := [mockCiphertext] }

/-- The mock `decrypt(ciphertext, privateKey)`: inside `try`,
`decoded = JSON.parse(atob(ciphertext))` and the result is `parseInt(decoded.value)`;
`catch` returns 0. -/
def decrypt (ciphertext : JsString) : Except Thrown Parsed :=
  tryCatchJs
    (match atob ciphertext with
    | .error e => .error e
    | .ok text =>
      match jsonParse text with
      | .error e => .error e
      | .ok decoded =>
        .ok (parseInt
          (match getProperty decoded keyValue with
          | some (.str s) => s
          | some (.num n) => numberToString n
          | none => undefinedText)))
    (fun _ => .ok (.value 0))

end FHEContext

namespace FHEUtils

open Js

/-- The amounts passed to `encryptValue` and `encryptETHAmount`: a number with a non-negative
integer value, or a string. -/
inductive Amount
  | number (n : Nat)
  | string (s : JsString)

/-- The functions `ethers.keccak256` and `ethers.toUtf8Bytes`, left open. -/
structure Hashing where
  keccak256 : List Nat → List Nat
  toUtf8Bytes : JsString → List Nat

/-- What `encryptValue` reads of its `FHEUtils` instance: the flag `initialized` and the
result of `signer.getAddress()`, as bytes. -/
structure Instance where
  initialized : Bool
  signerAddress : Except Thrown (List Nat)

/-- The result of `encryptValue`. -/
structure Encrypted where
  encryptedValue : List Nat
  proof : List Nat
  deriving DecidableEq

/-- The string `encrypted_`. -/
def encryptedTag : JsString := [101, 110, 99, 114, 121, 112, 116, 101, 100, 95]

/-- The string `proof`. -/
def proofText : JsString := [112, 114, 111, 111, 102]

/-- The method `encryptValue(value)`: throw when not initialized; `numericValue` is
`parseFloat(value)` for a string and `value` otherwise; throw when it is NaN (negative
numbers are not among the amounts considered);
`weiValue = ethers.parseEther(numericValue.toString())`; the encrypted value is
`keccak256(toUtf8Bytes("encrypted_" + weiValue.toString()))` and the proof is the hash of
`proof`, the encrypted value and the address of the signer.  `catch` throws again. -/
def encryptValue (h : Hashing) (self : Instance) (value : Amount) : Except Thrown Encrypted :=
  if self.initialized = false then .error .error
  else
    let numericValue : Option Nat :=
      match value with
      | .string s => parseFloat s
      | .number n => some n
    match numericValue with
    | none => .error .error
    | some x =>
      match parseEther (numberToString x) with
      | .error e => .error e
      | .ok weiValue =>
        match self.signerAddress with
        | .error e => .error e
        | .ok address =>
          .ok
            { encryptedValue :=
                h.keccak256 (h.toUtf8Bytes (encryptedTag ++ bigintToString weiValue))
              proof :=
                h.keccak256 (h.toUtf8Bytes proofText ++
                  h.keccak256 (h.toUtf8Bytes (encryptedTag ++ bigintToString weiValue)) ++
                  address) }

/-- The expression `ethAmount.toString()`. -/
def amountToString : Amount → JsString
  | .number n => numberToString n
  | .string s => s

/-- The helper `encryptETHAmount(ethAmount, fheUtils)`:
`weiAmount = ethers.parseEther(ethAmount.toString())` and the result is
`fheUtils.encryptValue(weiAmount.toString(), 'euint64')`; `catch` throws again. -/
def encryptETHAmount (h : Hashing) (ethAmount : Amount) (fheUtils : Instance) :
    Except Thrown Encrypted :=
  match parseEther (amountToString ethAmount) with
  | .error e => .error e
  | .ok weiAmount => encryptValue h fheUtils (.string (bigintToString weiAmount))

/-- What the documentation of `encryptETHAmount` asks for ("convert ETH to encrypted Wei"):
the hash of `encrypted_` followed by the decimal digits of `a * 10^18`. -/
def encryptedWei (h : Hashing) (a : Nat) : List Nat :=
  h.keccak256 (h.toUtf8Bytes (encryptedTag ++ toDecimal (a * 10 ^ 18)))

end FHEUtils

namespace SimpleCryptoVault

/-! ## Basic facts about the operations -/

theorem utf8ByteSize_go_eq_zero (cs : List Char) : String.utf8ByteSize.go cs = 0 ↔ cs = [] := by
  cases cs with
  | nil => simp [String.utf8ByteSize.go]
  | cons c cs =>
    have := Char.utf8Size_pos c
    simp [String.utf8ByteSize.go]; omega

theorem utf8ByteSize_eq_zero (t : String) : t.utf8ByteSize = 0 ↔ t = "" := by
  cases t with
  | mk cs =>
    simp only [String.utf8ByteSize, utf8ByteSize_go_eq_zero]
    constructor
    · rintro rfl; rfl
    · intro h; exact congrArg String.data h

theorem setAt_same {α : Type} (m : Nat → α) (k : Nat) (v : α) : setAt m k v k = v := by
  simp [setAt]

theorem setAt_other {α : Type} (m : Nat → α) (k i : Nat) (v : α) (h : i ≠ k) :
    setAt m k v i = m i := by
  simp [setAt, h]

theorem setAt_setAt {α : Type} (m : Nat → α) (k : Nat) (v w : α) :
    setAt (setAt m k v) k w = setAt m k w := by
  funext i
  by_cases h : i = k <;> simp [setAt, h]

theorem transact_error {α : Type} (body : State → Except Revert α × State) (s : State)
    (e : Revert) (h : (transact body s).1 = .error e) : (transact body s).2 = s := by
  unfold transact at *
  split at h <;> simp_all

theorem createProject_cases (msg : Msg) (title description : String) (goal d : Nat) (s : State) :
    (∃ e, createProject msg title description goal d s = (.error e, s)) ∨
    (title ≠ "" ∧ 0 < goal ∧ 0 < d ∧ d ≤ 365 ∧ s.projectCounter + 1 < UINT256_BOUND ∧
      msg.timestamp + d * 86400 < UINT256_BOUND ∧
      createProject msg title description goal d s =
        (.ok (s.projectCounter + 1),
          { s with
            projectCounter := s.projectCounter + 1
            projects := setAt s.projects (s.projectCounter + 1)
              { id := s.projectCounter + 1, creator := msg.sender, title := title,
                description := description, fundingGoal := goal,
                deadline := msg.timestamp + d * 86400,
                isActive := true, totalRaised := 0, contributorCount := 0 } })) := by
  have ht := utf8ByteSize_eq_zero title
  unfold createProject transact createProjectBody checkedAdd checkedMul
  by_cases h1 : title.utf8ByteSize > 0
  · by_cases h2 : goal > 0
    · by_cases h3 : d > 0 ∧ d ≤ 365
      · by_cases h4 : s.projectCounter + 1 < UINT256_BOUND
        · by_cases h5 : msg.timestamp + d * 86400 < UINT256_BOUND
          · have h6 : d * 86400 < UINT256_BOUND := by omega
            right
            refine ⟨?_, h2, h3.1, h3.2, h4, h5, ?_⟩
            · intro h; rw [← ht] at h; omega
            · simp [h1, h2, h3, h4, h5, h6]
          · left
            have h6 : d * 86400 < UINT256_BOUND := by unfold UINT256_BOUND; omega
            simp [h1, h2, h3, h4, h5, h6]
        · left; simp [h1, h2, h3, h4]
      · left; simp [h1, h2, h3]
    · left; simp [h1, h2]
  · left; simp [h1]

theorem contribute_cases (msg : Msg) (v p : Nat) (s : State) :
    (∃ e, contribute msg v p s = (.error e, s)) ∨
    ((s.projects p).isActive = true ∧ msg.timestamp < (s.projects p).deadline ∧ 0 < v ∧
      (s.projects p).totalRaised + v < UINT256_BOUND ∧
      s.contributions p msg.sender + v < UINT256_BOUND ∧
      contribute msg v p s =
        (.ok (),
          { s with
            balance := s.balance + v
            projects := setAt s.projects p
              { s.projects p with
                contributorCount :=
                  if s.contributions p msg.sender = 0 then (s.projects p).contributorCount + 1
                  else (s.projects p).contributorCount
                totalRaised := (s.projects p).totalRaised + v }
            contributions := setAt s.contributions p
              (setAt (s.contributions p) msg.sender (s.contributions p msg.sender + v)) })) := by
  unfold contribute contributeBody checkedAdd
  by_cases h1 : (s.projects p).isActive = true
  · by_cases h2 : msg.timestamp < (s.projects p).deadline
    · by_cases h3 : v > 0
      · by_cases h4 : s.contributions p msg.sender + v < UINT256_BOUND
        · by_cases h5 : (s.projects p).totalRaised + v < UINT256_BOUND
          · by_cases h6 : s.contributions p msg.sender = 0
            · by_cases h7 : (s.projects p).contributorCount + 1 < UINT256_BOUND
              · right
                refine ⟨h1, h2, h3, h5, h4, ?_⟩
                simp [h1, h2, h3, h4, h5, h6, h7, setAt_same, setAt_setAt]
                simp [h6] at h4
                simp [h4]
              · left; simp [h1, h2, h3, h6, h7]
            · right
              refine ⟨h1, h2, h3, h5, h4, ?_⟩
              simp [h1, h2, h3, h4, h5, h6, setAt_same, setAt_setAt]
          · left
            by_cases h6 : s.contributions p msg.sender = 0
            · by_cases h7 : (s.projects p).contributorCount + 1 < UINT256_BOUND
              · simp [h1, h2, h3, h4, h5, h6, h7, setAt_same]
                simp [h6] at h4
                simp [h4]
              · simp [h1, h2, h3, h6, h7]
            · simp [h1, h2, h3, h4, h5, h6, setAt_same]
        · left
          by_cases h6 : s.contributions p msg.sender = 0
          · by_cases h7 : (s.projects p).contributorCount + 1 < UINT256_BOUND
            · rw [h6, Nat.zero_add] at h4
              simp [h1, h2, h3, h6, h7, h4]
            · simp [h1, h2, h3, h6, h7]
          · simp [h1, h2, h3, h4, h6]
      · left; simp [h1, h2, h3]
    · left; simp [h1, h2]
  · left; simp [h1]

theorem withdrawFunds_cases (accepts : Address → Nat → Bool) (msg : Msg) (p : Nat) (s : State) :
    (∃ e, withdrawFunds accepts msg p s = (.error e, s)) ∨
    ((s.projects p).creator = msg.sender ∧
      ((s.projects p).totalRaised ≥ (s.projects p).fundingGoal ∨
        msg.timestamp ≥ (s.projects p).deadline) ∧
      (s.projects p).isActive = true ∧
      (s.projects p).totalRaised * s.platformFee < UINT256_BOUND ∧
      (s.projects p).totalRaised * s.platformFee / 10000 ≤ (s.projects p).totalRaised ∧
      (s.projects p).totalRaised ≤ s.balance ∧
      accepts msg.sender
        ((s.projects p).totalRaised - (s.projects p).totalRaised * s.platformFee / 10000) = true ∧
      accepts s.owner ((s.projects p).totalRaised * s.platformFee / 10000) = true ∧
      withdrawFunds accepts msg p s =
        (.ok [(msg.sender,
                (s.projects p).totalRaised - (s.projects p).totalRaised * s.platformFee / 10000),
              (s.owner, (s.projects p).totalRaised * s.platformFee / 10000)],
          { s with
            projects := setAt s.projects p { s.projects p with isActive := false }
            balance := s.balance -
              ((s.projects p).totalRaised - (s.projects p).totalRaised * s.platformFee / 10000) -
              (s.projects p).totalRaised * s.platformFee / 10000 })) := by
  unfold withdrawFunds transact withdrawFundsBody checkedMul checkedSub transfer
  by_cases h1 : (s.projects p).creator = msg.sender
  · by_cases h2 : (s.projects p).totalRaised ≥ (s.projects p).fundingGoal ∨
        msg.timestamp ≥ (s.projects p).deadline
    · by_cases h3 : (s.projects p).isActive = true
      · by_cases h4 : (s.projects p).totalRaised * s.platformFee < UINT256_BOUND
        · by_cases h5 : (s.projects p).totalRaised * s.platformFee / 10000 ≤
              (s.projects p).totalRaised
          · by_cases h6 : s.balance < (s.projects p).totalRaised -
                (s.projects p).totalRaised * s.platformFee / 10000
            · left; simp [h1, h2, h3, h4, h5, h6, setAt_same]
            · by_cases h7 : accepts msg.sender ((s.projects p).totalRaised -
                  (s.projects p).totalRaised * s.platformFee / 10000) = true
              · by_cases h8 : s.balance - ((s.projects p).totalRaised -
                    (s.projects p).totalRaised * s.platformFee / 10000) <
                    (s.projects p).totalRaised * s.platformFee / 10000
                · left; simp [h1, h2, h3, h4, h5, h6, h7, h8, setAt_same]
                · by_cases h9 : accepts s.owner
                      ((s.projects p).totalRaised * s.platformFee / 10000) = true
                  · right
                    refine ⟨h1, h2, h3, h4, h5, by omega, h7, h9, ?_⟩
                    simp [h1, h2, h3, h4, h5, h6, h7, h8, h9, setAt_same]
                  · left; simp [h1, h2, h3, h4, h5, h6, h7, h8, h9, setAt_same]
              · left; simp [h1, h2, h3, h4, h5, h6, h7, setAt_same]
          · left; simp [h1, h2, h3, h4, h5, setAt_same]
        · left; simp [h1, h2, h3, h4, setAt_same]
      · left; simp [h1, h2, h3]
    · left; simp [h1, h2]
  · left; simp [h1]

theorem withdrawFunds_ok (accepts : Address → Nat → Bool) (msg : Msg) (p : Nat) (s : State)
    (h1 : (s.projects p).creator = msg.sender)
    (h2 : (s.projects p).totalRaised ≥ (s.projects p).fundingGoal ∨
        msg.timestamp ≥ (s.projects p).deadline)
    (h3 : (s.projects p).isActive = true)
    (h4 : (s.projects p).totalRaised * s.platformFee < UINT256_BOUND)
    (h5 : (s.projects p).totalRaised * s.platformFee / 10000 ≤ (s.projects p).totalRaised)
    (h6 : (s.projects p).totalRaised ≤ s.balance)
    (h7 : accepts msg.sender
        ((s.projects p).totalRaised - (s.projects p).totalRaised * s.platformFee / 10000) = true)
    (h8 : accepts s.owner ((s.projects p).totalRaised * s.platformFee / 10000) = true) :
    withdrawFunds accepts msg p s =
        (.ok [(msg.sender,
                (s.projects p).totalRaised - (s.projects p).totalRaised * s.platformFee / 10000),
              (s.owner, (s.projects p).totalRaised * s.platformFee / 10000)],
          { s with
            projects := setAt s.projects p { s.projects p with isActive := false }
            balance := s.balance -
              ((s.projects p).totalRaised - (s.projects p).totalRaised * s.platformFee / 10000) -
              (s.projects p).totalRaised * s.platformFee / 10000 }) := by
  have a1 : ¬ s.balance < (s.projects p).totalRaised -
      (s.projects p).totalRaised * s.platformFee / 10000 := by omega
  have a2 : ¬ s.balance - ((s.projects p).totalRaised -
      (s.projects p).totalRaised * s.platformFee / 10000) <
      (s.projects p).totalRaised * s.platformFee / 10000 := by omega
  unfold withdrawFunds transact withdrawFundsBody checkedMul checkedSub transfer
  simp [h1, h2, h3, h4, h5, h7, h8, a1, a2, setAt_same]

theorem withdrawFunds_onlyCreator (accepts : Address → Nat → Bool) (msg : Msg) (p : Nat)
    (s : State) (h1 : (s.projects p).creator ≠ msg.sender) :
    withdrawFunds accepts msg p s = (.error .onlyCreator, s) := by
  unfold withdrawFunds transact withdrawFundsBody
  simp [h1]

theorem withdrawFunds_cannotWithdraw (accepts : Address → Nat → Bool) (msg : Msg) (p : Nat)
    (s : State) (h1 : (s.projects p).creator = msg.sender)
    (h2 : (s.projects p).totalRaised < (s.projects p).fundingGoal)
    (h3 : msg.timestamp < (s.projects p).deadline) :
    withdrawFunds accepts msg p s = (.error .cannotWithdraw, s) := by
  unfold withdrawFunds transact withdrawFundsBody
  simp [h1, h2, h3]

theorem withdrawFunds_notActive (accepts : Address → Nat → Bool) (msg : Msg) (p : Nat)
    (s : State) (h1 : (s.projects p).creator = msg.sender)
    (h2 : (s.projects p).totalRaised ≥ (s.projects p).fundingGoal ∨
        msg.timestamp ≥ (s.projects p).deadline)
    (h3 : (s.projects p).isActive = false) :
    withdrawFunds accepts msg p s = (.error .notActive, s) := by
  unfold withdrawFunds transact withdrawFundsBody
  simp [h1, h2, h3]

theorem exec_cases (tx : Tx) (s : State) :
    (∃ e, exec tx s = (.reverted e, s)) ∨
    (∃ title description goal d, tx.call = .createProject title description goal d ∧
      title ≠ "" ∧ 0 < goal ∧ 0 < d ∧ d ≤ 365 ∧ s.projectCounter + 1 < UINT256_BOUND ∧
      tx.timestamp + d * 86400 < UINT256_BOUND ∧
      exec tx s =
        (.created (s.projectCounter + 1),
          { s with
            projectCounter := s.projectCounter + 1
            projects := setAt s.projects (s.projectCounter + 1)
              { id := s.projectCounter + 1, creator := tx.sender, title := title,
                description := description, fundingGoal := goal,
                deadline := tx.timestamp + d * 86400,
                isActive := true, totalRaised := 0, contributorCount := 0 } })) ∨
    (∃ p v, tx.call = .contribute p v ∧
      (s.projects p).isActive = true ∧ tx.timestamp < (s.projects p).deadline ∧ 0 < v ∧
      (s.projects p).totalRaised + v < UINT256_BOUND ∧
      exec tx s =
        (.contributed,
          { s with
            balance := s.balance + v
            projects := setAt s.projects p
              { s.projects p with
                contributorCount :=
                  if s.contributions p tx.sender = 0 then (s.projects p).contributorCount + 1
                  else (s.projects p).contributorCount
                totalRaised := (s.projects p).totalRaised + v }
            contributions := setAt s.contributions p
              (setAt (s.contributions p) tx.sender (s.contributions p tx.sender + v)) })) ∨
    (∃ p, tx.call = .withdrawFunds p ∧
      (s.projects p).creator = tx.sender ∧
      ((s.projects p).totalRaised ≥ (s.projects p).fundingGoal ∨
        tx.timestamp ≥ (s.projects p).deadline) ∧
      (s.projects p).isActive = true ∧
      (s.projects p).totalRaised * s.platformFee / 10000 ≤ (s.projects p).totalRaised ∧
      (s.projects p).totalRaised ≤ s.balance ∧
      exec tx s =
        (.withdrew
            [(tx.sender,
                (s.projects p).totalRaised - (s.projects p).totalRaised * s.platformFee / 10000),
              (s.owner, (s.projects p).totalRaised * s.platformFee / 10000)],
          { s with
            projects := setAt s.projects p { s.projects p with isActive := false }
            balance := s.balance -
              ((s.projects p).totalRaised - (s.projects p).totalRaised * s.platformFee / 10000) -
              (s.projects p).totalRaised * s.platformFee / 10000 })) ∨
    (∃ v, tx.call = .receive v ∧ exec tx s = (.received, { s with balance := s.balance + v })) := by
  cases hc : tx.call with
  | createProject title description goal d =>
    rcases createProject_cases ⟨tx.sender, tx.timestamp⟩ title description goal d s with
      ⟨e, h⟩ | ⟨h1, h2, h3, h4, h5, h6, h⟩
    · left; exact ⟨e, by simp [exec, hc, h]⟩
    · right; left
      exact ⟨title, description, goal, d, rfl, h1, h2, h3, h4, h5, h6, by simp [exec, hc, h]⟩
  | contribute p v =>
    rcases contribute_cases ⟨tx.sender, tx.timestamp⟩ v p s with ⟨e, h⟩ | ⟨h1, h2, h3, h4, _, h⟩
    · left; exact ⟨e, by simp [exec, hc, h]⟩
    · right; right; left
      exact ⟨p, v, rfl, h1, h2, h3, h4, by simp [exec, hc, h]⟩
  | withdrawFunds p =>
    rcases withdrawFunds_cases tx.accepts ⟨tx.sender, tx.timestamp⟩ p s with
      ⟨e, h⟩ | ⟨h1, h2, h3, _, h5, h6, _, _, h⟩
    · left; exact ⟨e, by simp [exec, hc, h]⟩
    · right; right; right; left
      exact ⟨p, rfl, h1, h2, h3, h5, h6, by simp [exec, hc, h]⟩
  | receive v =>
    right; right; right; right
    exact ⟨v, rfl, by simp [exec, hc, receive]⟩

/-! ## The record of accepted contributions -/

theorem valuesFor_append (p : Nat) (l1 l2 : List (Nat × Address × Nat)) :
    valuesFor p (l1 ++ l2) = valuesFor p l1 ++ valuesFor p l2 := by
  simp [valuesFor]

theorem contributorsFor_append (p : Nat) (l1 l2 : List (Nat × Address × Nat)) :
    contributorsFor p (l1 ++ l2) = contributorsFor p l1 ++ contributorsFor p l2 := by
  simp [contributorsFor]

theorem valuesFor_single (q p : Nat) (a : Address) (v : Nat) :
    valuesFor q [(p, a, v)] = if p = q then [v] else [] := by
  by_cases h : p = q <;> simp [valuesFor, List.filter, h]

theorem contributorsFor_single (q p : Nat) (a : Address) (v : Nat) :
    contributorsFor q [(p, a, v)] = if p = q then [a] else [] := by
  by_cases h : p = q <;> simp [contributorsFor, List.filter, h]

theorem valuesFor_unallocated (log : List (Nat × Address × Nat)) (c q : Nat)
    (h : ∀ e ∈ log, e.1 ≤ c) (hq : c < q) : valuesFor q log = [] := by
  simp only [valuesFor, List.map_eq_nil_iff, List.filter_eq_nil_iff]
  intro e he
  have := h e he
  simp; omega

theorem contributorsFor_unallocated (log : List (Nat × Address × Nat)) (c q : Nat)
    (h : ∀ e ∈ log, e.1 ≤ c) (hq : c < q) : contributorsFor q log = [] := by
  simp only [contributorsFor, List.map_eq_nil_iff, List.filter_eq_nil_iff]
  intro e he
  have := h e he
  simp; omega

theorem contributionOf_reverted (tx : Tx) (s : State) (e : Revert) (s' : State)
    (h : exec tx s = (.reverted e, s')) : contributionOf tx s = [] := by
  unfold contributionOf
  cases hc : tx.call <;> simp [h]

theorem ledger_deploy (deployer : Address) : Ledger (deploy deployer) [] := by
  refine ⟨?_, ?_, ?_, ?_, ?_⟩ <;> simp [deploy, Project.zero, valuesFor, contributorsFor]

theorem ledger_exec (tx : Tx) (s : State) (log : List (Nat × Address × Nat))
    (h : Ledger s log) : Ledger (exec tx s).2 (log ++ contributionOf tx s) := by
  obtain ⟨hA, hB, hC, hD, hE⟩ := h
  rcases exec_cases tx s with ⟨e, he⟩ | ⟨title, description, goal, d, hc, -, -, -, -, -, -, he⟩ |
    ⟨p, v, hc, hact, -, hv, -, he⟩ | ⟨p, hc, -, -, hact, -, -, he⟩ | ⟨v, hc, he⟩
  · rw [contributionOf_reverted tx s e s he, he, List.append_nil]
    exact ⟨hA, hB, hC, hD, hE⟩
  · have hl : contributionOf tx s = [] := by simp [contributionOf, hc]
    rw [hl, he, List.append_nil]
    refine ⟨?_, ?_, ?_, ?_, ?_⟩
    · intro q hq
      have hq1 : s.projectCounter < q := by simp at hq; omega
      have hq2 : q ≠ s.projectCounter + 1 := by simp at hq; omega
      simp [setAt_other _ _ _ _ hq2, hA q hq1]
    · intro e he'
      have := hB e he'
      simp; omega
    · intro q
      by_cases hq : q = s.projectCounter + 1
      · subst hq
        simp [setAt_same, valuesFor_unallocated log s.projectCounter _ hB (Nat.lt_succ_self _)]
      · simp [setAt_other _ _ _ _ hq, hC q]
    · intro q
      by_cases hq : q = s.projectCounter + 1
      · subst hq
        simp [setAt_same,
          contributorsFor_unallocated log s.projectCounter _ hB (Nat.lt_succ_self _)]
      · simp [setAt_other _ _ _ _ hq, hD q]
    · intro q a
      exact hE q a
  · have hl : contributionOf tx s = [(p, tx.sender, v)] := by simp [contributionOf, hc, he]
    have hp : p ≤ s.projectCounter := by
      by_contra hcon
      have := hA p (by omega)
      simp [hact] at this
    rw [hl, he]
    refine ⟨?_, ?_, ?_, ?_, ?_⟩
    · intro q hq
      have hq1 : s.projectCounter < q := by simpa using hq
      have hq2 : q ≠ p := by omega
      simp [setAt_other _ _ _ _ hq2, hA q hq1]
    · intro e he'
      rcases List.mem_append.1 he' with h1 | h1
      · exact hB e h1
      · simp at h1; subst h1; exact hp
    · intro q
      by_cases hq : q = p
      · subst hq
        simp [setAt_same, valuesFor_append, valuesFor_single, hC q]
      · have hq' : ¬ p = q := fun h => hq h.symm
        simp [setAt_other _ _ _ _ hq, valuesFor_append, valuesFor_single, hq', hC q]
    · intro q
      by_cases hq : q = p
      · subst hq
        by_cases h0 : s.contributions q tx.sender = 0
        · have hn := (hE q tx.sender).1 h0
          have hn' : tx.sender ∉ (contributorsFor q log).toFinset := by simpa using hn
          simp only [setAt_same, contributorsFor_append, contributorsFor_single, if_true, h0,
            List.toFinset_append, List.toFinset_cons, List.toFinset_nil, hD q]
          rw [Finset.union_comm, Finset.insert_union, Finset.empty_union,
            Finset.card_insert_of_not_mem hn']
        · have hn : tx.sender ∈ (contributorsFor q log) := by
            by_contra hcon
            exact h0 ((hE q tx.sender).2 hcon)
          have hn' : tx.sender ∈ (contributorsFor q log).toFinset := by simpa using hn
          simp only [setAt_same, contributorsFor_append, contributorsFor_single, if_true, h0,
            List.toFinset_append, List.toFinset_cons, List.toFinset_nil, hD q, if_false]
          rw [Finset.union_comm, Finset.insert_union, Finset.empty_union,
            Finset.insert_eq_of_mem hn']
      · have hq' : ¬ p = q := fun h => hq h.symm
        simp [setAt_other _ _ _ _ hq, contributorsFor_append, contributorsFor_single, hq', hD q]
    · intro q a
      by_cases hq : q = p
      · subst hq
        by_cases ha : a = tx.sender
        · subst ha
          simp [setAt_same, contributorsFor_append, contributorsFor_single]
          omega
        · simp [setAt_same, setAt_other _ _ _ _ ha, contributorsFor_append,
            contributorsFor_single, ha, hE q a]
      · have hq' : ¬ p = q := fun h => hq h.symm
        simp [setAt_other _ _ _ _ hq, contributorsFor_append, contributorsFor_single, hq',
          hE q a]
  · have hl : contributionOf tx s = [] := by simp [contributionOf, hc]
    rw [hl, he, List.append_nil]
    refine ⟨?_, hB, ?_, ?_, hE⟩
    · intro q hq
      by_cases hq2 : q = p
      · subst hq2; simp [setAt_same]
      · simp [setAt_other _ _ _ _ hq2, hA q hq]
    · intro q
      by_cases hq2 : q = p
      · subst hq2; simp [setAt_same, hC q]
      · simp [setAt_other _ _ _ _ hq2, hC q]
    · intro q
      by_cases hq2 : q = p
      · subst hq2; simp [setAt_same, hD q]
      · simp [setAt_other _ _ _ _ hq2, hD q]
  · have hl : contributionOf tx s = [] := by simp [contributionOf, hc]
    rw [hl, he, List.append_nil]
    exact ⟨hA, hB, hC, hD, hE⟩

theorem ledger_run (txs : List Tx) : ∀ (s : State) (log : List (Nat × Address × Nat)),
    Ledger s log → Ledger (run s txs) (log ++ contributionLog s txs) := by
  induction txs with
  | nil => intro s log h; simpa [run, contributionLog] using h
  | cons tx txs ih =>
    intro s log h
    have := ih (exec tx s).2 (log ++ contributionOf tx s) (ledger_exec tx s log h)
    simpa [run, contributionLog, List.append_assoc] using this

/-! ## Contribution accounting and the payout of a withdrawal -/

/-- C1. Contribution accounting: after every sequence of transactions from deployment, the
`totalRaised` of a project is the sum of the values attached to the contributions to it
that were accepted, and its `contributorCount` is the number of distinct principals among
their senders (a repeated contributor is counted once). -/
theorem contribution_accounting (deployer : Address) (txs : List Tx) (p : Nat) :
    ((run (deploy deployer) txs).projects p).totalRaised =
      (valuesFor p (contributionLog (deploy deployer) txs)).sum ∧
    ((run (deploy deployer) txs).projects p).contributorCount =
      (contributorsFor p (contributionLog (deploy deployer) txs)).toFinset.card := by
  have h := ledger_run txs (deploy deployer) [] (ledger_deploy deployer)
  rw [List.nil_append] at h
  exact ⟨h.2.2.1 p, h.2.2.2.1 p⟩

/-- C2. Withdrawal payout split: a successful `withdrawFunds` on a project with
`totalRaised = T` pays `T - fee` to the creator and then `fee = T * platformFee / 10000`
(integer division) to the owner; the two payments add up to `T` exactly, and the balance of
the contract goes down by `T`. -/
theorem withdrawal_payout_split (accepts : Address → Nat → Bool) (msg : Msg) (p : Nat)
    (s : State) (payments : List (Address × Nat))
    (h : (withdrawFunds accepts msg p s).1 = .ok payments) :
    msg.sender = (s.projects p).creator ∧
    payments =
      [((s.projects p).creator,
          (s.projects p).totalRaised - (s.projects p).totalRaised * s.platformFee / 10000),
        (s.owner, (s.projects p).totalRaised * s.platformFee / 10000)] ∧
    ((s.projects p).totalRaised - (s.projects p).totalRaised * s.platformFee / 10000) +
      (s.projects p).totalRaised * s.platformFee / 10000 = (s.projects p).totalRaised ∧
    (withdrawFunds accepts msg p s).2.balance + (s.projects p).totalRaised = s.balance := by
  rcases withdrawFunds_cases accepts msg p s with ⟨e, he⟩ | ⟨h1, -, -, -, h5, h6, -, -, hw⟩
  · rw [he] at h; cases h
  · rw [hw] at h
    simp only [Except.ok.injEq] at h
    refine ⟨h1.symm, ?_, by omega, ?_⟩
    · rw [← h, h1]
    · rw [hw]; simp only; omega

/-- Witness for C2: the creator withdraws 2000 at the default fee of 250 basis points and
the payments are 1950 to the creator and 50 to the owner. -/
theorem withdrawal_payout_split_witness :
    (withdrawFunds acceptAll { sender := 1, timestamp := 400 } 1 fundedState).1 =
        .ok [(1, 1950), (0, 50)] ∧
    [((1 : Address), 1950), (0, 50)] =
      [((fundedState.projects 1).creator,
          (fundedState.projects 1).totalRaised -
            (fundedState.projects 1).totalRaised * fundedState.platformFee / 10000),
        (fundedState.owner,
          (fundedState.projects 1).totalRaised * fundedState.platformFee / 10000)] :=
  ⟨by decide,
    (withdrawal_payout_split acceptAll { sender := 1, timestamp := 400 } 1 fundedState
      [(1, 1950), (0, 50)] (by decide)).2.1⟩

/-! ## Invariants of single steps and of runs -/

theorem wellFormed_deploy (deployer : Address) : WellFormed (deploy deployer) := by
  constructor <;> simp [deploy]

theorem wellFormed_exec (tx : Tx) (s : State) (h : WellFormed s) : WellFormed (exec tx s).2 := by
  obtain ⟨hA, hF⟩ := h
  rcases exec_cases tx s with ⟨e, he⟩ | ⟨title, description, goal, d, -, -, -, -, -, -, -, he⟩ |
    ⟨p, v, -, hact, -, -, -, he⟩ | ⟨p, -, -, -, hact, -, -, he⟩ | ⟨v, -, he⟩
  · rw [he]; exact ⟨hA, hF⟩
  · rw [he]
    refine ⟨?_, hF⟩
    intro q hq
    have hq1 : s.projectCounter < q := by simp at hq; omega
    have hq2 : q ≠ s.projectCounter + 1 := by simp at hq; omega
    simp [setAt_other _ _ _ _ hq2, hA q hq1]
  · rw [he]
    refine ⟨?_, hF⟩
    intro q hq
    have hq1 : s.projectCounter < q := by simpa using hq
    have hq2 : q ≠ p := by
      rintro rfl
      rw [hA q hq1] at hact
      simp [Project.zero] at hact
    simp [setAt_other _ _ _ _ hq2, hA q hq1]
  · rw [he]
    refine ⟨?_, hF⟩
    intro q hq
    have hq1 : s.projectCounter < q := by simpa using hq
    have hq2 : q ≠ p := by
      rintro rfl
      rw [hA q hq1] at hact
      simp [Project.zero] at hact
    simp [setAt_other _ _ _ _ hq2, hA q hq1]
  · rw [he]; exact ⟨hA, hF⟩

theorem wellFormed_run (txs : List Tx) : ∀ s : State, WellFormed s → WellFormed (run s txs) := by
  induction txs with
  | nil => intro s h; simpa [run] using h
  | cons tx txs ih => intro s h; simpa [run] using ih _ (wellFormed_exec tx s h)

theorem wellFormed_active_allocated (s : State) (h : WellFormed s) (p : Nat)
    (hact : (s.projects p).isActive = true) : p ≤ s.projectCounter := by
  by_contra hcon
  rw [h.1 p (by omega)] at hact
  simp [Project.zero] at hact

theorem exec_inactive_frozen (tx : Tx) (s : State) (p : Nat) (hp : p ≤ s.projectCounter)
    (hi : (s.projects p).isActive = false) :
    (exec tx s).2.projects p = s.projects p ∧ p ≤ (exec tx s).2.projectCounter := by
  rcases exec_cases tx s with ⟨e, he⟩ | ⟨title, description, goal, d, -, -, -, -, -, -, -, he⟩ |
    ⟨q, v, -, hact, -, -, -, he⟩ | ⟨q, -, -, -, hact, -, -, he⟩ | ⟨v, -, he⟩
  · rw [he]; exact ⟨rfl, hp⟩
  · rw [he]
    have hq : p ≠ s.projectCounter + 1 := by omega
    exact ⟨by simp [setAt_other _ _ _ _ hq], by simp; omega⟩
  · rw [he]
    have hq : p ≠ q := by rintro rfl; simp [hi] at hact
    exact ⟨by simp [setAt_other _ _ _ _ hq], hp⟩
  · rw [he]
    have hq : p ≠ q := by rintro rfl; simp [hi] at hact
    exact ⟨by simp [setAt_other _ _ _ _ hq], hp⟩
  · rw [he]; exact ⟨rfl, hp⟩

theorem run_inactive_frozen (txs : List Tx) : ∀ (s : State) (p : Nat), p ≤ s.projectCounter →
    (s.projects p).isActive = false →
    (run s txs).projects p = s.projects p ∧ p ≤ (run s txs).projectCounter := by
  induction txs with
  | nil => intro s p hp _; exact ⟨rfl, hp⟩
  | cons tx txs ih =>
    intro s p hp hi
    obtain ⟨h1, h2⟩ := exec_inactive_frozen tx s p hp hi
    obtain ⟨h3, h4⟩ := ih (exec tx s).2 p h2 (by rw [h1]; exact hi)
    exact ⟨by simp only [run]; rw [h3, h1], by simpa only [run] using h4⟩

theorem withdrawalsOf_inactive (p : Nat) (txs : List Tx) : ∀ s : State, p ≤ s.projectCounter →
    (s.projects p).isActive = false → withdrawalsOf p s txs = [] := by
  induction txs with
  | nil => intro s _ _; rfl
  | cons tx txs ih =>
    intro s hp hi
    obtain ⟨h1, h2⟩ := exec_inactive_frozen tx s p hp hi
    have hrest := ih (exec tx s).2 h2 (by rw [h1]; exact hi)
    simp only [withdrawalsOf, hrest, List.append_nil]
    rcases exec_cases tx s with ⟨e, he⟩ | ⟨title, description, goal, d, hc, -, -, -, -, -, -, he⟩ |
      ⟨q, v, hc, -, -, -, -, he⟩ | ⟨q, hc, -, -, hact, -, -, he⟩ | ⟨v, hc, he⟩
    · rw [he]; cases hc : tx.call <;> simp
    · simp [hc, he]
    · simp [hc, he]
    · have hq : q ≠ p := by rintro rfl; simp [hi] at hact
      simp [hc, he, hq]
    · simp [hc, he]

theorem withdrawalsOf_length_le_one (p : Nat) (txs : List Tx) : ∀ s : State, WellFormed s →
    (withdrawalsOf p s txs).length ≤ 1 := by
  induction txs with
  | nil => intro s _; simp [withdrawalsOf]
  | cons tx txs ih =>
    intro s hs
    have hrest := ih (exec tx s).2 (wellFormed_exec tx s hs)
    simp only [withdrawalsOf]
    rcases exec_cases tx s with ⟨e, he⟩ | ⟨title, description, goal, d, hc, -, -, -, -, -, -, he⟩ |
      ⟨q, v, hc, -, -, -, -, he⟩ | ⟨q, hc, -, -, hact, -, -, he⟩ | ⟨v, hc, he⟩
    · have : (match tx.call, (exec tx s).1 with
          | .withdrawFunds q, .withdrew payments => if q = p then [payments] else []
          | _, _ => []) = [] := by
        rw [he]; cases hc : tx.call <;> simp
      rw [this]; simpa using hrest
    · simp only [hc]; simpa using hrest
    · simp only [hc]; simpa using hrest
    · by_cases hq : q = p
      · subst hq
        have hp := wellFormed_active_allocated s hs q hact
        have hnil : withdrawalsOf q (exec tx s).2 txs = [] := by
          apply withdrawalsOf_inactive
          · rw [he]; exact hp
          · rw [he]; simp [setAt_same]
        rw [hnil]
        simp [hc, he]
      · simp only [hc, he, hq, if_false]; simpa [he] using hrest
    · simp only [hc]; simpa using hrest

/-! ## Withdrawal: at most once, and its preconditions -/

/-- C3, as stated, fails: after the creator (account 1) has withdrawn project 1, a later
`withdrawFunds(1)` by account 2 reverts with the only-creator condition, not with the
not-active condition. -/
theorem second_withdrawal_by_other_counterexample :
    (withdrawFunds acceptAll { sender := 1, timestamp := 400 } 1 fundedState).1 =
        .ok [(1, 1950), (0, 50)] ∧
    (withdrawFunds acceptAll { sender := 2, timestamp := 500 } 1
        (withdrawFunds acceptAll { sender := 1, timestamp := 400 } 1 fundedState).2).1 =
        .error .onlyCreator ∧
    (withdrawFunds acceptAll { sender := 2, timestamp := 500 } 1
        (withdrawFunds acceptAll { sender := 1, timestamp := 400 } 1 fundedState).2).1 ≠
        .error .notActive := by
  decide

/-- C3, amended. After a successful `withdrawFunds(p)` in a reachable state, and after any
further transactions, every `withdrawFunds(p)` reverts and leaves the state (hence the
balance) as it was: with the not-active condition when the caller is the creator and the
time is not before the time of the withdrawal, with the only-creator condition when the
caller is anyone else.  Over every run from deployment at most one `withdrawFunds(p)`
succeeds. -/
theorem withdraw_at_most_once (deployer : Address) (txs0 : List Tx)
    (accepts : Address → Nat → Bool) (msg : Msg) (p : Nat) (payments : List (Address × Nat))
    (h : (withdrawFunds accepts msg p (run (deploy deployer) txs0)).1 = .ok payments)
    (txs : List Tx) (accepts' : Address → Nat → Bool) (msg' : Msg) (trace : List Tx) :
    (∃ e, withdrawFunds accepts' msg' p
        (run (withdrawFunds accepts msg p (run (deploy deployer) txs0)).2 txs) =
      (.error e, run (withdrawFunds accepts msg p (run (deploy deployer) txs0)).2 txs)) ∧
    (msg'.sender = msg.sender → msg.timestamp ≤ msg'.timestamp →
      withdrawFunds accepts' msg' p
        (run (withdrawFunds accepts msg p (run (deploy deployer) txs0)).2 txs) =
      (.error .notActive,
        run (withdrawFunds accepts msg p (run (deploy deployer) txs0)).2 txs)) ∧
    (msg'.sender ≠ msg.sender →
      withdrawFunds accepts' msg' p
        (run (withdrawFunds accepts msg p (run (deploy deployer) txs0)).2 txs) =
      (.error .onlyCreator,
        run (withdrawFunds accepts msg p (run (deploy deployer) txs0)).2 txs)) ∧
    (withdrawalsOf p (deploy deployer) trace).length ≤ 1 := by
  have hwf := wellFormed_run txs0 (deploy deployer) (wellFormed_deploy deployer)
  generalize run (deploy deployer) txs0 = s at h hwf ⊢
  rcases withdrawFunds_cases accepts msg p s with ⟨e, he⟩ | ⟨h1, h2, h3, -, -, -, -, -, hw⟩
  · rw [he] at h; cases h
  · have hp := wellFormed_active_allocated s hwf p h3
    rw [hw]
    simp only
    obtain ⟨hfro, -⟩ := run_inactive_frozen txs
      { s with
        projects := setAt s.projects p { s.projects p with isActive := false }
        balance := s.balance -
          ((s.projects p).totalRaised - (s.projects p).totalRaised * s.platformFee / 10000) -
          (s.projects p).totalRaised * s.platformFee / 10000 } p hp (by simp [setAt_same])
    simp only [setAt_same] at hfro
    generalize run
      { s with
        projects := setAt s.projects p { s.projects p with isActive := false }
        balance := s.balance -
          ((s.projects p).totalRaised - (s.projects p).totalRaised * s.platformFee / 10000) -
          (s.projects p).totalRaised * s.platformFee / 10000 } txs = s2 at hfro ⊢
    refine ⟨?_, ?_, ?_, withdrawalsOf_length_le_one p trace _ (wellFormed_deploy deployer)⟩
    · rcases withdrawFunds_cases accepts' msg' p s2 with ⟨e, he⟩ | ⟨-, -, h3', -⟩
      · exact ⟨e, he⟩
      · rw [hfro] at h3'; simp at h3'
    · intro hs ht
      apply withdrawFunds_notActive
      · rw [hfro]; simp [h1, hs]
      · rw [hfro]; simp only
        rcases h2 with h2 | h2
        · exact Or.inl h2
        · exact Or.inr (by omega)
      · rw [hfro]
    · intro hs
      apply withdrawFunds_onlyCreator
      rw [hfro]; simp only
      rw [h1]; exact fun hcon => hs hcon.symm

/-- Witness for C3 (amended): after the creator withdrew project 1 at time 400 and a further
contribution attempt, the creator's second `withdrawFunds(1)` at time 500 reverts with the
not-active condition. -/
theorem withdraw_at_most_once_witness :
    (withdrawFunds acceptAll { sender := 1, timestamp := 400 } 1 (run (deploy 0) fundedRun)).1 =
        .ok [(1, 1950), (0, 50)] ∧
    withdrawFunds acceptAll { sender := 1, timestamp := 500 } 1
        (run (withdrawFunds acceptAll { sender := 1, timestamp := 400 } 1
          (run (deploy 0) fundedRun)).2
          [{ sender := 2, timestamp := 450, accepts := acceptAll, call := .contribute 1 5 }]) =
      (.error .notActive,
        run (withdrawFunds acceptAll { sender := 1, timestamp := 400 } 1
          (run (deploy 0) fundedRun)).2
          [{ sender := 2, timestamp := 450, accepts := acceptAll, call := .contribute 1 5 }]) :=
  ⟨by decide,
    (withdraw_at_most_once 0 fundedRun acceptAll { sender := 1, timestamp := 400 } 1
      [(1, 1950), (0, 50)] (by decide)
      [{ sender := 2, timestamp := 450, accepts := acceptAll, call := .contribute 1 5 }]
      acceptAll { sender := 1, timestamp := 500 } []).2.1 rfl (by decide)⟩

theorem settled_mono (s : State) (t t' : Nat) (h : Settled s t) (ht : t ≤ t') :
    Settled s t' := by
  intro p hp
  rcases h p hp with h1 | h1
  · exact Or.inl h1
  · exact Or.inr (by omega)

theorem settled_deploy (deployer : Address) : Settled (deploy deployer) 0 := by
  intro p _
  simp [deploy, Project.zero]

theorem settled_exec (tx : Tx) (s : State) (t : Nat) (h : Settled s t)
    (ht : t ≤ tx.timestamp) : Settled (exec tx s).2 tx.timestamp := by
  have h' := settled_mono s t tx.timestamp h ht
  rcases exec_cases tx s with ⟨e, he⟩ | ⟨title, description, goal, d, -, -, -, -, -, -, -, he⟩ |
    ⟨p, v, -, hact, -, -, -, he⟩ | ⟨p, -, -, hcond, hact, -, -, he⟩ | ⟨v, -, he⟩
  · rw [he]; exact h'
  · rw [he]
    intro q hq
    by_cases hq2 : q = s.projectCounter + 1
    · subst hq2; simp [setAt_same] at hq
    · simp only [setAt_other _ _ _ _ hq2] at hq ⊢
      exact h' q hq
  · rw [he]
    intro q hq
    by_cases hq2 : q = p
    · subst hq2; simp [setAt_same, hact] at hq
    · simp only [setAt_other _ _ _ _ hq2] at hq ⊢
      exact h' q hq
  · rw [he]
    intro q hq
    by_cases hq2 : q = p
    · subst hq2; simp only [setAt_same]; exact hcond
    · simp only [setAt_other _ _ _ _ hq2] at hq ⊢
      exact h' q hq
  · rw [he]; exact h'

theorem settled_run (txs : List Tx) : ∀ (s : State) (t : Nat) (tx : Tx), Settled s t →
    chronological t (txs ++ [tx]) → Settled (run s txs) tx.timestamp := by
  induction txs with
  | nil =>
    intro s t tx h hc
    exact settled_mono s t tx.timestamp h hc.1
  | cons a txs ih =>
    intro s t tx h hc
    exact ih (exec a s).2 a.timestamp tx (settled_exec a s t h hc.1) hc.2

/-- C4. Preconditions of `withdrawFunds`, in a state reached from deployment by transactions
whose block times never go back, for a call at a time not before the last of them.  A
caller who is not the creator gets the only-creator revert; the creator of an active
project with `totalRaised < fundingGoal` before the deadline gets the cannot-withdraw
revert; the creator of an inactive project gets the not-active revert.  When the transfers
succeed (the balance covers `totalRaised` and both recipients accept) and the fee product
`totalRaised * platformFee` stays in the `uint256` range, the call succeeds exactly when
the caller is the creator, the project is active, and the goal is reached or the deadline
has passed. -/
theorem withdrawFunds_preconditions (deployer : Address) (txs : List Tx)
    (accepts : Address → Nat → Bool) (msg : Msg) (p : Nat)
    (hchron : chronological 0
      (txs ++ [{ sender := msg.sender, timestamp := msg.timestamp, accepts := accepts,
                 call := .withdrawFunds p }])) :
    (((run (deploy deployer) txs).projects p).creator ≠ msg.sender →
      withdrawFunds accepts msg p (run (deploy deployer) txs) =
        (.error .onlyCreator, run (deploy deployer) txs)) ∧
    (((run (deploy deployer) txs).projects p).creator = msg.sender →
      ((run (deploy deployer) txs).projects p).isActive = true →
      ((run (deploy deployer) txs).projects p).totalRaised <
        ((run (deploy deployer) txs).projects p).fundingGoal →
      msg.timestamp < ((run (deploy deployer) txs).projects p).deadline →
      withdrawFunds accepts msg p (run (deploy deployer) txs) =
        (.error .cannotWithdraw, run (deploy deployer) txs)) ∧
    (((run (deploy deployer) txs).projects p).creator = msg.sender →
      ((run (deploy deployer) txs).projects p).isActive = false →
      withdrawFunds accepts msg p (run (deploy deployer) txs) =
        (.error .notActive, run (deploy deployer) txs)) ∧
    (((run (deploy deployer) txs).projects p).totalRaised *
        (run (deploy deployer) txs).platformFee < UINT256_BOUND →
      ((run (deploy deployer) txs).projects p).totalRaised ≤
        (run (deploy deployer) txs).balance →
      accepts msg.sender
        (((run (deploy deployer) txs).projects p).totalRaised -
          ((run (deploy deployer) txs).projects p).totalRaised *
            (run (deploy deployer) txs).platformFee / 10000) = true →
      accepts (run (deploy deployer) txs).owner
        (((run (deploy deployer) txs).projects p).totalRaised *
          (run (deploy deployer) txs).platformFee / 10000) = true →
      ((∃ payments, (withdrawFunds accepts msg p (run (deploy deployer) txs)).1 = .ok payments) ↔
        (((run (deploy deployer) txs).projects p).creator = msg.sender ∧
          ((run (deploy deployer) txs).projects p).isActive = true ∧
          (((run (deploy deployer) txs).projects p).totalRaised ≥
              ((run (deploy deployer) txs).projects p).fundingGoal ∨
            msg.timestamp ≥ ((run (deploy deployer) txs).projects p).deadline)))) := by
  have hwf := wellFormed_run txs (deploy deployer) (wellFormed_deploy deployer)
  have hset := settled_run txs (deploy deployer) 0
    { sender := msg.sender, timestamp := msg.timestamp, accepts := accepts,
      call := .withdrawFunds p } (settled_deploy deployer) hchron
  simp only at hset
  generalize run (deploy deployer) txs = s at hwf hset ⊢
  refine ⟨?_, ?_, ?_, ?_⟩
  · exact fun h1 => withdrawFunds_onlyCreator accepts msg p s h1
  · exact fun h1 _ h3 h4 => withdrawFunds_cannotWithdraw accepts msg p s h1 h3 h4
  · exact fun h1 h2 => withdrawFunds_notActive accepts msg p s h1 (hset p h2) h2
  · intro h4 h6 h7 h8
    constructor
    · rintro ⟨payments, hp⟩
      rcases withdrawFunds_cases accepts msg p s with ⟨e, he⟩ | ⟨h1, h2, h3, -⟩
      · rw [he] at hp; cases hp
      · exact ⟨h1, h3, h2⟩
    · rintro ⟨h1, h3, h2⟩
      have h5 : (s.projects p).totalRaised * s.platformFee / 10000 ≤
          (s.projects p).totalRaised := by
        rw [hwf.2]; omega
      exact ⟨_, by rw [withdrawFunds_ok accepts msg p s h1 h2 h3 h4 h5 h6 h7 h8]⟩

/-- Witness for C4: after `fundedRun` the call `withdrawFunds(1)` at time 400 is later than
every earlier transaction, and account 2, who is not the creator, gets the only-creator
revert. -/
theorem withdrawFunds_preconditions_witness :
    chronological 0
      (fundedRun ++ [{ sender := 2, timestamp := 400, accepts := acceptAll,
                       call := .withdrawFunds 1 }]) ∧
    withdrawFunds acceptAll { sender := 2, timestamp := 400 } 1 (run (deploy 0) fundedRun) =
      (.error .onlyCreator, run (deploy 0) fundedRun) :=
  ⟨by simp [chronological, fundedRun],
    (withdrawFunds_preconditions 0 fundedRun acceptAll { sender := 2, timestamp := 400 } 1
      (by simp [chronological, fundedRun])).1 (by decide)⟩

/-! ## Project creation -/

theorem createdIds_run (txs : List Tx) : ∀ s : State,
    createdIds s txs = List.range' (s.projectCounter + 1) (createdIds s txs).length ∧
    (run s txs).projectCounter = s.projectCounter + (createdIds s txs).length := by
  induction txs with
  | nil => intro s; simp [createdIds, run]
  | cons tx txs ih =>
    intro s
    obtain ⟨ih1, ih2⟩ := ih (exec tx s).2
    simp only [createdIds, run]
    rcases exec_cases tx s with ⟨e, he⟩ | ⟨title, description, goal, d, hc, -, -, -, -, -, -, he⟩ |
      ⟨q, v, hc, -, -, -, -, he⟩ | ⟨q, hc, -, -, -, -, -, he⟩ | ⟨v, hc, he⟩
    · have : (match tx.call, (exec tx s).1 with
          | .createProject _ _ _ _, .created id => [id]
          | _, _ => []) = [] := by
        rw [he]; cases hc : tx.call <;> simp
      rw [this, List.nil_append]
      rw [he] at ih1 ih2 ⊢
      exact ⟨ih1, ih2⟩
    · rw [he] at ih1 ih2 ⊢
      simp only [hc] at ih1 ih2 ⊢
      constructor
      · rw [List.singleton_append, List.length_cons, List.range'_succ, ← ih1]
      · rw [ih2, List.singleton_append, List.length_cons]; omega
    · rw [he] at ih1 ih2 ⊢
      simp only [hc, List.nil_append] at ih1 ih2 ⊢
      exact ⟨ih1, ih2⟩
    · rw [he] at ih1 ih2 ⊢
      simp only [hc, List.nil_append] at ih1 ih2 ⊢
      exact ⟨ih1, ih2⟩
    · rw [he] at ih1 ih2 ⊢
      simp only [hc, List.nil_append] at ih1 ih2 ⊢
      exact ⟨ih1, ih2⟩

/-- C5. Sequential project ids: over every run from deployment the successful `createProject`
calls return, in order, the ids 1, 2, ..., k; `projectCounter` equals the number k of
successful calls; and a `createProject` that reverts leaves `projectCounter` as it was. -/
theorem sequential_project_ids (deployer : Address) (txs : List Tx) :
    createdIds (deploy deployer) txs =
      List.range' 1 (createdIds (deploy deployer) txs).length ∧
    (run (deploy deployer) txs).projectCounter = (createdIds (deploy deployer) txs).length ∧
    (∀ (msg : Msg) (title description : String) (goal durationDays : Nat) (e : Revert),
      (createProject msg title description goal durationDays (run (deploy deployer) txs)).1 =
        .error e →
      (createProject msg title description goal durationDays
        (run (deploy deployer) txs)).2.projectCounter =
        (run (deploy deployer) txs).projectCounter) := by
  obtain ⟨h1, h2⟩ := createdIds_run txs (deploy deployer)
  refine ⟨by simpa [deploy] using h1, by simpa [deploy] using h2, ?_⟩
  intro msg title description goal d e he
  unfold createProject at he ⊢
  rw [transact_error _ _ e he]

theorem createProject_ok (msg : Msg) (title description : String) (goal d : Nat) (s : State)
    (h1 : title ≠ "") (h2 : 0 < goal) (h3 : 0 < d) (h4 : d ≤ 365)
    (h5 : s.projectCounter + 1 < UINT256_BOUND)
    (h6 : msg.timestamp + d * 86400 < UINT256_BOUND) :
    createProject msg title description goal d s =
      (.ok (s.projectCounter + 1),
        { s with
          projectCounter := s.projectCounter + 1
          projects := setAt s.projects (s.projectCounter + 1)
            { id := s.projectCounter + 1, creator := msg.sender, title := title,
              description := description, fundingGoal := goal,
              deadline := msg.timestamp + d * 86400,
              isActive := true, totalRaised := 0, contributorCount := 0 } }) := by
  have a1 : title.utf8ByteSize > 0 := by
    rcases Nat.eq_zero_or_pos title.utf8ByteSize with h | h
    · exact absurd ((utf8ByteSize_eq_zero title).1 h) h1
    · exact h
  have a2 : d * 86400 < UINT256_BOUND := by omega
  unfold createProject transact createProjectBody checkedAdd checkedMul
  simp [a1, h2, h3, h4, h5, h6, a2]

theorem createProject_invalidDuration (msg : Msg) (title description : String) (goal d : Nat)
    (s : State) (h1 : title ≠ "") (h2 : goal ≠ 0) (h3 : 365 < d) :
    createProject msg title description goal d s = (.error .invalidDuration, s) := by
  have a1 : title.utf8ByteSize > 0 := by
    rcases Nat.eq_zero_or_pos title.utf8ByteSize with h | h
    · exact absurd ((utf8ByteSize_eq_zero title).1 h) h1
    · exact h
  have a2 : goal > 0 := Nat.pos_of_ne_zero h2
  have a3 : ¬ (d > 0 ∧ d ≤ 365) := by omega
  unfold createProject transact createProjectBody
  simp [a1, a2, a3]

theorem createProject_reverts_iff (msg : Msg) (title description : String) (goal d : Nat)
    (s : State) :
    (∃ e, (createProject msg title description goal d s).1 = .error e) ↔
      (title = "" ∨ goal = 0 ∨ d = 0 ∨ d > 365 ∨ UINT256_BOUND ≤ s.projectCounter + 1 ∨
        UINT256_BOUND ≤ msg.timestamp + d * 86400) := by
  constructor
  · rintro ⟨e, he⟩
    by_contra hcon
    simp only [not_or, not_le, gt_iff_lt, not_lt] at hcon
    obtain ⟨h1, h2, h3, h4, h5, h6⟩ := hcon
    rw [createProject_ok msg title description goal d s h1 (Nat.pos_of_ne_zero h2)
      (Nat.pos_of_ne_zero h3) h4 h5 h6] at he
    cases he
  · intro hbad
    rcases createProject_cases msg title description goal d s with
      ⟨e, he⟩ | ⟨h1, h2, h3, h4, h5, h6, -⟩
    · exact ⟨e, by rw [he]⟩
    · rcases hbad with h | h | h | h | h | h
      · exact absurd h h1
      · omega
      · omega
      · omega
      · omega
      · omega

/-- At the end of the `uint256` range the checked deadline sum trips: a call with valid
arguments at block time `2^256 - 1` reverts with the arithmetic panic. -/
theorem createProject_panics_at_range_end :
    (createProject { sender := 1, timestamp := 2 ^ 256 - 1 } "Title" "Description" 100 30
      (deploy 0)).1 = .error .arithmeticPanic := by
  decide

/-- C6. Input validation of `createProject`: while `projectCounter` and the block time are
far enough from the end of the `uint256` range for the checked arithmetic not to trip, the
call reverts exactly when the title is empty, or the goal is 0, or the duration is 0, or the
duration exceeds 365 days.  With a valid title and goal a duration of 365 is accepted, and
366 and 400 are rejected as invalid durations. -/
theorem createProject_validation (msg : Msg) (title description : String)
    (goal durationDays : Nat) (s : State)
    (hcounter : s.projectCounter + 1 < UINT256_BOUND)
    (htime : msg.timestamp + 365 * 86400 < UINT256_BOUND) :
    ((∃ e, (createProject msg title description goal durationDays s).1 = .error e) ↔
      (title = "" ∨ goal = 0 ∨ durationDays = 0 ∨ durationDays > 365)) ∧
    (title ≠ "" → goal ≠ 0 →
      (createProject msg title description goal 365 s).1 = .ok (s.projectCounter + 1) ∧
      (createProject msg title description goal 366 s).1 = .error .invalidDuration ∧
      (createProject msg title description goal 400 s).1 = .error .invalidDuration) := by
  refine ⟨⟨?_, ?_⟩, ?_⟩
  · rintro ⟨e, he⟩
    by_contra hcon
    have h1 : title ≠ "" := fun h => hcon (Or.inl h)
    have h2 : 0 < goal := Nat.pos_of_ne_zero (fun h => hcon (Or.inr (Or.inl h)))
    have h3 : 0 < durationDays :=
      Nat.pos_of_ne_zero (fun h => hcon (Or.inr (Or.inr (Or.inl h))))
    have h4 : durationDays ≤ 365 :=
      Nat.le_of_not_lt (fun h => hcon (Or.inr (Or.inr (Or.inr h))))
    have h6 : msg.timestamp + durationDays * 86400 < UINT256_BOUND := by omega
    rw [createProject_ok msg title description goal durationDays s h1 h2 h3 h4 hcounter h6] at he
    cases he
  · intro hbad
    rcases createProject_cases msg title description goal durationDays s with
      ⟨e, he⟩ | ⟨h1, h2, h3, h4, -⟩
    · exact ⟨e, by rw [he]⟩
    · rcases hbad with h | h | h | h
      · exact absurd h h1
      · omega
      · omega
      · omega
  · intro h1 h2
    refine ⟨?_, ?_, ?_⟩
    · rw [createProject_ok msg title description goal 365 s h1 (Nat.pos_of_ne_zero h2)
        (by decide) (by decide) hcounter htime]
    · rw [createProject_invalidDuration msg title description goal 366 s h1 h2 (by decide)]
    · rw [createProject_invalidDuration msg title description goal 400 s h1 h2 (by decide)]

/-- Witness for C6: on the freshly deployed contract at time 100 the call with title
"Title", goal 100 and 400 days reverts, and 400 exceeds 365. -/
theorem createProject_validation_witness :
    ((deploy 0).projectCounter + 1 < UINT256_BOUND ∧ 100 + 365 * 86400 < UINT256_BOUND) ∧
    ((∃ e, (createProject { sender := 1, timestamp := 100 } "Title" "Description" 100 400
        (deploy 0)).1 = .error e) ↔
      ("Title" = "" ∨ 100 = 0 ∨ 400 = 0 ∨ 400 > 365)) :=
  ⟨⟨by decide, by decide⟩,
    (createProject_validation { sender := 1, timestamp := 100 } "Title" "Description" 100 400
      (deploy 0) (by decide) (by decide)).1⟩

/-- C7. Postcondition of `createProject`: for a non-empty title, a positive goal and a
duration of 1 to 365 days, the call by `msg.sender` at time `msg.timestamp` returns the id
`projectCounter + 1` (it returns whenever the counter increment and the deadline sum stay in
the `uint256` range), and the project stored under the returned id has that id, the caller
as creator, the given title, description and goal, `isActive = true`, `totalRaised = 0`,
`contributorCount = 0` and `deadline = msg.timestamp + durationDays * 86400`. -/
theorem createProject_postcondition (msg : Msg) (title description : String)
    (goal durationDays : Nat) (s : State)
    (htitle : title ≠ "") (hgoal : 0 < goal) (hpos : 0 < durationDays)
    (hmax : durationDays ≤ 365) :
    (s.projectCounter + 1 < UINT256_BOUND →
      msg.timestamp + durationDays * 86400 < UINT256_BOUND →
      (createProject msg title description goal durationDays s).1 =
        .ok (s.projectCounter + 1)) ∧
    (∀ id, (createProject msg title description goal durationDays s).1 = .ok id →
      id = s.projectCounter + 1 ∧
      (createProject msg title description goal durationDays s).2.projectCounter = id ∧
      (createProject msg title description goal durationDays s).2.projects id =
        { id := id, creator := msg.sender, title := title,
          description := description, fundingGoal := goal,
          deadline := msg.timestamp + durationDays * 86400,
          isActive := true, totalRaised := 0, contributorCount := 0 }) := by
  constructor
  · intro hcounter htime
    rw [createProject_ok msg title description goal durationDays s htitle hgoal hpos hmax
      hcounter htime]
  · intro id hid
    rcases createProject_cases msg title description goal durationDays s with
      ⟨e, he⟩ | ⟨-, -, -, -, -, -, hk⟩
    · rw [he] at hid; cases hid
    · rw [hk] at hid ⊢
      simp only [Except.ok.injEq] at hid
      subst hid
      exact ⟨rfl, rfl, by simp [setAt_same]⟩

/-- Witness for C7: account 1 creates "Test Project" with goal 100 and 30 days at time 100
on the freshly deployed contract; the call returns id 1. -/
theorem createProject_postcondition_witness :
    ("Test Project" ≠ "" ∧ 0 < 100 ∧ 0 < 30 ∧ 30 ≤ 365) ∧
    (createProject { sender := 1, timestamp := 100 } "Test Project" "A test project" 100 30
      (deploy 0)).1 = .ok ((deploy 0).projectCounter + 1) :=
  ⟨⟨by decide, by decide, by decide, by decide⟩,
    (createProject_postcondition { sender := 1, timestamp := 100 } "Test Project"
      "A test project" 100 30 (deploy 0) (by decide) (by decide) (by decide) (by decide)).1
      (by decide) (by decide)⟩

/-! ## The funding window, terminal inactivity and atomic failure -/

theorem contribute_projectNotActive (msg : Msg) (v p : Nat) (s : State)
    (h : (s.projects p).isActive = false) :
    contribute msg v p s = (.error .projectNotActive, s) := by
  unfold contribute contributeBody
  simp [h]

theorem contribute_projectExpired (msg : Msg) (v p : Nat) (s : State)
    (h1 : (s.projects p).isActive = true) (h2 : (s.projects p).deadline ≤ msg.timestamp) :
    contribute msg v p s = (.error .projectExpired, s) := by
  have h3 : ¬ msg.timestamp < (s.projects p).deadline := by omega
  unfold contribute contributeBody
  simp [h1, h3]

/-- C8. Monotonicity and window of `totalRaised`: in every state reached from deployment and
for every next transaction, the `totalRaised` of a project does not decrease, and it changes
only when the transaction is an accepted `contribute` to that project, made while the
project is active and strictly before its deadline, which adds the attached value.  A
`contribute` on an inactive project reverts (not active), and on an active project at or
after the deadline it reverts (expired). -/
theorem totalRaised_monotone (deployer : Address) (txs : List Tx) (tx : Tx) (p : Nat) :
    ((run (deploy deployer) txs).projects p).totalRaised ≤
      ((exec tx (run (deploy deployer) txs)).2.projects p).totalRaised ∧
    (((exec tx (run (deploy deployer) txs)).2.projects p).totalRaised ≠
        ((run (deploy deployer) txs).projects p).totalRaised →
      ∃ v, tx.call = .contribute p v ∧
        (exec tx (run (deploy deployer) txs)).1 = .contributed ∧
        ((run (deploy deployer) txs).projects p).isActive = true ∧
        tx.timestamp < ((run (deploy deployer) txs).projects p).deadline ∧
        ((exec tx (run (deploy deployer) txs)).2.projects p).totalRaised =
          ((run (deploy deployer) txs).projects p).totalRaised + v) ∧
    (∀ (msg : Msg) (v : Nat), ((run (deploy deployer) txs).projects p).isActive = false →
      contribute msg v p (run (deploy deployer) txs) =
        (.error .projectNotActive, run (deploy deployer) txs)) ∧
    (∀ (msg : Msg) (v : Nat), ((run (deploy deployer) txs).projects p).isActive = true →
      ((run (deploy deployer) txs).projects p).deadline ≤ msg.timestamp →
      contribute msg v p (run (deploy deployer) txs) =
        (.error .projectExpired, run (deploy deployer) txs)) := by
  have hwf := wellFormed_run txs (deploy deployer) (wellFormed_deploy deployer)
  generalize run (deploy deployer) txs = s at hwf ⊢
  refine ⟨?_, ?_, fun msg v h => contribute_projectNotActive msg v p s h,
    fun msg v h1 h2 => contribute_projectExpired msg v p s h1 h2⟩
  · rcases exec_cases tx s with ⟨e, he⟩ | ⟨title, description, goal, d, -, -, -, -, -, -, -, he⟩ |
      ⟨q, v, -, -, -, -, -, he⟩ | ⟨q, -, -, -, -, -, -, he⟩ | ⟨v, -, he⟩
    · rw [he]
    · rw [he]
      by_cases hq : p = s.projectCounter + 1
      · subst hq
        rw [hwf.1 (s.projectCounter + 1) (Nat.lt_succ_self _)]
        simp [Project.zero]
      · simp [setAt_other _ _ _ _ hq]
    · rw [he]
      by_cases hq : p = q
      · subst hq; simp [setAt_same]
      · simp [setAt_other _ _ _ _ hq]
    · rw [he]
      by_cases hq : p = q
      · subst hq; simp [setAt_same]
      · simp [setAt_other _ _ _ _ hq]
    · rw [he]
  · intro hne
    rcases exec_cases tx s with ⟨e, he⟩ | ⟨title, description, goal, d, -, -, -, -, -, -, -, he⟩ |
      ⟨q, v, hc, hact, htime, -, -, he⟩ | ⟨q, -, -, -, -, -, -, he⟩ | ⟨v, -, he⟩
    · rw [he] at hne; exact absurd rfl hne
    · rw [he] at hne
      exfalso; apply hne
      by_cases hq : p = s.projectCounter + 1
      · subst hq
        rw [hwf.1 (s.projectCounter + 1) (Nat.lt_succ_self _)]
        simp [setAt_same, Project.zero]
      · simp [setAt_other _ _ _ _ hq]
    · by_cases hq : p = q
      · subst hq
        exact ⟨v, hc, by rw [he], hact, htime, by rw [he]; simp [setAt_same]⟩
      · rw [he] at hne
        exfalso; apply hne
        simp [setAt_other _ _ _ _ hq]
    · rw [he] at hne
      exfalso; apply hne
      by_cases hq : p = q
      · subst hq; simp [setAt_same]
      · simp [setAt_other _ _ _ _ hq]
    · rw [he] at hne; exact absurd rfl hne

/-- C9. Inactive is terminal: once a project whose id has been allocated
(`p ≤ projectCounter`) is inactive, it is inactive after every further sequence of
transactions, and then every `contribute` to it reverts with the not-active condition and
every `withdrawFunds` on it reverts. -/
theorem inactive_is_terminal (s : State) (p : Nat) (hp : p ≤ s.projectCounter)
    (hi : (s.projects p).isActive = false) (txs : List Tx) :
    ((run s txs).projects p).isActive = false ∧
    (∀ (msg : Msg) (v : Nat),
      contribute msg v p (run s txs) = (.error .projectNotActive, run s txs)) ∧
    (∀ (accepts : Address → Nat → Bool) (msg : Msg),
      ∃ e, withdrawFunds accepts msg p (run s txs) = (.error e, run s txs)) := by
  obtain ⟨h1, -⟩ := run_inactive_frozen txs s p hp hi
  have h2 : ((run s txs).projects p).isActive = false := by rw [h1]; exact hi
  refine ⟨h2, fun msg v => contribute_projectNotActive msg v p _ h2, ?_⟩
  intro accepts msg
  rcases withdrawFunds_cases accepts msg p (run s txs) with ⟨e, he⟩ | ⟨-, -, h3, -⟩
  · exact ⟨e, he⟩
  · rw [h2] at h3; cases h3

/-- Witness for C9: project 1 is inactive after the creator withdrew it, and it is still
inactive after a further contribution attempt and a further project creation. -/
theorem inactive_is_terminal_witness :
    (1 ≤ (withdrawFunds acceptAll { sender := 1, timestamp := 400 } 1
        fundedState).2.projectCounter ∧
      ((withdrawFunds acceptAll { sender := 1, timestamp := 400 } 1
        fundedState).2.projects 1).isActive = false) ∧
    ((run (withdrawFunds acceptAll { sender := 1, timestamp := 400 } 1 fundedState).2
        [{ sender := 2, timestamp := 450, accepts := acceptAll, call := .contribute 1 5 },
         { sender := 1, timestamp := 460, accepts := acceptAll,
           call := .createProject "Second" "Description" 10 1 }]).projects 1).isActive =
      false :=
  ⟨⟨by decide, by decide⟩,
    (inactive_is_terminal
      (withdrawFunds acceptAll { sender := 1, timestamp := 400 } 1 fundedState).2 1
      (by decide) (by decide)
      [{ sender := 2, timestamp := 450, accepts := acceptAll, call := .contribute 1 5 },
       { sender := 1, timestamp := 460, accepts := acceptAll,
         call := .createProject "Second" "Description" 10 1 }]).1⟩

theorem contribute_error (msg : Msg) (v p : Nat) (s : State) (e : Revert)
    (h : (contribute msg v p s).1 = .error e) : (contribute msg v p s).2 = s := by
  rcases contribute_cases msg v p s with ⟨e', he⟩ | ⟨-, -, -, -, -, hk⟩
  · rw [he]
  · rw [hk] at h; cases h

theorem withdrawFundsBody_transferFailed (accepts : Address → Nat → Bool) (msg : Msg) (p : Nat)
    (s : State) (h : (withdrawFundsBody accepts msg p s).1 = .error .transferFailed) :
    ((withdrawFundsBody accepts msg p s).2.projects p).isActive = false := by
  revert h
  unfold withdrawFundsBody checkedMul checkedSub transfer
  by_cases h1 : (s.projects p).creator = msg.sender
  · by_cases h2 : (s.projects p).totalRaised ≥ (s.projects p).fundingGoal ∨
        msg.timestamp ≥ (s.projects p).deadline
    · by_cases h3 : (s.projects p).isActive = true
      · by_cases h4 : (s.projects p).totalRaised * s.platformFee < UINT256_BOUND
        · by_cases h5 : (s.projects p).totalRaised * s.platformFee / 10000 ≤
              (s.projects p).totalRaised
          · by_cases h6 : s.balance < (s.projects p).totalRaised -
                (s.projects p).totalRaised * s.platformFee / 10000
            · simp [h1, h2, h3, h4, h5, h6, setAt_same]
            · by_cases h7 : accepts msg.sender ((s.projects p).totalRaised -
                  (s.projects p).totalRaised * s.platformFee / 10000) = true
              · by_cases h8 : s.balance - ((s.projects p).totalRaised -
                    (s.projects p).totalRaised * s.platformFee / 10000) <
                    (s.projects p).totalRaised * s.platformFee / 10000
                · simp [h1, h2, h3, h4, h5, h6, h7, h8, setAt_same]
                · by_cases h9 : accepts s.owner
                      ((s.projects p).totalRaised * s.platformFee / 10000) = true
                  · simp [h1, h2, h3, h4, h5, h6, h7, h8, h9, setAt_same]
                  · simp [h1, h2, h3, h4, h5, h6, h7, h8, h9, setAt_same]
              · simp [h1, h2, h3, h4, h5, h6, h7, setAt_same]
          · simp [h1, h2, h3, h4, h5, setAt_same]
        · simp [h1, h2, h3, h4, setAt_same]
      · simp [h1, h2, h3]
    · simp [h1, h2]
  · simp [h1]

/-- C10. Atomicity on failure: when `createProject`, `contribute` or `withdrawFunds` reverts
for whatever reason, the state after the call (counter, every project record, every
contribution balance, the contract balance) is the state before the call.  In particular,
when a transfer inside `withdrawFunds` fails, the body had already set `isActive` to false
and the call still leaves the state from before. -/
theorem failure_is_atomic (s : State) (e : Revert) :
    (∀ (msg : Msg) (title description : String) (goal durationDays : Nat),
      (createProject msg title description goal durationDays s).1 = .error e →
      (createProject msg title description goal durationDays s).2 = s) ∧
    (∀ (msg : Msg) (v p : Nat),
      (contribute msg v p s).1 = .error e → (contribute msg v p s).2 = s) ∧
    (∀ (accepts : Address → Nat → Bool) (msg : Msg) (p : Nat),
      (withdrawFunds accepts msg p s).1 = .error e → (withdrawFunds accepts msg p s).2 = s) ∧
    (∀ (accepts : Address → Nat → Bool) (msg : Msg) (p : Nat),
      (withdrawFundsBody accepts msg p s).1 = .error .transferFailed →
      ((withdrawFundsBody accepts msg p s).2.projects p).isActive = false ∧
      withdrawFunds accepts msg p s = (.error .transferFailed, s)) := by
  refine ⟨?_, ?_, ?_, ?_⟩
  · intro msg title description goal d h
    exact transact_error _ s e h
  · intro msg v p h
    exact contribute_error msg v p s e h
  · intro accepts msg p h
    exact transact_error _ s e h
  · intro accepts msg p h
    constructor
    · exact withdrawFundsBody_transferFailed accepts msg p s h
    · unfold withdrawFunds transact
      revert h
      generalize withdrawFundsBody accepts msg p s = r
      intro h
      obtain ⟨r1, r2⟩ := r
      simp only at h
      subst h
      rfl

end SimpleCryptoVault

namespace SimpleCryptoVault

/-! ## Contributions that are rejected, and the funding scenario -/

theorem run_slot_zero_inactive (deployer : Address) (txs : List Tx) :
    ((run (deploy deployer) txs).projects 0).isActive = false := by
  obtain ⟨h, -⟩ := run_inactive_frozen txs (deploy deployer) 0 (Nat.zero_le _)
    (by simp [deploy, Project.zero])
  rw [h]; simp [deploy, Project.zero]

/-- C11. What the code does for a project id that no `createProject` has returned (0, or an id
above `projectCounter`), in every state reached from deployment and for every attached
value: `contribute` reverts with the project-not-active condition, the condition an existing
inactive project gives, and leaves the state as it was.  The contract has no
project-does-not-exist condition. -/
theorem contribute_unallocated_not_active (deployer : Address) (txs : List Tx) (msg : Msg)
    (v p : Nat) (hp : p = 0 ∨ (run (deploy deployer) txs).projectCounter < p) :
    contribute msg v p (run (deploy deployer) txs) =
      (.error .projectNotActive, run (deploy deployer) txs) := by
  apply contribute_projectNotActive
  rcases hp with hp | hp
  · subst hp; exact run_slot_zero_inactive deployer txs
  · have hwf := wellFormed_run txs (deploy deployer) (wellFormed_deploy deployer)
    rw [hwf.1 p hp]; simp [Project.zero]

/-- Witness for C11: on the freshly deployed contract a contribution of 1 ether to project
999 reverts with the project-not-active condition. -/
theorem contribute_unallocated_not_active_witness :
    ((999 : Nat) = 0 ∨ (run (deploy 0) []).projectCounter < 999) ∧
    contribute { sender := 2, timestamp := 100 } 1000000000000000000 999 (run (deploy 0) []) =
      (.error .projectNotActive, run (deploy 0) []) :=
  ⟨Or.inr (by decide),
    contribute_unallocated_not_active 0 [] { sender := 2, timestamp := 100 }
      1000000000000000000 999 (Or.inr (by decide))⟩

/-- C12. Zero-value contribution: on an active project before its deadline a `contribute`
with no value attached reverts with the must-contribute-more-than-zero condition, and the
state after the call is the state before it; in particular `totalRaised`,
`contributorCount` and the contributor's balance are unchanged. -/
theorem zero_value_contribution (msg : Msg) (p : Nat) (s : State)
    (hact : (s.projects p).isActive = true)
    (htime : msg.timestamp < (s.projects p).deadline) :
    contribute msg 0 p s = (.error .mustContribute, s) ∧
    ((contribute msg 0 p s).2.projects p).totalRaised = (s.projects p).totalRaised ∧
    ((contribute msg 0 p s).2.projects p).contributorCount = (s.projects p).contributorCount ∧
    getUserContribution (contribute msg 0 p s).2 p msg.sender =
      getUserContribution s p msg.sender := by
  have h : contribute msg 0 p s = (.error .mustContribute, s) := by
    unfold contribute contributeBody
    simp [hact, htime]
  rw [h]
  exact ⟨rfl, rfl, rfl, rfl⟩

/-- Witness for C12: project 1 of `fundedState` is active with deadline 100 + 30 days, and a
contribution of 0 by account 2 at time 250 reverts with the must-contribute condition. -/
theorem zero_value_contribution_witness :
    ((fundedState.projects 1).isActive = true ∧ 250 < (fundedState.projects 1).deadline) ∧
    contribute { sender := 2, timestamp := 250 } 0 1 fundedState =
      (.error .mustContribute, fundedState) :=
  ⟨⟨by decide, by decide⟩,
    (zero_value_contribution { sender := 2, timestamp := 250 } 1 fundedState
      (by decide) (by decide)).1⟩

/-- C13. End-to-end funding scenario: on a freshly deployed ledger (fee 250 basis points) the
project is created with id 1, goal 2 ether and a deadline 30 days after creation; after the
contributions of 1 ether by account 2 and 1 ether by account 3, `totalRaised` is 2 ether, which
reaches the goal, and `contributorCount` is 2; the creator's `withdrawFunds` then succeeds,
pays 1.95 ether to the creator and 0.05 ether to the owner, and leaves the project
inactive. -/
theorem end_to_end_funding :
    (deploy 0).platformFee = 250 ∧
    outcomes (deploy 0) endToEndRun = [.created 1, .contributed, .contributed] ∧
    ((run (deploy 0) endToEndRun).projects 1).fundingGoal = 2000000000000000000 ∧
    ((run (deploy 0) endToEndRun).projects 1).deadline = 1000 + 30 * 86400 ∧
    ((run (deploy 0) endToEndRun).projects 1).totalRaised = 2000000000000000000 ∧
    ((run (deploy 0) endToEndRun).projects 1).totalRaised ≥
      ((run (deploy 0) endToEndRun).projects 1).fundingGoal ∧
    ((run (deploy 0) endToEndRun).projects 1).contributorCount = 2 ∧
    (withdrawFunds acceptAll { sender := 1, timestamp := 4000 } 1
        (run (deploy 0) endToEndRun)).1 =
      .ok [(1, 1950000000000000000), (0, 50000000000000000)] ∧
    ((withdrawFunds acceptAll { sender := 1, timestamp := 4000 } 1
        (run (deploy 0) endToEndRun)).2.projects 1).isActive = false := by
  decide

end SimpleCryptoVault

namespace CryptoVault

open SimpleCryptoVault

/-! ## The platform fee ceiling -/

theorem execVault_platformFee (vtx : VaultTx) (s : State) (h : s.platformFee ≤ 1000) :
    (execVault vtx s).platformFee ≤ 1000 := by
  cases vtx with
  | ledger tx =>
    simp only [execVault]
    rcases exec_cases tx s with ⟨e, he⟩ | ⟨title, description, goal, d, -, -, -, -, -, -, -, he⟩ |
      ⟨p, v, -, -, -, -, -, he⟩ | ⟨p, -, -, -, -, -, -, he⟩ | ⟨v, -, he⟩ <;>
    · rw [he]; exact h
  | updatePlatformFee sender n =>
    simp only [execVault, updatePlatformFee]
    by_cases h1 : sender = s.owner
    · by_cases h2 : n > 1000
      · simpa [h1, h2] using h
      · simp [h1, h2]; omega
    · simpa [h1] using h
  | emergencyPause sender p =>
    simp only [execVault, emergencyPause]
    by_cases h1 : sender = s.owner
    · simpa [h1] using h
    · simpa [h1] using h

theorem runVault_platformFee (trace : List VaultTx) : ∀ s : State, s.platformFee ≤ 1000 →
    (runVault s trace).platformFee ≤ 1000 := by
  induction trace with
  | nil => intro s h; simpa [runVault] using h
  | cons vtx rest ih => intro s h; simpa [runVault] using ih _ (execVault_platformFee vtx s h)

/-- C20. Platform fee ceiling: `updatePlatformFee(n)` called by the administrator fails with
the fee-too-high condition exactly when `n > 1000` (1000 is accepted, 1500 is rejected); on
success `platformFee` reads back `n`, on failure it is unchanged; and in every state reached
from deployment, where the fee is 250, by ledger transactions and administrative calls,
`platformFee` is at most 1000. -/
theorem platform_fee_ceiling (s : State) (n : Nat) (deployer : Address)
    (trace : List VaultTx) :
    ((updatePlatformFee s.owner n s).1 = .error .feeTooHigh ↔ n > 1000) ∧
    ((∃ e, (updatePlatformFee s.owner n s).1 = .error e) ↔ n > 1000) ∧
    ((updatePlatformFee s.owner n s).1 = .ok () →
      (updatePlatformFee s.owner n s).2.platformFee = n) ∧
    (∀ (sender : Address) (e : AdminFailure), (updatePlatformFee sender n s).1 = .error e →
      (updatePlatformFee sender n s).2 = s) ∧
    (updatePlatformFee s.owner 1000 s).1 = .ok () ∧
    (updatePlatformFee s.owner 1500 s).1 = .error .feeTooHigh ∧
    (deploy deployer).platformFee = 250 ∧
    (runVault (deploy deployer) trace).platformFee ≤ 1000 := by
  refine ⟨?_, ?_, ?_, ?_, ?_, ?_, rfl, ?_⟩
  · by_cases h : n > 1000 <;> simp [updatePlatformFee, h]
  · by_cases h : n > 1000 <;> simp [updatePlatformFee, h]
  · by_cases h : n > 1000 <;> simp [updatePlatformFee, h]
  · intro sender e
    by_cases h1 : sender = s.owner
    · by_cases h : n > 1000 <;> simp [updatePlatformFee, h, h1]
    · simp [updatePlatformFee, h1]
  · simp [updatePlatformFee]
  · simp [updatePlatformFee]
  · exact runVault_platformFee trace (deploy deployer) (by simp [deploy])

end CryptoVault

namespace ConfidentialDEX

open SimpleCryptoVault (Address setAt UINT256_BOUND setAt_same setAt_other)

/-! ## The order book: basic facts about the operations -/

theorem getPairId_comm (f : Formulas) (a b : Address) : getPairId f a b = getPairId f b a := by
  unfold getPairId
  rw [min_comm, max_comm]

theorem createTradingPair_cases (f : Formulas) (a b : Address) (fee : Nat) (s : State) :
    (∃ e, createTradingPair f a b fee s = (.error e, s)) ∨
    (a ≠ b ∧ fee < 1000 ∧ s.pairs (getPairId f a b) = none ∧
      createTradingPair f a b fee s =
        (.ok (getPairId f a b),
          { s with
            pairs := setAt s.pairs (getPairId f a b)
              (some
                { id := getPairId f a b, tokenA := a, tokenB := b, feeRate := fee,
                  isActive := true, price := f.defaultPrice, totalVolumeA := 0 }) })) := by
  unfold createTradingPair
  by_cases h1 : a = b
  · left; simp [h1]
  · cases h3 : s.pairs (getPairId f a b) with
    | some pair => left; simp [h1]
    | none =>
      by_cases h2 : fee ≥ 1000
      · left; simp [h1, h2]
      · right; exact ⟨h1, by omega, rfl, by simp [h1, h2]⟩

theorem createPrivateOrder_cases (f : Formulas) (caller tokenIn tokenOut : Address)
    (encIn encOut proofIn proofOut : List Nat) (orderType : OrderType) (s : State) :
    (∃ e, createPrivateOrder f caller tokenIn tokenOut encIn encOut proofIn proofOut orderType s =
        (.error e, s)) ∨
    (createPrivateOrder f caller tokenIn tokenOut encIn encOut proofIn proofOut orderType s =
      (.ok (s.orderCounter + 1),
        { s with
          orderCounter := s.orderCounter + 1
          orders := setAt s.orders (s.orderCounter + 1)
            (some
              { id := s.orderCounter + 1, trader := caller, tokenIn := tokenIn,
                tokenOut := tokenOut, encryptedAmountIn := encIn,
                encryptedAmountOut := encOut, orderType := orderType, isActive := true })
          userOrders :=
            setAt s.userOrders caller (s.userOrders caller ++ [s.orderCounter + 1]) })) := by
  unfold createPrivateOrder
  cases h : s.pairs (getPairId f tokenIn tokenOut) with
  | none => left; simp
  | some pair =>
    by_cases h2 : pair.isActive = true
    · right; simp [h2]
    · left; simp [h2]

theorem executeOrder_cases (orderId : Nat) (s : State) :
    (∃ e, executeOrder orderId s = (.error e, s)) ∨
    (∃ order, s.orders orderId = some order ∧ order.isActive = true ∧
      executeOrder orderId s =
        (.ok (),
          { s with orders := setAt s.orders orderId (some { order with isActive := false }) })) := by
  unfold executeOrder
  cases h : s.orders orderId with
  | none => left; simp
  | some order =>
    by_cases h2 : order.isActive = true
    · right; exact ⟨order, rfl, h2, by simp [h2]⟩
    · left; simp [h2]

theorem swapTokens_frame (f : Formulas) (pays : Address → Address → Nat → Bool)
    (caller tokenIn tokenOut : Address) (amountIn minAmountOut : Nat) (s : State) :
    (swapTokens f pays caller tokenIn tokenOut amountIn minAmountOut s).2.orders = s.orders ∧
    (swapTokens f pays caller tokenIn tokenOut amountIn minAmountOut s).2.orderCounter =
      s.orderCounter ∧
    (swapTokens f pays caller tokenIn tokenOut amountIn minAmountOut s).2.userOrders =
      s.userOrders ∧
    (∀ id, (s.pairs id).isSome = true →
      ((swapTokens f pays caller tokenIn tokenOut amountIn minAmountOut s).2.pairs id).isSome =
        true) := by
  unfold swapTokens
  cases h : s.pairs (getPairId f tokenIn tokenOut) with
  | none => simp
  | some pair =>
    simp only
    split_ifs <;> refine ⟨rfl, rfl, rfl, ?_⟩ <;> intro id hid <;> try exact hid
    all_goals
      by_cases hq : id = getPairId f tokenIn tokenOut
      · subst hq; simp [setAt_same]
      · simpa [setAt_other _ _ _ _ hq] using hid

theorem addLiquidity_frame (f : Formulas) (pays : Address → Address → Nat → Bool)
    (caller tokenA tokenB : Address) (amountA amountB : Nat) (s : State) :
    (addLiquidity f pays caller tokenA tokenB amountA amountB s).2.orders = s.orders ∧
    (addLiquidity f pays caller tokenA tokenB amountA amountB s).2.orderCounter =
      s.orderCounter ∧
    (addLiquidity f pays caller tokenA tokenB amountA amountB s).2.userOrders = s.userOrders ∧
    (addLiquidity f pays caller tokenA tokenB amountA amountB s).2.pairs = s.pairs := by
  unfold addLiquidity
  cases h : s.pairs (getPairId f tokenA tokenB) with
  | none => simp
  | some pair =>
    simp only
    split_ifs <;> exact ⟨rfl, rfl, rfl, rfl⟩

theorem removeLiquidity_frame (f : Formulas) (caller tokenA tokenB : Address) (shares : Nat)
    (s : State) :
    (removeLiquidity f caller tokenA tokenB shares s).2.orders = s.orders ∧
    (removeLiquidity f caller tokenA tokenB shares s).2.orderCounter = s.orderCounter ∧
    (removeLiquidity f caller tokenA tokenB shares s).2.userOrders = s.userOrders ∧
    (removeLiquidity f caller tokenA tokenB shares s).2.pairs = s.pairs := by
  unfold removeLiquidity
  split_ifs <;> exact ⟨rfl, rfl, rfl, rfl⟩

theorem updateDefaultFeeRate_frame (caller : Address) (feeRateBps : Nat) (s : State) :
    (updateDefaultFeeRate caller feeRateBps s).2.orders = s.orders ∧
    (updateDefaultFeeRate caller feeRateBps s).2.orderCounter = s.orderCounter ∧
    (updateDefaultFeeRate caller feeRateBps s).2.userOrders = s.userOrders ∧
    (updateDefaultFeeRate caller feeRateBps s).2.pairs = s.pairs := by
  unfold updateDefaultFeeRate
  split_ifs <;> exact ⟨rfl, rfl, rfl, rfl⟩

theorem updatePairPrice_frame (caller : Address) (pairId price : Nat) (s : State) :
    (updatePairPrice caller pairId price s).2.orders = s.orders ∧
    (updatePairPrice caller pairId price s).2.orderCounter = s.orderCounter ∧
    (updatePairPrice caller pairId price s).2.userOrders = s.userOrders ∧
    (∀ id, (s.pairs id).isSome = true →
      ((updatePairPrice caller pairId price s).2.pairs id).isSome = true) := by
  unfold updatePairPrice
  by_cases h1 : caller = s.owner
  · cases h : s.pairs pairId with
    | none => simp [h1, h]
    | some pair =>
      refine ⟨by simp [h1, h], by simp [h1, h], by simp [h1, h], ?_⟩
      intro id hid
      by_cases hq : id = pairId
      · subst hq; simp [h1, h, setAt_same]
      · simpa [h1, h, setAt_other _ _ _ _ hq] using hid
  · simp [h1]

theorem togglePairStatus_frame (caller : Address) (pairId : Nat) (s : State) :
    (togglePairStatus caller pairId s).2.orders = s.orders ∧
    (togglePairStatus caller pairId s).2.orderCounter = s.orderCounter ∧
    (togglePairStatus caller pairId s).2.userOrders = s.userOrders ∧
    (∀ id, (s.pairs id).isSome = true →
      ((togglePairStatus caller pairId s).2.pairs id).isSome = true) := by
  unfold togglePairStatus
  by_cases h1 : caller = s.owner
  · cases h : s.pairs pairId with
    | none => simp [h1, h]
    | some pair =>
      refine ⟨by simp [h1, h], by simp [h1, h], by simp [h1, h], ?_⟩
      intro id hid
      by_cases hq : id = pairId
      · subst hq; simp [h1, h, setAt_same]
      · simpa [h1, h, setAt_other _ _ _ _ hq] using hid
  · simp [h1]

end ConfidentialDEX

namespace ConfidentialDEX

open SimpleCryptoVault (Address setAt UINT256_BOUND setAt_same setAt_other)

/-! ## The order book: single steps and runs -/

theorem exec_orders (f : Formulas) (tx : Tx) (s : State) :
    ((exec f tx s).orders = s.orders ∧ (exec f tx s).orderCounter = s.orderCounter ∧
      (exec f tx s).userOrders = s.userOrders ∧ createdOrderOf f tx s = []) ∨
    (∃ tokenIn tokenOut encIn encOut orderType,
      (exec f tx s).orders = setAt s.orders (s.orderCounter + 1)
        (some
          { id := s.orderCounter + 1, trader := tx.caller, tokenIn := tokenIn,
            tokenOut := tokenOut, encryptedAmountIn := encIn, encryptedAmountOut := encOut,
            orderType := orderType, isActive := true }) ∧
      (exec f tx s).orderCounter = s.orderCounter + 1 ∧
      (exec f tx s).userOrders =
        setAt s.userOrders tx.caller (s.userOrders tx.caller ++ [s.orderCounter + 1]) ∧
      createdOrderOf f tx s = [(s.orderCounter + 1, tx.caller, tokenIn, tokenOut)]) ∨
    (∃ id order, s.orders id = some order ∧ order.isActive = true ∧
      (exec f tx s).orders = setAt s.orders id (some { order with isActive := false }) ∧
      (exec f tx s).orderCounter = s.orderCounter ∧
      (exec f tx s).userOrders = s.userOrders ∧ createdOrderOf f tx s = []) := by
  cases hc : tx.call with
  | createTradingPair a b fee =>
    left
    rcases createTradingPair_cases f a b fee s with ⟨e, he⟩ | ⟨-, -, -, he⟩ <;>
      simp [exec, createdOrderOf, hc, he]
  | createPrivateOrder tokenIn tokenOut encIn encOut proofIn proofOut orderType =>
    rcases createPrivateOrder_cases f tx.caller tokenIn tokenOut encIn encOut proofIn proofOut
      orderType s with ⟨e, he⟩ | he
    · left; simp [exec, createdOrderOf, hc, he]
    · right; left
      exact ⟨tokenIn, tokenOut, encIn, encOut, orderType, by simp [exec, hc, he],
        by simp [exec, hc, he], by simp [exec, hc, he], by simp [createdOrderOf, hc, he]⟩
  | executeOrder orderId =>
    rcases executeOrder_cases orderId s with ⟨e, he⟩ | ⟨order, h1, h2, he⟩
    · left; simp [exec, createdOrderOf, hc, he]
    · right; right
      exact ⟨orderId, order, h1, h2, by simp [exec, hc, he], by simp [exec, hc, he],
        by simp [exec, hc, he], by simp [createdOrderOf, hc]⟩
  | swapTokens tokenIn tokenOut amountIn minAmountOut =>
    left
    obtain ⟨h1, h2, h3, -⟩ :=
      swapTokens_frame f tx.pays tx.caller tokenIn tokenOut amountIn minAmountOut s
    exact ⟨by simp [exec, hc, h1], by simp [exec, hc, h2], by simp [exec, hc, h3],
      by simp [createdOrderOf, hc]⟩
  | addLiquidity tokenA tokenB amountA amountB =>
    left
    obtain ⟨h1, h2, h3, -⟩ := addLiquidity_frame f tx.pays tx.caller tokenA tokenB amountA amountB s
    exact ⟨by simp [exec, hc, h1], by simp [exec, hc, h2], by simp [exec, hc, h3],
      by simp [createdOrderOf, hc]⟩
  | removeLiquidity tokenA tokenB shares =>
    left
    obtain ⟨h1, h2, h3, -⟩ := removeLiquidity_frame f tx.caller tokenA tokenB shares s
    exact ⟨by simp [exec, hc, h1], by simp [exec, hc, h2], by simp [exec, hc, h3],
      by simp [createdOrderOf, hc]⟩
  | updateDefaultFeeRate feeRateBps =>
    left
    obtain ⟨h1, h2, h3, -⟩ := updateDefaultFeeRate_frame tx.caller feeRateBps s
    exact ⟨by simp [exec, hc, h1], by simp [exec, hc, h2], by simp [exec, hc, h3],
      by simp [createdOrderOf, hc]⟩
  | updatePairPrice pairId price =>
    left
    obtain ⟨h1, h2, h3, -⟩ := updatePairPrice_frame tx.caller pairId price s
    exact ⟨by simp [exec, hc, h1], by simp [exec, hc, h2], by simp [exec, hc, h3],
      by simp [createdOrderOf, hc]⟩
  | togglePairStatus pairId =>
    left
    obtain ⟨h1, h2, h3, -⟩ := togglePairStatus_frame tx.caller pairId s
    exact ⟨by simp [exec, hc, h1], by simp [exec, hc, h2], by simp [exec, hc, h3],
      by simp [createdOrderOf, hc]⟩
  | fund token amount =>
    left
    exact ⟨by simp [exec, hc], by simp [exec, hc], by simp [exec, hc],
      by simp [createdOrderOf, hc]⟩

theorem exec_pairs_isSome (f : Formulas) (tx : Tx) (s : State) (id : Nat)
    (h : (s.pairs id).isSome = true) : ((exec f tx s).pairs id).isSome = true := by
  cases hc : tx.call with
  | createTradingPair a b fee =>
    rcases createTradingPair_cases f a b fee s with ⟨e, he⟩ | ⟨-, -, hnone, he⟩
    · simpa [exec, hc, he] using h
    · simp only [exec, hc, he]
      by_cases hq : id = getPairId f a b
      · subst hq; simp [setAt_same]
      · simpa [setAt_other _ _ _ _ hq] using h
  | createPrivateOrder tokenIn tokenOut encIn encOut proofIn proofOut orderType =>
    rcases createPrivateOrder_cases f tx.caller tokenIn tokenOut encIn encOut proofIn proofOut
      orderType s with ⟨e, he⟩ | he <;> simpa [exec, hc, he] using h
  | executeOrder orderId =>
    rcases executeOrder_cases orderId s with ⟨e, he⟩ | ⟨order, -, -, he⟩ <;>
      simpa [exec, hc, he] using h
  | swapTokens tokenIn tokenOut amountIn minAmountOut =>
    simpa [exec, hc] using
      (swapTokens_frame f tx.pays tx.caller tokenIn tokenOut amountIn minAmountOut s).2.2.2 id h
  | addLiquidity tokenA tokenB amountA amountB =>
    simp only [exec, hc]
    rw [(addLiquidity_frame f tx.pays tx.caller tokenA tokenB amountA amountB s).2.2.2]
    exact h
  | removeLiquidity tokenA tokenB shares =>
    simp only [exec, hc]
    rw [(removeLiquidity_frame f tx.caller tokenA tokenB shares s).2.2.2]
    exact h
  | updateDefaultFeeRate feeRateBps =>
    simp only [exec, hc]
    rw [(updateDefaultFeeRate_frame tx.caller feeRateBps s).2.2.2]
    exact h
  | updatePairPrice pairId price =>
    simpa [exec, hc] using (updatePairPrice_frame tx.caller pairId price s).2.2.2 id h
  | togglePairStatus pairId =>
    simpa [exec, hc] using (togglePairStatus_frame tx.caller pairId s).2.2.2 id h
  | fund token amount =>
    simpa [exec, hc] using h

theorem run_pairs_isSome (f : Formulas) (txs : List Tx) : ∀ (s : State) (id : Nat),
    (s.pairs id).isSome = true → ((run f s txs).pairs id).isSome = true := by
  induction txs with
  | nil => intro s id h; exact h
  | cons tx txs ih => intro s id h; exact ih _ id (exec_pairs_isSome f tx s id h)

theorem allocated_exec (f : Formulas) (tx : Tx) (s : State) (h : Allocated s) :
    Allocated (exec f tx s) := by
  intro id hid
  rcases exec_orders f tx s with ⟨h1, h2, -, -⟩ | ⟨_, _, _, _, _, h1, h2, -, -⟩ |
    ⟨i, order, hi, -, h1, h2, -, -⟩
  · rw [h1]; rw [h2] at hid; exact h id hid
  · rw [h2] at hid
    rw [h1, setAt_other _ _ _ _ (by omega)]
    exact h id (by omega)
  · rw [h2] at hid
    have hne : id ≠ i := by
      rintro rfl
      rw [h id hid] at hi; cases hi
    rw [h1, setAt_other _ _ _ _ hne]
    exact h id hid

theorem allocated_run (f : Formulas) (txs : List Tx) : ∀ s : State, Allocated s →
    Allocated (run f s txs) := by
  induction txs with
  | nil => intro s h; exact h
  | cons tx txs ih => intro s h; exact ih _ (allocated_exec f tx s h)

theorem allocated_deploy (deployer : Address) : Allocated (deploy deployer) := by
  intro id _; rfl

theorem exec_inactive_order (f : Formulas) (tx : Tx) (s : State) (id : Nat) (order : Order)
    (hall : Allocated s) (h : s.orders id = some order) (hi : order.isActive = false) :
    (exec f tx s).orders id = some order := by
  rcases exec_orders f tx s with ⟨h1, -, -, -⟩ | ⟨_, _, _, _, _, h1, -, -, -⟩ |
    ⟨i, o, ho, hact, h1, -, -, -⟩
  · rw [h1]; exact h
  · have hne : id ≠ s.orderCounter + 1 := by
      rintro rfl
      rw [hall _ (Nat.lt_succ_self _)] at h; cases h
    rw [h1, setAt_other _ _ _ _ hne]; exact h
  · have hne : id ≠ i := by
      rintro rfl
      rw [h] at ho
      cases ho
      rw [hi] at hact; cases hact
    rw [h1, setAt_other _ _ _ _ hne]; exact h

theorem run_inactive_order (f : Formulas) (txs : List Tx) : ∀ (s : State) (id : Nat)
    (order : Order), Allocated s → s.orders id = some order → order.isActive = false →
    (run f s txs).orders id = some order := by
  induction txs with
  | nil => intro s id order _ h _; exact h
  | cons tx txs ih =>
    intro s id order hall h hi
    exact ih _ id order (allocated_exec f tx s hall) (exec_inactive_order f tx s id order hall h hi)
      hi

end ConfidentialDEX

namespace ConfidentialDEX

open SimpleCryptoVault (Address setAt UINT256_BOUND setAt_same setAt_other)

/-! ## The order book: pair ids, pair creation, orders -/

/-- C14. Pair id symmetry: `getPairId(A, B) = getPairId(B, A)` for all asset identifiers, and
the id is a value below `2^256`; as a function of its arguments it gives the same id for the
same unordered pair. -/
theorem pairId_symmetric (f : Formulas) (a b : Address) :
    getPairId f a b = getPairId f b a ∧ getPairId f a b < 2 ^ 256 := by
  refine ⟨getPairId_comm f a b, ?_⟩
  unfold getPairId UINT256_BOUND
  exact Nat.mod_lt _ (by decide)

theorem createTradingPair_exists (f : Formulas) (a b : Address) (fee : Nat) (s : State)
    (h : (s.pairs (getPairId f a b)).isSome = true) (hne : a ≠ b) :
    createTradingPair f a b fee s = (.error .alreadyExists, s) := by
  unfold createTradingPair
  cases hp : s.pairs (getPairId f a b) with
  | none => rw [hp] at h; cases h
  | some pair => simp [hne]

/-- C15. `createTradingPair(A, B, fee)` fails with the same-token condition when `A = B`; it
fails for every `fee >= 1000`, with fee-too-high when the tokens differ and the pair has no
record (1500 is rejected on a fresh order book, 50 is accepted); with two different tokens, a
fee below 1000 and no record for the pair it succeeds.  After a pair for `{A, B}` was
created, and after any further transactions, a creation for `(A, B)` and a creation for
`(B, A)` fail with already-exists, whatever the fee.  Every failure leaves the state, and so
every pair record, unchanged. -/
theorem createTradingPair_rejections (f : Formulas) (s : State) (a b : Address) (fee : Nat) :
    (a = b → createTradingPair f a b fee s = (.error .sameToken, s)) ∧
    (fee ≥ 1000 → ∃ e, createTradingPair f a b fee s = (.error e, s)) ∧
    (a ≠ b → fee ≥ 1000 → s.pairs (getPairId f a b) = none →
      createTradingPair f a b fee s = (.error .feeTooHigh, s)) ∧
    createTradingPair f 101 102 1500 (deploy 0) = (.error .feeTooHigh, deploy 0) ∧
    (createTradingPair f 101 102 50 (deploy 0)).1 = .ok (getPairId f 101 102) ∧
    (a ≠ b → fee < 1000 → s.pairs (getPairId f a b) = none →
      (createTradingPair f a b fee s).1 = .ok (getPairId f a b)) ∧
    (∀ e, (createTradingPair f a b fee s).1 = .error e →
      (createTradingPair f a b fee s).2 = s) ∧
    (∀ (fee1 id : Nat) (txs : List Tx), (createTradingPair f a b fee1 s).1 = .ok id →
      createTradingPair f a b fee (run f (createTradingPair f a b fee1 s).2 txs) =
        (.error .alreadyExists, run f (createTradingPair f a b fee1 s).2 txs) ∧
      createTradingPair f b a fee (run f (createTradingPair f a b fee1 s).2 txs) =
        (.error .alreadyExists, run f (createTradingPair f a b fee1 s).2 txs)) := by
  refine ⟨?_, ?_, ?_, ?_, ?_, ?_, ?_, ?_⟩
  · intro h; simp [createTradingPair, h]
  · intro h
    rcases createTradingPair_cases f a b fee s with ⟨e, he⟩ | ⟨-, h2, -⟩
    · exact ⟨e, he⟩
    · omega
  · intro h1 h2 h3; simp [createTradingPair, h1, h2, h3]
  · simp [createTradingPair, deploy]
  · simp [createTradingPair, deploy]
  · intro h1 h2 h3
    have h4 : ¬ fee ≥ 1000 := by omega
    simp [createTradingPair, h1, h4, h3]
  · intro e he
    rcases createTradingPair_cases f a b fee s with ⟨e', he'⟩ | ⟨-, -, -, hk⟩
    · rw [he']
    · rw [hk] at he; cases he
  · intro fee1 id txs hok
    rcases createTradingPair_cases f a b fee1 s with ⟨e', he'⟩ | ⟨hne, -, -, hk⟩
    · rw [he'] at hok; cases hok
    · have hsome : ((createTradingPair f a b fee1 s).2.pairs (getPairId f a b)).isSome = true := by
        rw [hk]; simp [setAt_same]
      have hrun := run_pairs_isSome f txs _ _ hsome
      have hrun' : ((run f (createTradingPair f a b fee1 s).2 txs).pairs
          (getPairId f b a)).isSome = true := by
        rw [getPairId_comm f b a]; exact hrun
      exact ⟨createTradingPair_exists f a b fee _ hrun hne,
        createTradingPair_exists f b a fee _ hrun' (fun h => hne h.symm)⟩

/-- C16. Order execution is terminal: a successful `createPrivateOrder` stores the order with
`isActive = true`; a successful `executeOrder(id)` leaves it with `isActive = false`;
`executeOrder` on an order that is not active fails (already executed) and changes nothing;
and in every state reached from deployment an order that is not active is stored unchanged,
still not active, after every further sequence of transactions. -/
theorem order_execution_terminal (f : Formulas) (deployer : Address) (txs0 : List Tx)
    (s : State) :
    (∀ (caller tokenIn tokenOut : Address) (encIn encOut proofIn proofOut : List Nat)
        (orderType : OrderType) (id : Nat),
      (createPrivateOrder f caller tokenIn tokenOut encIn encOut proofIn proofOut orderType
        s).1 = .ok id →
      ∃ order,
        (createPrivateOrder f caller tokenIn tokenOut encIn encOut proofIn proofOut orderType
          s).2.orders id = some order ∧ order.isActive = true) ∧
    (∀ id, (executeOrder id s).1 = .ok () →
      ∃ order, (executeOrder id s).2.orders id = some order ∧ order.isActive = false) ∧
    (∀ id order, s.orders id = some order → order.isActive = false →
      executeOrder id s = (.error .alreadyExecuted, s)) ∧
    (∀ (id : Nat) (order : Order) (txs : List Tx),
      (run f (deploy deployer) txs0).orders id = some order → order.isActive = false →
      (run f (run f (deploy deployer) txs0) txs).orders id = some order ∧
      executeOrder id (run f (run f (deploy deployer) txs0) txs) =
        (.error .alreadyExecuted, run f (run f (deploy deployer) txs0) txs)) := by
  refine ⟨?_, ?_, ?_, ?_⟩
  · intro caller tokenIn tokenOut encIn encOut proofIn proofOut orderType id hok
    rcases createPrivateOrder_cases f caller tokenIn tokenOut encIn encOut proofIn proofOut
      orderType s with ⟨e, he⟩ | he
    · rw [he] at hok; cases hok
    · rw [he] at hok ⊢
      simp only [Except.ok.injEq] at hok
      subst hok
      exact ⟨_, setAt_same _ _ _, rfl⟩
  · intro id hok
    rcases executeOrder_cases id s with ⟨e, he⟩ | ⟨order, -, -, he⟩
    · rw [he] at hok; cases hok
    · rw [he]
      exact ⟨_, setAt_same _ _ _, rfl⟩
  · intro id order h hi
    simp [executeOrder, h, hi]
  · intro id order txs h hi
    have hall := allocated_run f txs0 (deploy deployer) (allocated_deploy deployer)
    have h2 := run_inactive_order f txs _ id order hall h hi
    exact ⟨h2, by simp [executeOrder, h2, hi]⟩

end ConfidentialDEX

namespace ConfidentialDEX

open SimpleCryptoVault (Address setAt UINT256_BOUND setAt_same setAt_other)

/-! ## The order book: order ids and the per-trader index -/

theorem indexed_deploy (deployer : Address) : Indexed (deploy deployer) [] := by
  refine ⟨fun _ _ => rfl, by simp [deploy], fun _ => by simp [deploy], ?_⟩
  intro e he; cases he

theorem indexed_exec (f : Formulas) (tx : Tx) (s : State)
    (log : List (Nat × Address × Address × Address)) (h : Indexed s log) :
    Indexed (exec f tx s) (log ++ createdOrderOf f tx s) := by
  obtain ⟨hA, hB, hC, hD⟩ := h
  have hle : ∀ e ∈ log, e.1 ≤ s.orderCounter := by
    intro e he
    have : e.1 ∈ log.map (fun e => e.1) := List.mem_map_of_mem _ he
    rw [hB, List.mem_range'_1] at this
    omega
  rcases exec_orders f tx s with ⟨h1, h2, h3, h4⟩ |
    ⟨tokenIn, tokenOut, encIn, encOut, orderType, h1, h2, h3, h4⟩ |
    ⟨i, order, hi, -, h1, h2, h3, h4⟩
  · rw [h4, List.append_nil]
    refine ⟨?_, ?_, ?_, ?_⟩
    · rw [h1, h2]; exact hA
    · rw [h2]; exact hB
    · rw [h3]; exact hC
    · rw [h1]; exact hD
  · rw [h4]
    refine ⟨?_, ?_, ?_, ?_⟩
    · intro id hid
      rw [h2] at hid
      rw [h1, setAt_other _ _ _ _ (by omega)]
      exact hA id (by omega)
    · rw [h2, List.map_append, hB, List.range'_1_concat]
      simp [Nat.add_comm]
    · intro trader
      rw [h3]
      by_cases ht : trader = tx.caller
      · rw [ht, setAt_same, hC tx.caller]
        simp [List.filter_append, List.filter]
      · rw [setAt_other _ _ _ _ ht, hC trader]
        have ht' : ¬ tx.caller = trader := fun hcon => ht hcon.symm
        simp [List.filter_append, List.filter, ht']
    · intro e he
      rcases List.mem_append.1 he with he | he
      · have hne : e.1 ≠ s.orderCounter + 1 := by have := hle e he; omega
        rw [h1, setAt_other _ _ _ _ hne]
        exact hD e he
      · simp only [List.mem_singleton] at he
        subst he
        rw [h1]
        exact ⟨_, setAt_same _ _ _, rfl, rfl, rfl, rfl⟩
  · rw [h4, List.append_nil]
    refine ⟨?_, ?_, ?_, ?_⟩
    · intro id hid
      rw [h2] at hid
      have hne : id ≠ i := by
        rintro rfl
        rw [hA id hid] at hi; cases hi
      rw [h1, setAt_other _ _ _ _ hne]
      exact hA id hid
    · rw [h2]; exact hB
    · rw [h3]; exact hC
    · intro e he
      obtain ⟨o, ho, ho1, ho2, ho3, ho4⟩ := hD e he
      by_cases hq : e.1 = i
      · rw [hq] at ho
        rw [hi] at ho
        simp only [Option.some.injEq] at ho
        subst ho
        rw [h1, hq]
        exact ⟨_, setAt_same _ _ _, by rw [← hq]; exact ho1, ho2, ho3, ho4⟩
      · rw [h1, setAt_other _ _ _ _ hq]
        exact ⟨o, ho, ho1, ho2, ho3, ho4⟩

theorem indexed_run (f : Formulas) (txs : List Tx) : ∀ (s : State)
    (log : List (Nat × Address × Address × Address)), Indexed s log →
    Indexed (run f s txs) (log ++ createdOrders f s txs) := by
  induction txs with
  | nil => intro s log h; simpa [run, createdOrders] using h
  | cons tx txs ih =>
    intro s log h
    have := ih (exec f tx s) (log ++ createdOrderOf f tx s) (indexed_exec f tx s log h)
    simpa [run, createdOrders, List.append_assoc] using this

/-- C17. Order ids and the per-trader index: over every run from deployment the successful
`createPrivateOrder` calls get the ids 1, 2, ..., k in order and `orderCounter` is k; the
order stored under each of these ids records that id, the caller as trader and the given
input and output assets; and `getUserOrders(trader)` is the list of the ids of the orders
that trader created, in creation order.  In the scenario of the tests the two orders of
trader 1 give `[1, 2]`. -/
theorem order_ids_and_index (f : Formulas) (deployer : Address) (txs : List Tx) :
    (createdOrders f (deploy deployer) txs).map (fun e => e.1) =
      List.range' 1 (createdOrders f (deploy deployer) txs).length ∧
    (run f (deploy deployer) txs).orderCounter = (createdOrders f (deploy deployer) txs).length ∧
    (∀ e ∈ createdOrders f (deploy deployer) txs,
      ∃ order, (run f (deploy deployer) txs).orders e.1 = some order ∧ order.id = e.1 ∧
        order.trader = e.2.1 ∧ order.tokenIn = e.2.2.1 ∧ order.tokenOut = e.2.2.2) ∧
    (∀ trader, getUserOrders (run f (deploy deployer) txs) trader =
      ((createdOrders f (deploy deployer) txs).filter (fun e => e.2.1 = trader)).map
        (fun e => e.1)) ∧
    createdOrders scenarioFormulas (deploy 0) orderSetup = [(1, 1, 101, 102), (2, 1, 102, 101)] ∧
    getUserOrders (run scenarioFormulas (deploy 0) orderSetup) 1 = [1, 2] := by
  have h := indexed_run f txs (deploy deployer) [] (indexed_deploy deployer)
  rw [List.nil_append] at h
  obtain ⟨-, hB, hC, hD⟩ := h
  have hlen : (run f (deploy deployer) txs).orderCounter =
      (createdOrders f (deploy deployer) txs).length := by
    have := congrArg List.length hB
    simpa using this.symm
  refine ⟨?_, hlen, hD, hC, by decide, by decide⟩
  rw [hB, hlen]

/-! ## The order book: liquidity shares and the slippage guard -/

theorem removeLiquidity_ok (f : Formulas) (caller a b : Address) (n : Nat) (s : State)
    (h1 : n ≤ s.shares caller (getPairId f a b))
    (h2 : (f.redeemed s (getPairId f a b) n).1 ≤ s.custody a)
    (h3 : (f.redeemed s (getPairId f a b) n).2 ≤
      setAt s.custody a (s.custody a - (f.redeemed s (getPairId f a b) n).1) b) :
    (removeLiquidity f caller a b n s).1 = .ok (f.redeemed s (getPairId f a b) n) ∧
    (removeLiquidity f caller a b n s).2.shares caller (getPairId f a b) =
      s.shares caller (getPairId f a b) - n := by
  have a1 : ¬ s.shares caller (getPairId f a b) < n := by omega
  have a2 : ¬ s.custody a < (f.redeemed s (getPairId f a b) n).1 := by omega
  have a3 : ¬ setAt s.custody a (s.custody a - (f.redeemed s (getPairId f a b) n).1) b <
      (f.redeemed s (getPairId f a b) n).2 := by omega
  unfold removeLiquidity
  simp [a1, a2, a3, setAt_same]

theorem removeLiquidity_cases (f : Formulas) (caller a b : Address) (n : Nat) (s : State) :
    (∃ e, removeLiquidity f caller a b n s = (.error e, s)) ∨
    (n ≤ s.shares caller (getPairId f a b) ∧
      (removeLiquidity f caller a b n s).1 = .ok (f.redeemed s (getPairId f a b) n) ∧
      (removeLiquidity f caller a b n s).2.shares caller (getPairId f a b) =
        s.shares caller (getPairId f a b) - n) := by
  by_cases h1 : s.shares caller (getPairId f a b) < n
  · left; exact ⟨.insufficientShares, by simp [removeLiquidity, h1]⟩
  · by_cases h2 : s.custody a < (f.redeemed s (getPairId f a b) n).1
    · left; exact ⟨.insufficientLiquidity, by simp [removeLiquidity, h1, h2]⟩
    · by_cases h3 : setAt s.custody a (s.custody a - (f.redeemed s (getPairId f a b) n).1) b <
          (f.redeemed s (getPairId f a b) n).2
      · left; exact ⟨.insufficientLiquidity, by simp [removeLiquidity, h1, h2, h3]⟩
      · right
        obtain ⟨h4, h5⟩ := removeLiquidity_ok f caller a b n s (by omega) (by omega) (by omega)
        exact ⟨by omega, h4, h5⟩

/-- C18. Share accounting of `removeLiquidity`: the call fails with insufficient-shares, and
changes nothing, when `n` exceeds the caller's share balance for the pair; it succeeds when
the balance covers `n` and custody holds the redeemed amounts; when it succeeds the caller's
balance has gone down by exactly `n`; a following removal of the remaining `balance - n` never
fails for insufficient shares, and when it succeeds the caller's balance is exactly 0. -/
theorem removeLiquidity_share_accounting (f : Formulas) (caller a b : Address) (n : Nat)
    (s : State) :
    (s.shares caller (getPairId f a b) < n →
      removeLiquidity f caller a b n s = (.error .insufficientShares, s)) ∧
    (n ≤ s.shares caller (getPairId f a b) →
      (f.redeemed s (getPairId f a b) n).1 ≤ s.custody a →
      (f.redeemed s (getPairId f a b) n).2 ≤
        setAt s.custody a (s.custody a - (f.redeemed s (getPairId f a b) n).1) b →
      (removeLiquidity f caller a b n s).1 = .ok (f.redeemed s (getPairId f a b) n)) ∧
    (∀ out, (removeLiquidity f caller a b n s).1 = .ok out →
      getUserLiquidityShares (removeLiquidity f caller a b n s).2 caller (getPairId f a b) + n =
        getUserLiquidityShares s caller (getPairId f a b) ∧
      (removeLiquidity f caller a b (s.shares caller (getPairId f a b) - n)
        (removeLiquidity f caller a b n s).2).1 ≠ .error .insufficientShares ∧
      (∀ out2,
        (removeLiquidity f caller a b (s.shares caller (getPairId f a b) - n)
          (removeLiquidity f caller a b n s).2).1 = .ok out2 →
        getUserLiquidityShares
          (removeLiquidity f caller a b (s.shares caller (getPairId f a b) - n)
            (removeLiquidity f caller a b n s).2).2 caller (getPairId f a b) = 0)) := by
  refine ⟨?_, ?_, ?_⟩
  · intro h; simp [removeLiquidity, h]
  · intro h1 h2 h3
    exact (removeLiquidity_ok f caller a b n s h1 h2 h3).1
  · intro out hok
    rcases removeLiquidity_cases f caller a b n s with ⟨e, he⟩ | ⟨h1, -, h3⟩
    · rw [he] at hok; cases hok
    · refine ⟨?_, ?_, ?_⟩
      · simp only [getUserLiquidityShares]; rw [h3]; omega
      · intro hcon
        have hlt : ¬ (removeLiquidity f caller a b n s).2.shares caller (getPairId f a b) <
            s.shares caller (getPairId f a b) - n := by rw [h3]; omega
        revert hcon
        generalize (removeLiquidity f caller a b n s).2 = s1 at hlt ⊢
        unfold removeLiquidity
        simp only [hlt, if_false]
        split_ifs <;> simp
      · intro out2 hok2
        rcases removeLiquidity_cases f caller a b (s.shares caller (getPairId f a b) - n)
          (removeLiquidity f caller a b n s).2 with ⟨e, he⟩ | ⟨-, -, h6⟩
        · rw [he] at hok2; cases hok2
        · simp only [getUserLiquidityShares]; rw [h6, h3]; omega

end ConfidentialDEX

namespace ConfidentialDEX

open SimpleCryptoVault (Address setAt UINT256_BOUND setAt_same setAt_other)

theorem swapTokens_error (f : Formulas) (pays : Address → Address → Nat → Bool)
    (caller tokenIn tokenOut : Address) (amountIn minAmountOut : Nat) (s : State) (e : Failure)
    (h : (swapTokens f pays caller tokenIn tokenOut amountIn minAmountOut s).1 = .error e) :
    (swapTokens f pays caller tokenIn tokenOut amountIn minAmountOut s).2 = s := by
  revert h
  unfold swapTokens
  cases hp : s.pairs (getPairId f tokenIn tokenOut) with
  | none => simp
  | some pair =>
    simp only
    split_ifs <;> simp

/-- C19. Swap slippage guard: on an active pair `swapTokens` fails with the
insufficient-output condition, and leaves the state as it was, whenever the output amount
computed from the pair (its price and fee rate) and the input is below `minAmountOut`; when
the output reaches `minAmountOut` the call does not fail with that condition; and every
failure of `swapTokens` leaves the state as it was.  In the scenario of the tests (price 2e18,
fee 50 basis points, input 1e18, integer fixed-point output 1.99e18) the swap with
`minAmountOut = 1.8e18` succeeds and adds 1e18 to `totalVolumeA`, and the swap with
`minAmountOut = 10e18` is rejected with the insufficient-output condition. -/
theorem swap_slippage_guard (f : Formulas) (pays : Address → Address → Nat → Bool)
    (caller tokenIn tokenOut : Address) (amountIn minAmountOut : Nat) (s : State)
    (pair : TradingPair) (hpair : s.pairs (getPairId f tokenIn tokenOut) = some pair)
    (hact : pair.isActive = true) :
    (f.amountOut pair tokenIn amountIn < minAmountOut →
      swapTokens f pays caller tokenIn tokenOut amountIn minAmountOut s =
        (.error .slippageExceeded, s)) ∧
    (minAmountOut ≤ f.amountOut pair tokenIn amountIn →
      (swapTokens f pays caller tokenIn tokenOut amountIn minAmountOut s).1 ≠
        .error .slippageExceeded) ∧
    (∀ e, (swapTokens f pays caller tokenIn tokenOut amountIn minAmountOut s).1 = .error e →
      (swapTokens f pays caller tokenIn tokenOut amountIn minAmountOut s).2 = s) ∧
    (swapTokens scenarioFormulas paysAll 1 101 102 1000000000000000000 1800000000000000000
        (run scenarioFormulas (deploy 0) swapSetup)).1 = .ok 1990000000000000000 ∧
    ((swapTokens scenarioFormulas paysAll 1 101 102 1000000000000000000 1800000000000000000
        (run scenarioFormulas (deploy 0) swapSetup)).2.pairs
          (getPairId scenarioFormulas 101 102)).map (fun p => p.totalVolumeA) =
      some 1000000000000000000 ∧
    (swapTokens scenarioFormulas paysAll 1 101 102 1000000000000000000 10000000000000000000
        (run scenarioFormulas (deploy 0) swapSetup)).1 = .error .slippageExceeded := by
  refine ⟨?_, ?_, ?_, by decide, by decide, by decide⟩
  · intro h
    unfold swapTokens
    simp [hpair, hact, h]
  · intro h
    have h' : ¬ f.amountOut pair tokenIn amountIn < minAmountOut := by omega
    unfold swapTokens
    simp only [hpair, hact, h', not_true_eq_false, if_false]
    split_ifs <;> simp
  · intro e he
    exact swapTokens_error f pays caller tokenIn tokenOut amountIn minAmountOut s e he

/-- Witness for C19: in the swap scenario the pair of assets 101 and 102 is stored and
active with price 2e18 and fee 50, the fixed-point output for 1e18 is below 10e18, and the
swap asking for at least 10e18 fails with the insufficient-output condition and changes
nothing. -/
theorem swap_slippage_guard_witness :
    ((run scenarioFormulas (deploy 0) swapSetup).pairs (getPairId scenarioFormulas 101 102) =
        some
          { id := getPairId scenarioFormulas 101 102, tokenA := 101, tokenB := 102,
            feeRate := 50, isActive := true, price := 2000000000000000000,
            totalVolumeA := 0 } ∧
      scenarioFormulas.amountOut
          { id := getPairId scenarioFormulas 101 102, tokenA := 101, tokenB := 102,
            feeRate := 50, isActive := true, price := 2000000000000000000,
            totalVolumeA := 0 } 101 1000000000000000000 < 10000000000000000000) ∧
    swapTokens scenarioFormulas paysAll 1 101 102 1000000000000000000 10000000000000000000
        (run scenarioFormulas (deploy 0) swapSetup) =
      (.error .slippageExceeded, run scenarioFormulas (deploy 0) swapSetup) :=
  ⟨⟨by decide, by decide⟩,
    (swap_slippage_guard scenarioFormulas paysAll 1 101 102 1000000000000000000
      10000000000000000000 (run scenarioFormulas (deploy 0) swapSetup)
      { id := getPairId scenarioFormulas 101 102, tokenA := 101, tokenB := 102,
        feeRate := 50, isActive := true, price := 2000000000000000000, totalVolumeA := 0 }
      (by decide) (by decide)).1 (by decide)⟩

end ConfidentialDEX

namespace ConfidentialDEX

open SimpleCryptoVault (Address setAt UINT256_BOUND setAt_same setAt_other)

/-- C21. Default fee ceiling of the order book: `updateDefaultFeeRate(r)` by the
administrator fails with fee-too-high and leaves the state, so `defaultFeeRate`, unchanged for
every `r >= 1000` (1500 is rejected); for every `r < 1000` it succeeds and `defaultFeeRate`
then reads `r` (100 after `updateDefaultFeeRate(100)`); after deployment the rate is 30. -/
theorem default_fee_rate_ceiling (s : State) (r : Nat) (deployer : Address) :
    (r ≥ 1000 → updateDefaultFeeRate s.owner r s = (.error .feeTooHigh, s)) ∧
    (r < 1000 → (updateDefaultFeeRate s.owner r s).1 = .ok () ∧
      (updateDefaultFeeRate s.owner r s).2.defaultFeeRate = r) ∧
    updateDefaultFeeRate s.owner 1500 s = (.error .feeTooHigh, s) ∧
    (updateDefaultFeeRate s.owner 100 s).1 = .ok () ∧
    (updateDefaultFeeRate s.owner 100 s).2.defaultFeeRate = 100 ∧
    (deploy deployer).defaultFeeRate = 30 ∧
    (updateDefaultFeeRate deployer 100 (deploy deployer)).2.defaultFeeRate = 100 := by
  refine ⟨?_, ?_, ?_, ?_, ?_, rfl, ?_⟩
  · intro h; simp [updateDefaultFeeRate, h]
  · intro h
    have h' : ¬ r ≥ 1000 := by omega
    simp [updateDefaultFeeRate, h']
  · simp [updateDefaultFeeRate]
  · simp [updateDefaultFeeRate]
  · simp [updateDefaultFeeRate]
  · simp [updateDefaultFeeRate, deploy]

end ConfidentialDEX

namespace CryptoVault

open SimpleCryptoVault

/-! ## Emergency pause and the view of the active projects -/

theorem execVault_inactive_frozen (vtx : VaultTx) (s : State) (p : Nat)
    (hp : p ≤ s.projectCounter) (hi : (s.projects p).isActive = false) :
    (execVault vtx s).projects p = s.projects p ∧ p ≤ (execVault vtx s).projectCounter := by
  cases vtx with
  | ledger tx => exact exec_inactive_frozen tx s p hp hi
  | updatePlatformFee sender n =>
    simp only [execVault, updatePlatformFee]
    split_ifs <;> exact ⟨rfl, hp⟩
  | emergencyPause sender q =>
    simp only [execVault, emergencyPause]
    by_cases h1 : sender = s.owner
    · simp only [h1, not_true_eq_false, if_false]
      refine ⟨?_, hp⟩
      by_cases hq : p = q
      · subst hq
        simp only [setAt_same]
        rw [← hi]
      · simp only [setAt_other _ _ _ _ hq]
    · rw [if_pos h1]
      exact ⟨rfl, hp⟩

theorem runVault_inactive_frozen (trace : List VaultTx) : ∀ (s : State) (p : Nat),
    p ≤ s.projectCounter → (s.projects p).isActive = false →
    (runVault s trace).projects p = s.projects p ∧ p ≤ (runVault s trace).projectCounter := by
  induction trace with
  | nil => intro s p hp _; exact ⟨rfl, hp⟩
  | cons vtx rest ih =>
    intro s p hp hi
    obtain ⟨h1, h2⟩ := execVault_inactive_frozen vtx s p hp hi
    obtain ⟨h3, h4⟩ := ih (execVault vtx s) p h2 (by rw [h1]; exact hi)
    exact ⟨by simp only [runVault]; rw [h3, h1], by simpa only [runVault] using h4⟩

/-- C22. For every project with an allocated id, whatever its `totalRaised`, `fundingGoal` and
deadline, `emergencyPause(p)` called by the administrator succeeds, leaves the project with
`isActive = false` and every other field as it was, and changes nothing else in the state;
after every further sequence of ledger transactions and administrative calls the project is
still stored unchanged and inactive. -/
theorem emergencyPause_terminal (s : State) (p : Nat) (hp : p ≤ s.projectCounter)
    (trace : List VaultTx) :
    (emergencyPause s.owner p s).1 = .ok () ∧
    (emergencyPause s.owner p s).2.projects p = { s.projects p with isActive := false } ∧
    (∀ q, q ≠ p → (emergencyPause s.owner p s).2.projects q = s.projects q) ∧
    (emergencyPause s.owner p s).2.contributions = s.contributions ∧
    (emergencyPause s.owner p s).2.projectCounter = s.projectCounter ∧
    (emergencyPause s.owner p s).2.platformFee = s.platformFee ∧
    (emergencyPause s.owner p s).2.balance = s.balance ∧
    (runVault (emergencyPause s.owner p s).2 trace).projects p =
      { s.projects p with isActive := false } ∧
    ((runVault (emergencyPause s.owner p s).2 trace).projects p).isActive = false := by
  have h : emergencyPause s.owner p s =
      (.ok (),
        { s with
          projects := setAt s.projects p { s.projects p with isActive := false } }) := by
    simp [emergencyPause]
  rw [h]
  have hfro := (runVault_inactive_frozen trace
    { s with projects := setAt s.projects p { s.projects p with isActive := false } } p hp
    (by simp [setAt_same])).1
  simp only [setAt_same] at hfro
  refine ⟨rfl, by simp [setAt_same], ?_, rfl, rfl, rfl, rfl, hfro, by rw [hfro]⟩
  intro q hq
  simp [setAt_other _ _ _ _ hq]

/-- Witness for C22: project 1 of `fundedState` is active and funded; the owner's
`emergencyPause(1)` leaves it inactive, also after a later contribution attempt. -/
theorem emergencyPause_terminal_witness :
    1 ≤ fundedState.projectCounter ∧
    ((runVault (emergencyPause fundedState.owner 1 fundedState).2
        [.ledger { sender := 2, timestamp := 450, accepts := acceptAll,
                   call := .contribute 1 5 }]).projects 1).isActive = false :=
  ⟨by decide,
    (emergencyPause_terminal fundedState 1 (by decide)
      [.ledger { sender := 2, timestamp := 450, accepts := acceptAll,
                 call := .contribute 1 5 }]).2.2.2.2.2.2.2.2⟩

theorem allotted_deploy (deployer : Address) : Allotted (deploy deployer) := by
  intro q _; rfl

theorem allotted_execVault (vtx : VaultTx) (s : State) (h : Allotted s) :
    Allotted (execVault vtx s) := by
  cases vtx with
  | ledger tx =>
    simp only [execVault]
    rcases exec_cases tx s with ⟨e, he⟩ | ⟨title, description, goal, d, -, -, -, -, -, -, -, he⟩ |
      ⟨p, v, -, hact, -, -, -, he⟩ | ⟨p, -, -, -, hact, -, -, he⟩ | ⟨v, -, he⟩
    · rw [he]; exact h
    · rw [he]
      intro q hq
      have hq2 : q ≠ s.projectCounter + 1 := by
        rcases hq with hq | hq
        · omega
        · simp at hq; omega
      simp only [setAt_other _ _ _ _ hq2]
      apply h
      rcases hq with hq | hq
      · exact Or.inl hq
      · simp at hq; exact Or.inr (by omega)
    · rw [he]
      intro q hq
      have hq2 : q ≠ p := by
        rintro rfl
        rw [h q hq] at hact; cases hact
      simp only [setAt_other _ _ _ _ hq2]
      exact h q hq
    · rw [he]
      intro q hq
      by_cases hq2 : q = p
      · subst hq2; simp [setAt_same]
      · simp only [setAt_other _ _ _ _ hq2]
        exact h q hq
    · rw [he]; exact h
  | updatePlatformFee sender n =>
    simp only [execVault, updatePlatformFee]
    split_ifs <;> exact h
  | emergencyPause sender p =>
    simp only [execVault, emergencyPause]
    by_cases h1 : sender = s.owner
    · simp only [h1, not_true_eq_false, if_false]
      intro q hq
      by_cases hq2 : q = p
      · subst hq2; simp [setAt_same]
      · simp only [setAt_other _ _ _ _ hq2]
        exact h q hq
    · rw [if_pos h1]
      exact h

theorem allotted_runVault (trace : List VaultTx) : ∀ s : State, Allotted s →
    Allotted (runVault s trace) := by
  induction trace with
  | nil => intro s h; exact h
  | cons vtx rest ih => intro s h; exact ih _ (allotted_execVault vtx s h)

/-- C23. In every state reached from deployment by ledger transactions and administrative
calls, `getActiveProjects` lists exactly the ids of the projects whose `isActive` is true,
without repetition and in strictly increasing order, which is the order of creation; the view
is a function of the state and returns only the list.  After the creation of two projects on
a fresh ledger it returns `[1, 2]`. -/
theorem getActiveProjects_exact (deployer : Address) (trace : List VaultTx) :
    (∀ id, id ∈ getActiveProjects (runVault (deploy deployer) trace) ↔
      ((runVault (deploy deployer) trace).projects id).isActive = true) ∧
    (getActiveProjects (runVault (deploy deployer) trace)).Nodup ∧
    (getActiveProjects (runVault (deploy deployer) trace)).Pairwise (fun a b => a < b) ∧
    getActiveProjects (runVault (deploy 0) twoProjects) = [1, 2] := by
  have hall := allotted_runVault trace (deploy deployer) (allotted_deploy deployer)
  generalize runVault (deploy deployer) trace = s at hall ⊢
  have hsorted : (getActiveProjects s).Pairwise (fun a b => a < b) := by
    unfold getActiveProjects
    exact List.Pairwise.filter _ (List.pairwise_lt_range' 1 s.projectCounter)
  refine ⟨?_, ?_, hsorted, by decide⟩
  · intro id
    unfold getActiveProjects
    simp only [List.mem_filter, List.mem_range'_1]
    constructor
    · rintro ⟨-, h⟩; exact h
    · intro h
      refine ⟨?_, h⟩
      by_contra hcon
      have : id = 0 ∨ s.projectCounter < id := by omega
      rw [hall id this] at h; cases h
  · exact hsorted.imp (fun h => Nat.ne_of_lt h)

end CryptoVault

namespace SimpleCryptoVault

/-! ## Immutable fields and the frame of a creation -/

theorem exec_fields_frozen (tx : Tx) (s : State) (p : Nat) (hp : p ≤ s.projectCounter) :
    ((exec tx s).2.projects p).id = (s.projects p).id ∧
    ((exec tx s).2.projects p).creator = (s.projects p).creator ∧
    ((exec tx s).2.projects p).title = (s.projects p).title ∧
    ((exec tx s).2.projects p).description = (s.projects p).description ∧
    ((exec tx s).2.projects p).fundingGoal = (s.projects p).fundingGoal ∧
    ((exec tx s).2.projects p).deadline = (s.projects p).deadline ∧
    p ≤ (exec tx s).2.projectCounter := by
  rcases exec_cases tx s with ⟨e, he⟩ | ⟨title, description, goal, d, -, -, -, -, -, -, -, he⟩ |
    ⟨q, v, -, -, -, -, -, he⟩ | ⟨q, -, -, -, -, -, -, he⟩ | ⟨v, -, he⟩
  · rw [he]; exact ⟨rfl, rfl, rfl, rfl, rfl, rfl, hp⟩
  · rw [he]
    have hq : p ≠ s.projectCounter + 1 := by omega
    have hrec : setAt s.projects (s.projectCounter + 1)
        { id := s.projectCounter + 1, creator := tx.sender, title := title,
          description := description, fundingGoal := goal,
          deadline := tx.timestamp + d * 86400,
          isActive := true, totalRaised := 0, contributorCount := 0 } p = s.projects p :=
      setAt_other _ _ _ _ hq
    exact ⟨congrArg Project.id hrec, congrArg Project.creator hrec,
      congrArg Project.title hrec, congrArg Project.description hrec,
      congrArg Project.fundingGoal hrec, congrArg Project.deadline hrec,
      Nat.le_succ_of_le hp⟩
  · rw [he]
    by_cases hq : p = q
    · subst hq
      refine ⟨?_, ?_, ?_, ?_, ?_, ?_, hp⟩ <;> simp [setAt_same]
    · refine ⟨?_, ?_, ?_, ?_, ?_, ?_, hp⟩ <;> simp [setAt_other _ _ _ _ hq]
  · rw [he]
    by_cases hq : p = q
    · subst hq
      refine ⟨?_, ?_, ?_, ?_, ?_, ?_, hp⟩ <;> simp [setAt_same]
    · refine ⟨?_, ?_, ?_, ?_, ?_, ?_, hp⟩ <;> simp [setAt_other _ _ _ _ hq]
  · rw [he]; exact ⟨rfl, rfl, rfl, rfl, rfl, rfl, hp⟩

/-- C24. Immutable project fields: once a project id has been allocated
(`p ≤ projectCounter`), after every sequence of transactions (creations, contributions,
withdrawals, receives) the project stored under it has the same `id`, `creator`,
`fundingGoal` and `deadline` (and the same title and description). -/
theorem project_fields_immutable (s : State) (p : Nat) (hp : p ≤ s.projectCounter)
    (txs : List Tx) :
    ((run s txs).projects p).id = (s.projects p).id ∧
    ((run s txs).projects p).creator = (s.projects p).creator ∧
    ((run s txs).projects p).fundingGoal = (s.projects p).fundingGoal ∧
    ((run s txs).projects p).deadline = (s.projects p).deadline ∧
    ((run s txs).projects p).title = (s.projects p).title ∧
    ((run s txs).projects p).description = (s.projects p).description := by
  induction txs generalizing s with
  | nil => exact ⟨rfl, rfl, rfl, rfl, rfl, rfl⟩
  | cons tx txs ih =>
    obtain ⟨h1, h2, h3, h4, h5, h6, h7⟩ := exec_fields_frozen tx s p hp
    obtain ⟨i1, i2, i3, i4, i5, i6⟩ := ih (exec tx s).2 h7
    simp only [run]
    exact ⟨by rw [i1, h1], by rw [i2, h2], by rw [i3, h5], by rw [i4, h6], by rw [i5, h3],
      by rw [i6, h4]⟩

/-- Witness for C24: project 1 of `fundedState` keeps creator 1 and goal 2000 through a
further contribution, the creator's withdrawal and a further creation. -/
theorem project_fields_immutable_witness :
    1 ≤ fundedState.projectCounter ∧
    ((run fundedState
        [{ sender := 4, timestamp := 350, accepts := acceptAll, call := .contribute 1 7 },
         { sender := 1, timestamp := 400, accepts := acceptAll, call := .withdrawFunds 1 },
         { sender := 5, timestamp := 500, accepts := acceptAll,
           call := .createProject "Other" "Description" 10 1 }]).projects 1).creator =
      (fundedState.projects 1).creator :=
  ⟨by decide,
    (project_fields_immutable fundedState 1 (by decide)
      [{ sender := 4, timestamp := 350, accepts := acceptAll, call := .contribute 1 7 },
       { sender := 1, timestamp := 400, accepts := acceptAll, call := .withdrawFunds 1 },
       { sender := 5, timestamp := 500, accepts := acceptAll,
         call := .createProject "Other" "Description" 10 1 }]).2.1⟩

/-- C25. Frame of `createProject`: a successful call returns the id `projectCounter + 1`,
leaves every project record under another id (so every previously stored one) and every
contribution balance unchanged, increases `projectCounter` by one, and leaves `platformFee`,
`owner` and the balance as they were. -/
theorem createProject_frame (msg : Msg) (title description : String) (goal durationDays : Nat)
    (s : State) (id : Nat)
    (h : (createProject msg title description goal durationDays s).1 = .ok id) :
    id = s.projectCounter + 1 ∧
    (∀ q, q ≠ id →
      (createProject msg title description goal durationDays s).2.projects q = s.projects q) ∧
    (∀ q, q ≤ s.projectCounter →
      (createProject msg title description goal durationDays s).2.projects q = s.projects q) ∧
    (createProject msg title description goal durationDays s).2.contributions =
      s.contributions ∧
    (createProject msg title description goal durationDays s).2.projectCounter =
      s.projectCounter + 1 ∧
    (createProject msg title description goal durationDays s).2.platformFee = s.platformFee ∧
    (createProject msg title description goal durationDays s).2.owner = s.owner ∧
    (createProject msg title description goal durationDays s).2.balance = s.balance := by
  rcases createProject_cases msg title description goal durationDays s with
    ⟨e, he⟩ | ⟨-, -, -, -, -, -, hk⟩
  · rw [he] at h; cases h
  · rw [hk] at h ⊢
    simp only [Except.ok.injEq] at h
    subst h
    refine ⟨rfl, ?_, ?_, rfl, rfl, rfl, rfl, rfl⟩
    · intro q hq; simp only [setAt_other _ _ _ _ hq]
    · intro q hq
      have hq' : q ≠ s.projectCounter + 1 := by omega
      simp only [setAt_other _ _ _ _ hq']

/-- Witness for C25: on `fundedState` a creation by account 5 returns id 2 and leaves the
record of project 1 as it was. -/
theorem createProject_frame_witness :
    (createProject { sender := 5, timestamp := 500 } "Other" "Description" 10 1
        fundedState).1 = .ok 2 ∧
    (createProject { sender := 5, timestamp := 500 } "Other" "Description" 10 1
        fundedState).2.projects 1 = fundedState.projects 1 :=
  ⟨by decide,
    (createProject_frame { sender := 5, timestamp := 500 } "Other" "Description" 10 1
      fundedState 2 (by decide)).2.1 1 (by decide)⟩

end SimpleCryptoVault

namespace SimpleCryptoVault

/-! ## Custody solvency and the fee bound -/

theorem activeRaised_congr (s s' : State) (n : Nat)
    (h : ∀ i, 1 ≤ i → i ≤ n → s'.projects i = s.projects i) :
    activeRaised s' n = activeRaised s n := by
  induction n with
  | zero => rfl
  | succ n ih =>
    simp only [activeRaised]
    rw [ih (fun i h1 h2 => h i h1 (Nat.le_succ_of_le h2)), h (n + 1) (by omega) (Nat.le_refl _)]

theorem activeRaised_update (s s' : State) (n p : Nat) (hp1 : 1 ≤ p) (hp2 : p ≤ n)
    (h : ∀ i, i ≠ p → s'.projects i = s.projects i) :
    activeRaised s' n +
        (if (s.projects p).isActive = true then (s.projects p).totalRaised else 0) =
      activeRaised s n +
        (if (s'.projects p).isActive = true then (s'.projects p).totalRaised else 0) := by
  induction n with
  | zero => omega
  | succ n ih =>
    simp only [activeRaised]
    by_cases hq : p = n + 1
    · subst hq
      rw [activeRaised_congr s s' n (fun i _ h2 => h i (by omega))]
      omega
    · rw [h (n + 1) (fun hcon => hq hcon.symm)]
      have := ih (by omega)
      omega

theorem activeRaised_ge (s : State) (n p : Nat) (hp1 : 1 ≤ p) (hp2 : p ≤ n)
    (hact : (s.projects p).isActive = true) :
    (s.projects p).totalRaised ≤ activeRaised s n := by
  induction n with
  | zero => omega
  | succ n ih =>
    simp only [activeRaised]
    by_cases hq : p = n + 1
    · subst hq; simp [hact]
    · have := ih (by omega)
      omega

theorem solvent_deploy (deployer : Address) : Solvent (deploy deployer) :=
  ⟨wellFormed_deploy deployer, rfl, Nat.le_refl 0⟩

theorem solvent_active_allocated (s : State) (h : Solvent s) (p : Nat)
    (hact : (s.projects p).isActive = true) : 1 ≤ p ∧ p ≤ s.projectCounter := by
  refine ⟨?_, wellFormed_active_allocated s h.1 p hact⟩
  rcases Nat.eq_zero_or_pos p with hp | hp
  · subst hp
    rw [h.2.1] at hact; cases hact
  · exact hp

theorem solvent_exec (tx : Tx) (s : State) (h : Solvent s) : Solvent (exec tx s).2 := by
  have hwf' := wellFormed_exec tx s h.1
  obtain ⟨hwf, h0, hsum⟩ := h
  rcases exec_cases tx s with ⟨e, he⟩ | ⟨title, description, goal, d, -, -, -, -, -, -, -, he⟩ |
    ⟨p, v, -, hact, -, -, -, he⟩ | ⟨p, -, -, -, hact, hfee, hbal, he⟩ | ⟨v, -, he⟩
  · rw [he]; exact ⟨hwf, h0, hsum⟩
  · refine ⟨hwf', ?_, ?_⟩
    · rw [he]
      simp only [setAt_other _ _ _ _ (Nat.succ_ne_zero s.projectCounter).symm]
      exact h0
    · rw [he]
      simp only [activeRaised, setAt_same]
      rw [activeRaised_congr s _ s.projectCounter
        (fun i _ h2 => setAt_other _ _ _ _ (by omega))]
      simpa using hsum
  · obtain ⟨hp1, hp2⟩ := solvent_active_allocated s ⟨hwf, h0, hsum⟩ p hact
    refine ⟨hwf', ?_, ?_⟩
    · rw [he]
      simp only [setAt_other _ _ _ _ (show (0 : Nat) ≠ p by omega)]
      exact h0
    · rw [he]
      have hupd := activeRaised_update s
        { s with
          balance := s.balance + v
          projects := setAt s.projects p
            { s.projects p with
              contributorCount :=
                if s.contributions p tx.sender = 0 then (s.projects p).contributorCount + 1
                else (s.projects p).contributorCount
              totalRaised := (s.projects p).totalRaised + v }
          contributions := setAt s.contributions p
            (setAt (s.contributions p) tx.sender (s.contributions p tx.sender + v)) }
        s.projectCounter p hp1 hp2 (fun i hi => setAt_other _ _ _ _ hi)
      simp only [setAt_same, if_pos hact] at hupd
      simp only
      omega
  · obtain ⟨hp1, hp2⟩ := solvent_active_allocated s ⟨hwf, h0, hsum⟩ p hact
    refine ⟨hwf', ?_, ?_⟩
    · rw [he]
      simp only [setAt_other _ _ _ _ (show (0 : Nat) ≠ p by omega)]
      exact h0
    · rw [he]
      have hupd := activeRaised_update s
        { s with
          projects := setAt s.projects p { s.projects p with isActive := false }
          balance := s.balance -
            ((s.projects p).totalRaised - (s.projects p).totalRaised * s.platformFee / 10000) -
            (s.projects p).totalRaised * s.platformFee / 10000 }
        s.projectCounter p hp1 hp2 (fun i hi => setAt_other _ _ _ _ hi)
      simp only [setAt_same, if_pos hact, Bool.false_eq_true, if_false] at hupd
      simp only
      omega
  · refine ⟨hwf', ?_, ?_⟩
    · rw [he]; exact h0
    · rw [he]
      show activeRaised { s with balance := s.balance + v } s.projectCounter ≤ s.balance + v
      rw [activeRaised_congr s { s with balance := s.balance + v } s.projectCounter
        (fun _ _ _ => rfl)]
      omega

theorem solvent_run (txs : List Tx) : ∀ s : State, Solvent s → Solvent (run s txs) := by
  induction txs with
  | nil => intro s h; exact h
  | cons tx txs ih => intro s h; exact ih _ (solvent_exec tx s h)

theorem withdrawFunds_not_transferFailed (accepts : Address → Nat → Bool) (msg : Msg) (p : Nat)
    (s : State) (h6 : (s.projects p).totalRaised ≤ s.balance)
    (h7 : accepts msg.sender
      ((s.projects p).totalRaised - (s.projects p).totalRaised * s.platformFee / 10000) = true)
    (h8 : accepts s.owner ((s.projects p).totalRaised * s.platformFee / 10000) = true) :
    (withdrawFunds accepts msg p s).1 ≠ .error .transferFailed := by
  unfold withdrawFunds transact withdrawFundsBody checkedMul checkedSub transfer
  by_cases h1 : (s.projects p).creator = msg.sender
  · by_cases h2 : (s.projects p).totalRaised ≥ (s.projects p).fundingGoal ∨
        msg.timestamp ≥ (s.projects p).deadline
    · by_cases h3 : (s.projects p).isActive = true
      · by_cases h4 : (s.projects p).totalRaised * s.platformFee < UINT256_BOUND
        · by_cases h5 : (s.projects p).totalRaised * s.platformFee / 10000 ≤
              (s.projects p).totalRaised
          · have a1 : ¬ s.balance < (s.projects p).totalRaised -
                (s.projects p).totalRaised * s.platformFee / 10000 := by omega
            have a2 : ¬ s.balance - ((s.projects p).totalRaised -
                (s.projects p).totalRaised * s.platformFee / 10000) <
                (s.projects p).totalRaised * s.platformFee / 10000 := by omega
            simp [h1, h2, h3, h4, h5, h7, h8, a1, a2, setAt_same]
          · simp [h1, h2, h3, h4, h5, setAt_same]
        · simp [h1, h2, h3, h4, setAt_same]
      · simp [h1, h2, h3]
    · simp [h1, h2]
  · simp [h1]

theorem withdrawFunds_not_panic (accepts : Address → Nat → Bool) (msg : Msg) (p : Nat)
    (s : State) (h4 : (s.projects p).totalRaised * s.platformFee < UINT256_BOUND)
    (h5 : (s.projects p).totalRaised * s.platformFee / 10000 ≤ (s.projects p).totalRaised) :
    (withdrawFunds accepts msg p s).1 ≠ .error .arithmeticPanic := by
  unfold withdrawFunds transact withdrawFundsBody checkedMul checkedSub transfer
  by_cases h1 : (s.projects p).creator = msg.sender
  · by_cases h2 : (s.projects p).totalRaised ≥ (s.projects p).fundingGoal ∨
        msg.timestamp ≥ (s.projects p).deadline
    · by_cases h3 : (s.projects p).isActive = true
      · by_cases h6 : s.balance < (s.projects p).totalRaised -
            (s.projects p).totalRaised * s.platformFee / 10000
        · simp [h1, h2, h3, h4, h5, h6, setAt_same]
        · by_cases h7 : accepts msg.sender ((s.projects p).totalRaised -
              (s.projects p).totalRaised * s.platformFee / 10000) = true
          · by_cases h8 : s.balance - ((s.projects p).totalRaised -
                (s.projects p).totalRaised * s.platformFee / 10000) <
                (s.projects p).totalRaised * s.platformFee / 10000
            · simp [h1, h2, h3, h4, h5, h6, h7, h8, setAt_same]
            · by_cases h9 : accepts s.owner
                  ((s.projects p).totalRaised * s.platformFee / 10000) = true
              · simp [h1, h2, h3, h4, h5, h6, h7, h8, h9, setAt_same]
              · simp [h1, h2, h3, h4, h5, h6, h7, h8, h9, setAt_same]
          · simp [h1, h2, h3, h4, h5, h6, h7, setAt_same]
      · simp [h1, h2, h3]
    · simp [h1, h2]
  · simp [h1]

/-- C28. Custody solvency: in every state reached from deployment by `createProject`,
`contribute`, `withdrawFunds` and plain receives, the balance of the contract is at least the
sum of `totalRaised` over the active projects, every active project has an allocated id
(so the sum covers all of them) and its `totalRaised` is within the balance.  Consequently a
`withdrawFunds` by the creator of an active project never fails in a transfer when both
recipients accept their payments, and it succeeds when the goal is reached or the deadline
has passed and the fee product stays in the `uint256` range. -/
theorem custody_solvency (deployer : Address) (txs : List Tx) :
    activeRaised (run (deploy deployer) txs) (run (deploy deployer) txs).projectCounter ≤
      (run (deploy deployer) txs).balance ∧
    (∀ p, ((run (deploy deployer) txs).projects p).isActive = true →
      1 ≤ p ∧ p ≤ (run (deploy deployer) txs).projectCounter ∧
      ((run (deploy deployer) txs).projects p).totalRaised ≤
        (run (deploy deployer) txs).balance) ∧
    (∀ (accepts : Address → Nat → Bool) (msg : Msg) (p : Nat),
      ((run (deploy deployer) txs).projects p).isActive = true →
      accepts msg.sender
        (((run (deploy deployer) txs).projects p).totalRaised -
          ((run (deploy deployer) txs).projects p).totalRaised *
            (run (deploy deployer) txs).platformFee / 10000) = true →
      accepts (run (deploy deployer) txs).owner
        (((run (deploy deployer) txs).projects p).totalRaised *
          (run (deploy deployer) txs).platformFee / 10000) = true →
      (withdrawFunds accepts msg p (run (deploy deployer) txs)).1 ≠ .error .transferFailed ∧
      (((run (deploy deployer) txs).projects p).creator = msg.sender →
        (((run (deploy deployer) txs).projects p).totalRaised ≥
            ((run (deploy deployer) txs).projects p).fundingGoal ∨
          msg.timestamp ≥ ((run (deploy deployer) txs).projects p).deadline) →
        ((run (deploy deployer) txs).projects p).totalRaised *
          (run (deploy deployer) txs).platformFee < UINT256_BOUND →
        ∃ payments,
          (withdrawFunds accepts msg p (run (deploy deployer) txs)).1 = .ok payments)) := by
  have hs := solvent_run txs (deploy deployer) (solvent_deploy deployer)
  generalize run (deploy deployer) txs = s at hs ⊢
  have hcover : ∀ p, (s.projects p).isActive = true →
      1 ≤ p ∧ p ≤ s.projectCounter ∧ (s.projects p).totalRaised ≤ s.balance := by
    intro p hact
    obtain ⟨h1, h2⟩ := solvent_active_allocated s hs p hact
    exact ⟨h1, h2, Nat.le_trans (activeRaised_ge s _ p h1 h2 hact) hs.2.2⟩
  refine ⟨hs.2.2, hcover, ?_⟩
  intro accepts msg p hact h7 h8
  have h6 := (hcover p hact).2.2
  refine ⟨withdrawFunds_not_transferFailed accepts msg p s h6 h7 h8, ?_⟩
  intro h1 h2 h4
  have h5 : (s.projects p).totalRaised * s.platformFee / 10000 ≤ (s.projects p).totalRaised := by
    rw [hs.1.2]; omega
  exact ⟨_, by rw [withdrawFunds_ok accepts msg p s h1 h2 hact h4 h5 h6 h7 h8]⟩

/-- C29. The fee never exceeds the amount raised: in every state reached from deployment
`platformFee` is 250, so for every project `fee = totalRaised * platformFee / 10000` is at most
`totalRaised`, the checked subtraction `totalRaised - fee` returns, and `withdrawFunds` does
not end in the arithmetic panic whenever the product `totalRaised * platformFee` stays in the
`uint256` range; with the fee 250 the bound and the subtraction hold for every amount `T`. -/
theorem fee_never_exceeds_raised (deployer : Address) (txs : List Tx)
    (accepts : Address → Nat → Bool) (msg : Msg) (p : Nat) :
    (run (deploy deployer) txs).platformFee = 250 ∧
    ((run (deploy deployer) txs).projects p).totalRaised *
        (run (deploy deployer) txs).platformFee / 10000 ≤
      ((run (deploy deployer) txs).projects p).totalRaised ∧
    checkedSub ((run (deploy deployer) txs).projects p).totalRaised
        (((run (deploy deployer) txs).projects p).totalRaised *
          (run (deploy deployer) txs).platformFee / 10000) =
      .ok (((run (deploy deployer) txs).projects p).totalRaised -
        ((run (deploy deployer) txs).projects p).totalRaised *
          (run (deploy deployer) txs).platformFee / 10000) ∧
    (((run (deploy deployer) txs).projects p).totalRaised *
        (run (deploy deployer) txs).platformFee < UINT256_BOUND →
      (withdrawFunds accepts msg p (run (deploy deployer) txs)).1 ≠ .error .arithmeticPanic) ∧
    (∀ T : Nat, T * 250 / 10000 ≤ T ∧
      checkedSub T (T * 250 / 10000) = .ok (T - T * 250 / 10000)) := by
  have hwf := wellFormed_run txs (deploy deployer) (wellFormed_deploy deployer)
  generalize run (deploy deployer) txs = s at hwf ⊢
  have h5 : (s.projects p).totalRaised * s.platformFee / 10000 ≤ (s.projects p).totalRaised := by
    rw [hwf.2]; omega
  refine ⟨hwf.2, h5, by simp [checkedSub, h5], ?_, ?_⟩
  · intro h4
    exact withdrawFunds_not_panic accepts msg p s h4 h5
  · intro T
    have h6 : T * 250 / 10000 ≤ T := by omega
    exact ⟨h6, by simp [checkedSub, h6]⟩

end SimpleCryptoVault

namespace FHEUtils

open Js

/-! ## Parameter validation of the frontend -/

theorem canEncrypt_boolean (pf : Platform) (value : JsValue) :
    ∃ r : Bool, canEncrypt pf value = .ok (.prim (.bool r)) := by
  unfold canEncrypt
  generalize (match value with
    | .prim (.string s) => JsValue.prim (.number (pf.parseFloat s))
    | v => v) = nv
  simp only
  cases h1 : isNaN pf nv with
  | error e => exact ⟨false, rfl⟩
  | ok a =>
    cases a with
    | true => exact ⟨false, rfl⟩
    | false =>
      cases h2 : geNumber pf nv (.finite 0) with
      | error e => exact ⟨false, rfl⟩
      | ok b =>
        cases b with
        | false => exact ⟨false, rfl⟩
        | true =>
          cases h3 : leNumber pf nv (.finite MAX_SAFE_INTEGER) with
          | error e => exact ⟨false, rfl⟩
          | ok c => exact ⟨c, rfl⟩

/-- C30. The method `validateFHEParams` is total and sound: for every platform and every
argument it returns a boolean and does not throw; on `undefined` and on `null` it returns
`false`; it returns `true` only if the three properties were read without a throw, the three
values are truthy, both addresses pass `isAddress` and `canEncrypt(value)` is `true`; the
number 0 as value is rejected although `canEncrypt(0)` is `true`; and the sample argument is
accepted. -/
theorem validateFHEParams_total_and_sound (pf : Platform) (params : Params) :
    (∃ r : Bool, validateFHEParams pf params = .ok (.prim (.bool r))) ∧
    validateFHEParams pf .undefined = .ok (.prim (.bool false)) ∧
    validateFHEParams pf .null = .ok (.prim (.bool false)) ∧
    (validateFHEParams pf params = .ok (.prim (.bool true)) →
      ∃ value contractAddress userAddress,
        params = .object (.ok value) (.ok contractAddress) (.ok userAddress) ∧
        toBoolean value = true ∧ toBoolean contractAddress = true ∧
        toBoolean userAddress = true ∧
        pf.isAddress contractAddress = true ∧ pf.isAddress userAddress = true ∧
        canEncrypt pf value = .ok (.prim (.bool true))) ∧
    (∀ contractAddress userAddress,
      validateFHEParams pf
        (.object (.ok (.prim (.number (.finite 0)))) contractAddress userAddress) =
        .ok (.prim (.bool false))) ∧
    canEncrypt pf (.prim (.number (.finite 0))) = .ok (.prim (.bool true)) ∧
    validateFHEParams samplePlatform sampleParams = .ok (.prim (.bool true)) := by
  refine ⟨?_, rfl, rfl, ?_, ?_, ?_, ?_⟩
  · cases params with
    | undefined => exact ⟨false, rfl⟩
    | null => exact ⟨false, rfl⟩
    | object value contractAddress userAddress =>
      cases value with
      | error e => exact ⟨false, rfl⟩
      | ok v =>
        cases contractAddress with
        | error e => exact ⟨false, rfl⟩
        | ok c =>
          cases userAddress with
          | error e => exact ⟨false, rfl⟩
          | ok u =>
            simp only [validateFHEParams, destructure]
            split_ifs with h1 h2
            · exact ⟨false, rfl⟩
            · exact ⟨false, rfl⟩
            · obtain ⟨r, hr⟩ := canEncrypt_boolean pf v
              exact ⟨r, by rw [hr]; rfl⟩
  · intro h
    cases params with
    | undefined => cases h
    | null => cases h
    | object value contractAddress userAddress =>
      cases value with
      | error e => cases h
      | ok v =>
        cases contractAddress with
        | error e => cases h
        | ok c =>
          cases userAddress with
          | error e => cases h
          | ok u =>
            simp only [validateFHEParams, destructure] at h
            split_ifs at h with h1 h2
            · cases h
            · cases h
            · simp only [Bool.or_eq_true, Bool.not_eq_true', not_or, Bool.not_eq_false] at h1 h2
              obtain ⟨r, hr⟩ := canEncrypt_boolean pf v
              rw [hr] at h
              have hr' : r = true := by
                simp only [tryCatchJs] at h
                injection h with h
                injection h with h
                injection h
              subst hr'
              exact ⟨v, c, u, rfl, h1.1.1, h1.1.2, h1.2, h2.1, h2.2, hr⟩
  · intro contractAddress userAddress
    cases contractAddress with
    | error e => rfl
    | ok c =>
      cases userAddress with
      | error e => rfl
      | ok u => simp [validateFHEParams, destructure, toBoolean, tryCatchJs]
  · have h1 : ¬ ((9007199254740991 : Rat) < 0) := by norm_num
    simp [canEncrypt, tryCatchJs, isNaN, toNumber, toPrimitive, primToNumber, geNumber, leNumber,
      primToNumeric, numericLt, MAX_SAFE_INTEGER, h1]
  · have h1 : ¬ ((9007199254740991 : Rat) < 1) := by norm_num
    have h2 : ¬ ((1 : Rat) < 0) := by norm_num
    simp [validateFHEParams, sampleParams, samplePlatform, destructure, toBoolean, tryCatchJs,
      canEncrypt, isNaN, toNumber, toPrimitive, primToNumber, geNumber, leNumber,
      primToNumeric, numericLt, MAX_SAFE_INTEGER, h1, h2]

end FHEUtils

namespace FHEUtils

open Js

/-! ## The amount encryption of the frontend -/

theorem encrypted_texts_spelling :
    encryptedTag = "encrypted_".toList.map Char.toNat ∧
    proofText = "proof".toList.map Char.toNat := by decide

theorem parseEther_one : parseEther (numberToString 1) = .ok 1000000000000000000 := by decide

theorem parseFloat_wei_of_one :
    parseFloat (bigintToString 1000000000000000000) = some 1000000000000000000 := by decide

theorem parseEther_wei_of_one :
    parseEther (numberToString 1000000000000000000) =
      .ok 1000000000000000000000000000000000000 := by decide

theorem parseEther_thousand :
    parseEther (numberToString 1000) = .ok 1000000000000000000000 := by decide

theorem parseFloat_wei_of_thousand :
    parseFloat (bigintToString 1000000000000000000000) = some 1000000000000000000000 := by
  decide

theorem numberToString_wei_of_thousand :
    numberToString 1000000000000000000000 = "1e+21".toList.map Char.toNat := by decide

theorem parseEther_wei_of_thousand :
    parseEther (numberToString 1000000000000000000000) = .error .typeError := by decide

/-- C27. The helper `encryptETHAmount` converts to wei twice.  For the amount 1 and an
initialized instance, `encryptValue(1)` gives the hash of `encrypted_` followed by the digits
of 10^18, the wei amount of 1 ETH, but `encryptETHAmount(1, fheUtils)` gives the hash of
`encrypted_` followed by the digits of 10^36: it passes the wei amount to `encryptValue`,
which converts to wei again; the two hashed texts differ.  For the amount 1000 the second
conversion is of the number 1e21, whose string `1e+21` is refused by `parseEther`, so
`encryptETHAmount(1000, fheUtils)` throws, while `encryptValue(1000)` returns. -/
theorem encryptETHAmount_converts_twice (h : Hashing) (address : List Nat) :
    (encryptValue h { initialized := true, signerAddress := .ok address } (.number 1)).map
        (fun r => r.encryptedValue) = .ok (encryptedWei h 1) ∧
    (encryptETHAmount h (.number 1) { initialized := true, signerAddress := .ok address }).map
        (fun r => r.encryptedValue) = .ok (encryptedWei h 1000000000000000000) ∧
    encryptedTag ++ toDecimal (1000000000000000000 * 10 ^ 18) ≠
      encryptedTag ++ toDecimal (1 * 10 ^ 18) ∧
    (encryptValue h { initialized := true, signerAddress := .ok address } (.number 1000)).map
        (fun r => r.encryptedValue) = .ok (encryptedWei h 1000) ∧
    encryptETHAmount h (.number 1000) { initialized := true, signerAddress := .ok address } =
      .error .typeError := by
  have d1 : bigintToString 1000000000000000000 = toDecimal (1 * 10 ^ 18) := by decide
  have d2 : bigintToString 1000000000000000000000000000000000000 =
      toDecimal (1000000000000000000 * 10 ^ 18) := by decide
  have d3 : bigintToString 1000000000000000000000 = toDecimal (1000 * 10 ^ 18) := by decide
  refine ⟨?_, ?_, by decide, ?_, ?_⟩
  · simp only [encryptValue, parseEther_one, encryptedWei, d1]
    rfl
  · simp only [encryptETHAmount, amountToString, encryptValue, parseEther_one,
      parseFloat_wei_of_one, parseEther_wei_of_one, encryptedWei, d2]
    rfl
  · simp only [encryptValue, parseEther_thousand, encryptedWei, d3]
    rfl
  · simp only [encryptETHAmount, amountToString, encryptValue, parseEther_thousand,
      parseFloat_wei_of_thousand, parseEther_wei_of_thousand]
    rfl

end FHEUtils

namespace Js

/-! ## The mock encryption of the frontend: decimal strings -/

theorem toDecimalAux_digits (fuel : Nat) : ∀ n, n < fuel →
    ∀ c ∈ toDecimalAux fuel n, 48 ≤ c ∧ c ≤ 57 := by
  induction fuel with
  | zero => intro n h; omega
  | succ fuel ih =>
    intro n h c hc
    unfold toDecimalAux at hc
    by_cases h10 : n < 10
    · simp only [h10, if_true, List.mem_singleton] at hc
      omega
    · simp only [h10, if_false, List.mem_append, List.mem_singleton] at hc
      rcases hc with hc | hc
      · exact ih (n / 10) (by omega) c hc
      · omega

theorem toDecimalAux_value (fuel : Nat) : ∀ n, n < fuel →
    decimalValue (toDecimalAux fuel n) = n := by
  induction fuel with
  | zero => intro n h; omega
  | succ fuel ih =>
    intro n h
    unfold toDecimalAux
    by_cases h10 : n < 10
    · simp only [h10, if_true, decimalValue, List.foldl_cons, List.foldl_nil]
      omega
    · have h1 := ih (n / 10) (by omega)
      unfold decimalValue at h1
      simp only [h10, if_false, decimalValue, List.foldl_append, List.foldl_cons,
        List.foldl_nil, h1]
      omega

theorem toDecimalAux_cons (fuel : Nat) : ∀ n, n < fuel →
    ∃ d ds, toDecimalAux fuel n = d :: ds ∧ 48 ≤ d ∧ d ≤ 57 ∧ (d = 48 → ds = []) := by
  induction fuel with
  | zero => intro n h; omega
  | succ fuel ih =>
    intro n h
    unfold toDecimalAux
    by_cases h10 : n < 10
    · exact ⟨48 + n, [], by simp only [h10, if_true], by omega, by omega, fun _ => rfl⟩
    · obtain ⟨d, ds, h1, h2, h3, h4⟩ := ih (n / 10) (by omega)
      refine ⟨d, ds ++ [48 + n % 10], by simp only [h10, if_false, h1, List.cons_append],
        h2, h3, ?_⟩
      intro hd
      exfalso
      have h5 := toDecimalAux_value fuel (n / 10) (by omega)
      rw [h1, h4 hd, hd] at h5
      simp only [decimalValue, List.foldl_cons, List.foldl_nil] at h5
      omega

theorem toDecimal_digits (n : Nat) : ∀ c ∈ toDecimal n, 48 ≤ c ∧ c ≤ 57 :=
  toDecimalAux_digits (n + 1) n (Nat.lt_succ_self n)

theorem toDecimal_value (n : Nat) : decimalValue (toDecimal n) = n :=
  toDecimalAux_value (n + 1) n (Nat.lt_succ_self n)

theorem toDecimal_cons (n : Nat) :
    ∃ d ds, toDecimal n = d :: ds ∧ 48 ≤ d ∧ d ≤ 57 ∧ (d = 48 → ds = []) :=
  toDecimalAux_cons (n + 1) n (Nat.lt_succ_self n)

theorem roundDouble_safe (n : Nat) (h : n < 2 ^ 53) : roundDouble n = n := by
  unfold roundDouble
  rw [if_pos h]

theorem numberToString_safe (n : Nat) (h : n < 2 ^ 53) : numberToString n = toDecimal n := by
  unfold numberToString
  rw [if_pos (by omega)]

theorem isDigit_of_range (c : Nat) (h : 48 ≤ c ∧ c ≤ 57) : isDigit c = true := by
  simp [isDigit, h.1, h.2]

theorem takeWhile_isDigit_append (ds : JsString) (hds : ∀ c ∈ ds, 48 ≤ c ∧ c ≤ 57)
    (e : Nat) (rest : JsString) (he : isDigit e = false) :
    (ds ++ e :: rest).takeWhile isDigit = ds ∧ (ds ++ e :: rest).dropWhile isDigit = e :: rest := by
  induction ds with
  | nil => simp [List.takeWhile, List.dropWhile, he]
  | cons d ds ih =>
    have hd := isDigit_of_range d (hds d (List.mem_cons_self d ds))
    have := ih (fun c hc => hds c (List.mem_cons_of_mem d hc))
    simp [List.takeWhile, List.dropWhile, hd, this]

theorem readDigits_decimal (ds : JsString) (hds : ∀ c ∈ ds, 48 ≤ c ∧ c ≤ 57) :
    ∀ a, readDigits 10 ds (some a) = some (ds.foldl (fun a c => a * 10 + (c - 48)) a) := by
  induction ds with
  | nil => intro a; rfl
  | cons d ds ih =>
    intro a
    have hd := hds d (List.mem_cons_self d ds)
    have hv : digitVal d = some (d - 48) := by simp [digitVal, hd.1, hd.2]
    have hlt : d - 48 < 10 := by omega
    simp only [readDigits, hv, hlt, if_true, Option.getD_some, List.foldl_cons]
    exact ih (fun c hc => hds c (List.mem_cons_of_mem d hc)) _

theorem parseInt_digits (d : Nat) (ds : JsString) (hd : 48 ≤ d ∧ d ≤ 57)
    (hds : ∀ c ∈ ds, 48 ≤ c ∧ c ≤ 57) :
    parseInt (d :: ds) = .value (roundDouble (decimalValue (d :: ds))) := by
  have hws : isWhiteSpace d = false := by
    simp only [isWhiteSpace, decide_eq_false_iff_not]
    omega
  have h1 : (d :: ds).dropWhile isWhiteSpace = d :: ds := by
    simp [List.dropWhile, hws]
  have h45' : ¬ d = 45 := by omega
  have hhex : (match d :: ds with
      | a :: b :: _ => decide (a = 48 ∧ (b = 120 ∨ b = 88))
      | _ => false) = false := by
    cases ds with
    | nil => rfl
    | cons b bs =>
      have hb := hds b (List.mem_cons_self b bs)
      simp only [decide_eq_false_iff_not]
      omega
  have hv : digitVal d = some (d - 48) := by simp [digitVal, hd.1, hd.2]
  have hlt : d - 48 < 10 := by omega
  have hread : readDigits 10 (d :: ds) none = some (decimalValue (d :: ds)) := by
    simp only [readDigits, hv, hlt, if_true, Option.getD_none, decimalValue, List.foldl_cons]
    exact readDigits_decimal ds hds _
  have h43 : ¬ d = 43 := by omega
  unfold parseInt
  simp only [h1, List.head?_cons, Option.some.injEq, h45', h43, or_self, if_false, hhex,
    Bool.false_eq_true, decide_False, hread]

theorem parseInt_toDecimal (n : Nat) (h : n < 2 ^ 53) : parseInt (toDecimal n) = .value n := by
  obtain ⟨d, ds, h1, h2, h3, -⟩ := toDecimal_cons n
  have hds : ∀ c ∈ ds, 48 ≤ c ∧ c ≤ 57 := by
    intro c hc
    exact toDecimal_digits n c (by rw [h1]; exact List.mem_cons_of_mem d hc)
  rw [h1, parseInt_digits d ds ⟨h2, h3⟩ hds, ← h1, toDecimal_value, roundDouble_safe n h]

end Js

namespace Js

/-! ## The mock encryption of the frontend: JSON texts -/

theorem escapeChar_plain (c : Nat) (h : c ≠ 34 ∧ c ≠ 92 ∧ 32 ≤ c) : escapeChar c = [c] := by
  obtain ⟨h1, h2, h3⟩ := h
  have a3 : ¬ c = 8 := by omega
  have a4 : ¬ c = 12 := by omega
  have a5 : ¬ c = 10 := by omega
  have a6 : ¬ c = 13 := by omega
  have a7 : ¬ c = 9 := by omega
  have a8 : ¬ c < 32 := by omega
  simp only [escapeChar, h1, h2, a3, a4, a5, a6, a7, a8, if_false]

theorem escape_plain (s : JsString) (h : Plain s) : escape s = s := by
  induction s with
  | nil => rfl
  | cons c cs ih =>
    simp only [escape, escapeChar_plain c (h c (List.mem_cons_self c cs)),
      ih (fun d hd => h d (List.mem_cons_of_mem c hd)), List.singleton_append]

theorem quote_plain (s : JsString) (h : Plain s) : quote s = 34 :: (s ++ [34]) := by
  simp only [quote, escape_plain s h, List.cons_append]

theorem readString_plain (s : JsString) (h : Plain s) (rest : JsString) :
    readString (s ++ 34 :: rest) = some (s, rest) := by
  induction s with
  | nil =>
    rw [List.nil_append, readString.eq_def]
    simp only [if_true]
  | cons c cs ih =>
    obtain ⟨h1, h2, h3⟩ := h c (List.mem_cons_self c cs)
    have a3 : ¬ c < 32 := by omega
    rw [List.cons_append, readString.eq_def]
    simp only [h1, h2, a3, if_false, ih (fun d hd => h d (List.mem_cons_of_mem c hd))]

theorem readNumber_toDecimal (n : Nat) (h : n < 2 ^ 53) (e : Nat) (rest : JsString)
    (he : isDigit e = false) :
    readNumber (toDecimal n ++ e :: rest) = some (n, e :: rest) := by
  obtain ⟨h1, h2⟩ := takeWhile_isDigit_append (toDecimal n) (toDecimal_digits n) e rest he
  obtain ⟨d, ds, h3, h4, h5, h6⟩ := toDecimal_cons n
  have a1 : ¬ toDecimal n = [] := by rw [h3]; exact List.cons_ne_nil d ds
  have a2 : ¬ ((toDecimal n).head? = some 48 ∧ 1 < (toDecimal n).length) := by
    rw [h3]
    rintro ⟨h7, h8⟩
    simp only [List.head?_cons, Option.some.injEq] at h7
    rw [h6 h7] at h8
    simp at h8
  unfold readNumber
  rw [h1, h2, if_neg a1, if_neg a2, toDecimal_value, roundDouble_safe n h]

theorem parseValue_stringify (v : JsonValue) (hv : PlainValue v) (e : Nat) (rest : JsString)
    (he : isDigit e = false) :
    parseValue (stringifyValue v ++ e :: rest) = some (v, e :: rest) := by
  cases v with
  | str s =>
    have hs : Plain s := hv
    simp only [stringifyValue, quote_plain s hs, List.cons_append, List.append_assoc,
      parseValue, if_true, readString_plain s hs, List.nil_append]
  | num n =>
    have hn : n < 2 ^ 53 := hv
    obtain ⟨d, ds, h3, h4, h5, -⟩ := toDecimal_cons n
    have hd : ¬ d = 34 := by omega
    have hread := readNumber_toDecimal n hn e rest he
    rw [h3] at hread
    simp only [stringifyValue, numberToString_safe n hn, h3, List.cons_append, parseValue, hd,
      if_false]
    rw [List.cons_append] at hread
    rw [hread]

theorem stringifyMembers_cons (m : JsString × JsonValue) (ms : List (JsString × JsonValue))
    (hm : Plain m.1) :
    ∃ tail, stringifyMembers (m :: ms) = 34 :: tail := by
  cases ms with
  | nil =>
    refine ⟨(m.1 ++ [34]) ++ 58 :: stringifyValue m.2, ?_⟩
    simp only [stringifyMembers, quote_plain m.1 hm, List.cons_append]
  | cons m2 ms =>
    refine ⟨(m.1 ++ [34]) ++ 58 :: stringifyValue m.2 ++ 44 :: stringifyMembers (m2 :: ms), ?_⟩
    simp only [stringifyMembers, quote_plain m.1 hm, List.cons_append]

theorem parseMembers_stringify (ms : List (JsString × JsonValue)) :
    ∀ (m : JsString × JsonValue) (fuel : Nat),
      (∀ x ∈ m :: ms, Plain x.1 ∧ PlainValue x.2) → ms.length < fuel →
      parseMembers fuel (stringifyMembers (m :: ms) ++ [125]) = some (m :: ms) := by
  induction ms with
  | nil =>
    intro m fuel h hf
    obtain ⟨hk, hv⟩ := h m (List.mem_cons_self m [])
    obtain ⟨fuel, rfl⟩ : ∃ f, fuel = f + 1 := ⟨fuel - 1, by simp at hf; omega⟩
    have h1 : stringifyMembers [m] ++ [125] =
        34 :: (m.1 ++ 34 :: 58 :: (stringifyValue m.2 ++ 125 :: [])) := by
      simp only [stringifyMembers, quote_plain m.1 hk, List.cons_append, List.append_assoc,
        List.nil_append]
    rw [h1]
    simp only [parseMembers, if_true, readString_plain m.1 hk,
      parseValue_stringify m.2 hv 125 [] (by decide)]
  | cons m2 ms ih =>
    intro m fuel h hf
    obtain ⟨hk, hv⟩ := h m (List.mem_cons_self m (m2 :: ms))
    obtain ⟨fuel, rfl⟩ : ∃ f, fuel = f + 1 := ⟨fuel - 1, by simp at hf; omega⟩
    have h1 : stringifyMembers (m :: m2 :: ms) ++ [125] =
        34 :: (m.1 ++ 34 :: 58 ::
          (stringifyValue m.2 ++ 44 :: (stringifyMembers (m2 :: ms) ++ [125]))) := by
      simp only [stringifyMembers, quote_plain m.1 hk, List.cons_append, List.append_assoc,
        List.nil_append]
    have h2 := ih m2 fuel (fun x hx => h x (List.mem_cons_of_mem m hx))
      (by simp only [List.length_cons] at hf; omega)
    rw [h1]
    simp only [parseMembers, if_true, readString_plain m.1 hk,
      parseValue_stringify m.2 hv 44 _ (by decide), h2]
    simp

theorem stringifyMembers_length (ms : List (JsString × JsonValue)) :
    ms.length ≤ (stringifyMembers ms).length := by
  induction ms with
  | nil => simp [stringifyMembers]
  | cons m ms ih =>
    cases ms with
    | nil => simp [stringifyMembers, quote]
    | cons m2 ms =>
      simp only [stringifyMembers, List.length_append, List.length_cons] at ih ⊢
      simp only [quote, List.length_append, List.length_cons]
      omega

/-- The text that `JSON.stringify` writes for an object whose property names and string
values are plain and whose numbers are below 2^53 is read back by `JSON.parse` as the same
properties. -/
theorem jsonParse_stringify (ms : List (JsString × JsonValue))
    (h : ∀ x ∈ ms, Plain x.1 ∧ PlainValue x.2) :
    jsonParse (jsonStringify ms) = .ok ms := by
  cases ms with
  | nil => simp [jsonParse, jsonStringify, stringifyMembers]
  | cons m ms =>
    obtain ⟨tail, ht⟩ := stringifyMembers_cons m ms (h m (List.mem_cons_self m ms)).1
    have h1 : ¬ (stringifyMembers (m :: ms) ++ [125] = [125]) := by
      rw [ht]; simp
    have h2 := parseMembers_stringify ms m (stringifyMembers (m :: ms) ++ [125]).length h
      (by
        have := stringifyMembers_length (m :: ms)
        simp only [List.length_append, List.length_cons, List.length_nil] at this ⊢
        omega)
    simp only [jsonParse, jsonStringify, List.cons_append, if_true, h1, if_false, h2]

end Js

namespace Js

/-! ## The mock encryption of the frontend: base64 -/

theorem b64Val_b64Char (i : Nat) (h : i < 64) : b64Val (b64Char i) = some i := by
  unfold b64Char
  by_cases h1 : i < 26
  · have a1 : 65 ≤ 65 + i ∧ 65 + i ≤ 90 := by omega
    simp only [h1, if_true, b64Val, a1, and_self, Nat.add_sub_cancel_left]
  · by_cases h2 : i < 52
    · have a1 : ¬ (65 ≤ 71 + i ∧ 71 + i ≤ 90) := by omega
      have a2 : 97 ≤ 71 + i ∧ 71 + i ≤ 122 := by omega
      simp only [h1, h2, if_true, if_false, b64Val, a1, a2, and_self, Nat.add_sub_cancel_left]
    · by_cases h3 : i < 62
      · have a1 : ¬ (65 ≤ i - 4 ∧ i - 4 ≤ 90) := by omega
        have a2 : ¬ (97 ≤ i - 4 ∧ i - 4 ≤ 122) := by omega
        have a3 : 48 ≤ i - 4 ∧ i - 4 ≤ 57 := by omega
        have a4 : i - 4 + 4 = i := by omega
        simp only [h1, h2, h3, if_true, if_false, b64Val, a1, a2, a3, and_self, a4]
      · by_cases h4 : i = 62
        · subst h4; decide
        · have h5 : i = 63 := by omega
          subst h5; decide

theorem b64Char_range (i : Nat) :
    b64Char i ≠ 61 ∧ b64Char i ≠ 9 ∧ b64Char i ≠ 10 ∧ b64Char i ≠ 12 ∧ b64Char i ≠ 13 ∧
      b64Char i ≠ 32 := by
  unfold b64Char
  split_ifs <;> omega

theorem sextets_lt : ∀ (bs : List Nat), (∀ b ∈ bs, b < 256) → ∀ x ∈ sextets bs, x < 64
  | [], _ => by intro x hx; simp [sextets] at hx
  | [a], h => by
    intro x hx
    have ha := h a (by simp)
    simp only [sextets, List.mem_cons, List.mem_singleton, List.not_mem_nil, or_false] at hx
    omega
  | [a, b], h => by
    intro x hx
    have ha := h a (by simp)
    have hb := h b (by simp)
    simp only [sextets, List.mem_cons, List.mem_singleton, List.not_mem_nil, or_false] at hx
    omega
  | a :: b :: c :: rest, h => by
    intro x hx
    have ha := h a (by simp)
    have hb := h b (by simp)
    have hc := h c (by simp)
    have ih := sextets_lt rest (fun y hy => h y (by simp [hy]))
    simp only [sextets, List.mem_cons] at hx
    rcases hx with hx | hx | hx | hx | hx
    · omega
    · omega
    · omega
    · omega
    · exact ih x hx

theorem sextets_length : ∀ (bs : List Nat),
    (sextets bs).length % 4 ≠ 1 ∧
      ((sextets bs).length + (3 - bs.length % 3) % 3) % 4 = 0
  | [] => by simp [sextets]
  | [a] => by simp [sextets]
  | [a, b] => by simp [sextets]
  | a :: b :: c :: rest => by
    have ih := sextets_length rest
    simp only [sextets, List.length_cons]
    omega

theorem decodeSextets_sextets : ∀ (bs : List Nat), (∀ b ∈ bs, b < 256) →
    decodeSextets (sextets bs) = bs
  | [], _ => by simp [sextets, decodeSextets]
  | [a], h => by
    have ha := h a (by simp)
    simp only [sextets, decodeSextets, List.cons.injEq, and_true]
    omega
  | [a, b], h => by
    have ha := h a (by simp)
    have hb := h b (by simp)
    simp only [sextets, decodeSextets, List.cons.injEq, and_true]
    omega
  | a :: b :: c :: rest, h => by
    have ha := h a (by simp)
    have hb := h b (by simp)
    have hc := h c (by simp)
    have ih := decodeSextets_sextets rest (fun y hy => h y (by simp [hy]))
    simp only [sextets, decodeSextets, List.cons.injEq, ih, and_true]
    omega

theorem sextetsOf_map (xs : List Nat) (h : ∀ x ∈ xs, x < 64) :
    sextetsOf (xs.map b64Char) = some xs := by
  induction xs with
  | nil => rfl
  | cons x xs ih =>
    simp only [List.map_cons, sextetsOf, b64Val_b64Char x (h x (List.mem_cons_self x xs)),
      ih (fun y hy => h y (List.mem_cons_of_mem x hy))]

theorem filterMap_b64Val_map (xs : List Nat) (h : ∀ x ∈ xs, x < 64) :
    (xs.map b64Char).filterMap b64Val = xs := by
  induction xs with
  | nil => rfl
  | cons x xs ih =>
    simp only [List.map_cons, List.filterMap_cons,
      b64Val_b64Char x (h x (List.mem_cons_self x xs)),
      ih (fun y hy => h y (List.mem_cons_of_mem x hy))]

theorem getLast_map_b64Char (xs : List Nat) : (xs.map b64Char).getLast? ≠ some 61 := by
  intro hcon
  have hmem := List.mem_of_getLast?_eq_some hcon
  obtain ⟨i, -, hi⟩ := List.mem_map.1 hmem
  exact (b64Char_range i).1 hi

theorem stripPadding_padded (xs : List Nat) (k : Nat) (hk : k ≤ 2) :
    stripPadding (xs.map b64Char ++ List.replicate k 61) = xs.map b64Char := by
  have h0 := getLast_map_b64Char xs
  have hk' : k = 0 ∨ k = 1 ∨ k = 2 := by omega
  rcases hk' with rfl | rfl | rfl
  · simp only [List.replicate_zero, List.append_nil, stripPadding, h0, if_false]
  · have h1 : List.replicate 1 61 = [61] := rfl
    simp only [h1, stripPadding, List.getLast?_concat, if_true, List.dropLast_concat, h0,
      if_false]
  · have h1 : xs.map b64Char ++ List.replicate 2 61 = (xs.map b64Char ++ [61]) ++ [61] := by
      simp [List.replicate]
    rw [h1]
    simp only [stripPadding, List.getLast?_concat, if_true, List.dropLast_concat]

/-- The string that `btoa` gives for code units up to 255 is decoded by `atob`, and read by
`Buffer.from(..., 'base64')`, as the same code units. -/
theorem atob_btoa (bs : JsString) (h : ∀ b ∈ bs, b < 256) :
    ∃ text, btoa bs = .ok text ∧ atob text = .ok bs ∧ bufferFromBase64 text = bs := by
  have hall : bs.all (fun c => decide (c < 256)) = true := by
    simp only [List.all_eq_true, decide_eq_true_eq]
    exact h
  have hlt := sextets_lt bs h
  obtain ⟨hl1, hl2⟩ := sextets_length bs
  have hk : (3 - bs.length % 3) % 3 ≤ 2 := by omega
  refine ⟨(sextets bs).map b64Char ++ List.replicate ((3 - bs.length % 3) % 3) 61, ?_, ?_, ?_⟩
  · simp only [btoa, hall, if_true]
  · have hfilter : ((sextets bs).map b64Char ++ List.replicate ((3 - bs.length % 3) % 3) 61).filter
        (fun c => !decide (c = 9 ∨ c = 10 ∨ c = 12 ∨ c = 13 ∨ c = 32)) =
        (sextets bs).map b64Char ++ List.replicate ((3 - bs.length % 3) % 3) 61 := by
      rw [List.filter_eq_self]
      intro c hc
      rcases List.mem_append.1 hc with hc | hc
      · obtain ⟨i, -, hi⟩ := List.mem_map.1 hc
        have := b64Char_range i
        simp only [Bool.not_eq_true', decide_eq_false_iff_not]
        omega
      · have := (List.mem_replicate.1 hc).2
        simp only [Bool.not_eq_true', decide_eq_false_iff_not]
        omega
    have hlen : ((sextets bs).map b64Char ++
        List.replicate ((3 - bs.length % 3) % 3) 61).length % 4 = 0 := by
      simp only [List.length_append, List.length_map, List.length_replicate]
      exact hl2
    have hlen2 : ¬ ((sextets bs).map b64Char).length % 4 = 1 := by
      simp only [List.length_map]
      exact hl1
    unfold atob
    simp only [hfilter, hlen, if_true, stripPadding_padded (sextets bs) _ hk, hlen2, if_false,
      sextetsOf_map (sextets bs) hlt, decodeSextets_sextets bs h]
  · unfold bufferFromBase64
    have hpad : (List.replicate ((3 - bs.length % 3) % 3) 61).filterMap b64Val = [] := by
      rw [List.filterMap_eq_nil_iff]
      intro c hc
      rw [(List.mem_replicate.1 hc).2]
      decide
    rw [List.filterMap_append, filterMap_b64Val_map (sextets bs) hlt, hpad, List.append_nil,
      decodeSextets_sextets bs h]

end Js

namespace FHEContext

open Js

/-! ## The mock encryption of the frontend: the round trip -/

theorem property_names_spelling :
    keyValue = "value".toList.map Char.toNat ∧
    keyTimestamp = "timestamp".toList.map Char.toNat ∧
    keyRandom = "random".toList.map Char.toNat ∧
    undefinedText = "undefined".toList.map Char.toNat ∧
    radix36Alphabet = "0123456789abcdefghijklmnopqrstuvwxyz.".toList.map Char.toNat := by
  decide

theorem radix36_plain (r : JsString) (hr : ∀ c ∈ r, c ∈ radix36Alphabet) :
    Plain r ∧ ∀ c ∈ r, c < 256 := by
  have h : ∀ c ∈ r, 46 ≤ c ∧ c ≤ 122 ∧ c ≠ 92 := by
    intro c hc
    have := hr c hc
    simp only [radix36Alphabet, List.mem_cons, List.mem_singleton, List.not_mem_nil,
      or_false] at this
    omega
  exact ⟨fun c hc => by have := h c hc; omega, fun c hc => by have := h c hc; omega⟩

theorem toDecimal_plain (n : Nat) : Plain (toDecimal n) ∧ ∀ c ∈ toDecimal n, c < 256 :=
  ⟨fun c hc => by have := toDecimal_digits n c hc; omega,
    fun c hc => by have := toDecimal_digits n c hc; omega⟩

theorem quote_latin1 (s : JsString) (hs : Plain s) (hlt : ∀ c ∈ s, c < 256) :
    ∀ c ∈ quote s, c < 256 := by
  intro c hc
  rw [quote_plain s hs] at hc
  simp only [List.mem_cons, List.mem_append, List.mem_singleton, List.not_mem_nil,
    or_false] at hc
  rcases hc with hc | hc | hc
  · omega
  · exact hlt c hc
  · omega

theorem mockObject_plain (value timestamp : Nat) (random : JsString) (hv : value < 2 ^ 53)
    (ht : timestamp ≤ MAX_TIME_VALUE) (hr : ∀ c ∈ random, c ∈ radix36Alphabet) :
    ∀ x ∈ mockObject value timestamp random, Plain x.1 ∧ PlainValue x.2 := by
  have hkeys : Plain keyValue ∧ Plain keyTimestamp ∧ Plain keyRandom := by
    refine ⟨?_, ?_, ?_⟩ <;> intro c hc <;>
      simp only [keyValue, keyTimestamp, keyRandom, List.mem_cons, List.mem_singleton,
        List.not_mem_nil, or_false] at hc <;> omega
  have ht' : timestamp < 2 ^ 53 := by
    have : MAX_TIME_VALUE = 8640000000000000 := rfl
    omega
  intro x hx
  simp only [mockObject, List.mem_cons, List.mem_singleton, List.not_mem_nil, or_false] at hx
  rcases hx with rfl | rfl | rfl
  · refine ⟨hkeys.1, ?_⟩
    show Plain (numberToString value)
    rw [numberToString_safe value hv]
    exact (toDecimal_plain value).1
  · exact ⟨hkeys.2.1, ht'⟩
  · exact ⟨hkeys.2.2, (radix36_plain random hr).1⟩

theorem mockText_latin1 (value timestamp : Nat) (random : JsString) (hv : value < 2 ^ 53)
    (ht : timestamp ≤ MAX_TIME_VALUE) (hr : ∀ c ∈ random, c ∈ radix36Alphabet) :
    ∀ c ∈ jsonStringify (mockObject value timestamp random), c < 256 := by
  have ht' : timestamp < 2 ^ 53 := by
    have : MAX_TIME_VALUE = 8640000000000000 := rfl
    omega
  have h1 : ∀ c ∈ quote keyValue, c < 256 := by decide
  have h2 : ∀ c ∈ quote keyTimestamp, c < 256 := by decide
  have h3 : ∀ c ∈ quote keyRandom, c < 256 := by decide
  have h4 : ∀ c ∈ quote (toDecimal value), c < 256 :=
    quote_latin1 _ (toDecimal_plain value).1 (toDecimal_plain value).2
  have h5 : ∀ c ∈ toDecimal timestamp, c < 256 := (toDecimal_plain timestamp).2
  have h6 : ∀ c ∈ quote random, c < 256 :=
    quote_latin1 _ (radix36_plain random hr).1 (radix36_plain random hr).2
  simp only [jsonStringify, mockObject, stringifyMembers, stringifyValue,
    numberToString_safe value hv, numberToString_safe timestamp ht', List.forall_mem_append,
    List.forall_mem_cons, List.cons_append]
  exact ⟨by decide, ⟨⟨h1, by decide, h4⟩, by decide, ⟨h2, by decide, h5⟩, by decide, h3,
    by decide, h6⟩, by decide, fun x hx => absurd hx (List.not_mem_nil x)⟩

/-- C26. The round trip of the mock: for every non-negative integer `value` below 2^53, every
time value `timestamp` and every string `random` of radix-36 digits and points,
`encrypt64(value)` returns one handle, which is `btoa` of the JSON text of the object
`{ value, timestamp, random }` whose `value` property is the decimal string of `value`;
`atob` of the handle is that text, `JSON.parse` of the text gives the object back, and
`decrypt` of the handle resolves to `value`. -/
theorem mock_round_trip (value timestamp : Nat) (random : JsString) (hv : value < 2 ^ 53)
    (ht : timestamp ≤ MAX_TIME_VALUE) (hr : ∀ c ∈ random, c ∈ radix36Alphabet) :
    ∃ handle,
      encrypt64 value timestamp random =
        .ok { data := jsonStringify (mockObject value timestamp random),
              handles := [handle] } ∧
      decrypt handle = .ok (.value value) ∧
      btoa (jsonStringify (mockObject value timestamp random)) = .ok handle ∧
      atob handle = .ok (jsonStringify (mockObject value timestamp random)) ∧
      jsonParse (jsonStringify (mockObject value timestamp random)) =
        .ok (mockObject value timestamp random) ∧
      getProperty (mockObject value timestamp random) keyValue =
        some (.str (toDecimal value)) := by
  obtain ⟨handle, h1, h2, h3⟩ := atob_btoa (jsonStringify (mockObject value timestamp random))
    (mockText_latin1 value timestamp random hv ht hr)
  have h4 := jsonParse_stringify (mockObject value timestamp random)
    (mockObject_plain value timestamp random hv ht hr)
  have h5 : getProperty (mockObject value timestamp random) keyValue =
      some (.str (toDecimal value)) := by
    rw [← numberToString_safe value hv]
    rfl
  refine ⟨handle, ?_, ?_, h1, h2, h4, h5⟩
  · simp only [encrypt64, h1, h3]
  · simp only [decrypt, h2, h4, h5, tryCatchJs, parseInt_toDecimal value hv]

/-- Witness for C26: the value 42 drawn with the time 1700000000000 and the random string
`0.abc` meets the hypotheses, so its handle decrypts to 42. -/
theorem mock_round_trip_witness :
    (42 < 2 ^ 53 ∧ 1700000000000 ≤ MAX_TIME_VALUE ∧
      ∀ c ∈ [48, 46, 97, 98, 99], c ∈ radix36Alphabet) ∧
    ∃ handle,
      encrypt64 42 1700000000000 [48, 46, 97, 98, 99] =
        .ok { data := jsonStringify (mockObject 42 1700000000000 [48, 46, 97, 98, 99]),
              handles := [handle] } ∧
      decrypt handle = .ok (.value 42) ∧
      btoa (jsonStringify (mockObject 42 1700000000000 [48, 46, 97, 98, 99])) = .ok handle ∧
      atob handle = .ok (jsonStringify (mockObject 42 1700000000000 [48, 46, 97, 98, 99])) ∧
      jsonParse (jsonStringify (mockObject 42 1700000000000 [48, 46, 97, 98, 99])) =
        .ok (mockObject 42 1700000000000 [48, 46, 97, 98, 99]) ∧
      getProperty (mockObject 42 1700000000000 [48, 46, 97, 98, 99]) keyValue =
        some (.str (toDecimal 42)) :=
  ⟨⟨by decide, by decide, by decide⟩,
    mock_round_trip 42 1700000000000 [48, 46, 97, 98, 99] (by decide) (by decide) (by decide)⟩

end FHEContext
